import Mathlib

/-!
# Pairwise alignment engine of `ivory` (`include/aligner.cpp`)

A shallow embedding of `GlobalAlignment`, `LocalAlignment`, `SemiGlobalAlignment`, `GetCigar`,
`GetTargetBegin` and `Align`, followed by theorems about them.

Conventions of the embedding.

* A sequence view `(const char*, unsigned int)` is a `List Char`; its length is the `_len`
  argument of the source.
* `int` is `Int`.  Signed overflow is undefined behaviour in C++, so the theorems describe the
  executions in which no intermediate value leaves the range of `int`.
* The two heap grids `matrix` and `traceback` are functions `Nat → Nat → _` updated cell by cell;
  the loops of the source are folds over `List.range' 1 len`, that is over `1, …, len`.
* The `while (true)` walks of `GetCigar` and `GetTargetBegin` are functions with a fuel argument
  and an explicit fault for a read outside the grid; `GetCigar` and `GetTargetBegin` give them
  `end_query + end_target + 1` units of fuel, which is always enough (`tracebackWalk_fuel`).
* The diagnostic printing (`matrix_print`) has no effect on the results and is left out.
-/

namespace ivory

/-- Modelled from the spec: the enumeration `Direction` is declared in `aligner.hpp`, which is not
among the sources.  Its four tags are the ones of the spec's traceback grid; the numbering
`up = 0`, `left = 1`, `diag = 2`, `stop = 3` is read off the case labels of `PrintTraceback`
(`0 ↦ U`, `1 ↦ L`, `2 ↦ D`, `3 ↦ S`). -/
inductive Direction where
  | up
  | left
  | diag
  | stop
  deriving DecidableEq

open Direction

/-- The integer value of a `Direction` tag (see `Direction`). -/
def Direction.toNat : Direction → Nat
  | up => 0
  | left => 1
  | diag => 2
  | stop => 3

/-- Modelled from the spec: the enumeration `AlignmentType` is declared in `aligner.hpp`, which is
not among the sources; `Align` switches over `global`, `local` and `semiglobal`. -/
inductive AlignmentType where
  | global
  | local_
  | semiglobal
  deriving DecidableEq

/-- A heap grid `T**`, indexed `grid[i][j]`. -/
abbrev Grid (α : Type) := Nat → Nat → α

/-- The assignment `grid[i][j] = v`. -/
def Grid.set {α : Type} (g : Grid α) (i j : Nat) (v : α) : Grid α :=
  fun a b => if a = i ∧ b = j then v else g a b

/-- The comparison `operator<` of `std::pair<int, Direction>`: lexicographic, the tags compared
by their integer values. -/
def pairLess (a b : Int × Direction) : Bool :=
  decide (a.1 < b.1) || (!decide (b.1 < a.1) && decide (a.2.toNat < b.2.toNat))

/-- The element `std::max_element(v.begin(), v.end())` points to: the first element of `v` that no
other element exceeds.  (The vectors of the source are never empty.) -/
def max_element : List (Int × Direction) → Int × Direction
  | [] => (0, stop)
  | x :: xs => xs.foldl (fun largest y => if pairLess largest y then y else largest) x

/-- The variables of an alignment function that its loops update. -/
structure AlignState where
  matrix : Grid Int
  traceback : Grid Direction
  score : Int
  end_query : Nat
  end_target : Nat

/-- The candidate `subs` of an interior cell. -/
def subs (query target : List Char) (match_ mismatch : Int) (matrix : Grid Int)
    (i j : Nat) : Int :=
  matrix (i - 1) (j - 1) + (if query[i - 1]? = target[j - 1]? then match_ else mismatch)

/-- The candidate `ins` of an interior cell. -/
def ins (gap gap_open gap_extend : Int) (matrix : Grid Int) (traceback : Grid Direction)
    (i j : Nat) : Int :=
  if gap_open ≠ 0 ∧ gap_extend ≠ 0 then
    matrix i (j - 1) + (if traceback i (j - 1) = left then gap_extend else gap_open)
  else
    matrix i (j - 1) + gap

/-- The candidate `del` of an interior cell. -/
def del (gap gap_open gap_extend : Int) (matrix : Grid Int) (traceback : Grid Direction)
    (i j : Nat) : Int :=
  if gap_open ≠ 0 ∧ gap_extend ≠ 0 then
    matrix (i - 1) j + (if traceback (i - 1) j = up then gap_extend else gap_open)
  else
    matrix (i - 1) j + gap

/-- The element `step` that the body of the interior loops of `GlobalAlignment` and
`SemiGlobalAlignment` selects for cell `(i, j)`. -/
def step3 (query target : List Char) (match_ mismatch gap gap_open gap_extend : Int)
    (matrix : Grid Int) (traceback : Grid Direction) (i j : Nat) : Int × Direction :=
  max_element
    [(subs query target match_ mismatch matrix i j, diag),
     (ins gap gap_open gap_extend matrix traceback i j, left),
     (del gap gap_open gap_extend matrix traceback i j, up)]

/-- The element `step` that the body of the interior loop of `LocalAlignment` selects for cell
`(i, j)`. -/
def step4 (query target : List Char) (match_ mismatch gap gap_open gap_extend : Int)
    (matrix : Grid Int) (traceback : Grid Direction) (i j : Nat) : Int × Direction :=
  max_element
    [(subs query target match_ mismatch matrix i j, diag),
     (ins gap gap_open gap_extend matrix traceback i j, left),
     (del gap gap_open gap_extend matrix traceback i j, up),
     (0, stop)]

/-- The initial state: freshly allocated grids.  Every cell that is read has been written
before, so the content chosen here for the uninitialised cells is never observed. -/
def allocate : AlignState :=
  { matrix := fun _ _ => 0, traceback := fun _ _ => up, score := 0, end_query := 0,
    end_target := 0 }

/-- The two border loops of `GlobalAlignment`, after `matrix[0][0] = 0; traceback[0][0] = stop`. -/
def globalBorders (query_len target_len : Nat) (gap : Int) : AlignState :=
  let s : AlignState :=
    { allocate with matrix := allocate.matrix.set 0 0 0,
                    traceback := allocate.traceback.set 0 0 stop }
  let s := (List.range' 1 target_len).foldl
    (fun (s : AlignState) j =>
      { s with matrix := s.matrix.set 0 j (gap * j), traceback := s.traceback.set 0 j left }) s
  (List.range' 1 query_len).foldl
    (fun (s : AlignState) i =>
      { s with matrix := s.matrix.set i 0 (gap * i), traceback := s.traceback.set i 0 up }) s

/-- The two border loops of `LocalAlignment` and of `SemiGlobalAlignment`, after
`matrix[0][0] = 0; traceback[0][0] = stop`, and the initialisation
`int score = 0; unsigned int end_query = 0, end_target = 0;`. -/
def zeroBorders (query_len target_len : Nat) : AlignState :=
  let s : AlignState :=
    { allocate with matrix := allocate.matrix.set 0 0 0,
                    traceback := allocate.traceback.set 0 0 stop }
  let s := (List.range' 1 target_len).foldl
    (fun (s : AlignState) j =>
      { s with matrix := s.matrix.set 0 j 0, traceback := s.traceback.set 0 j stop }) s
  let s := (List.range' 1 query_len).foldl
    (fun (s : AlignState) i =>
      { s with matrix := s.matrix.set i 0 0, traceback := s.traceback.set i 0 stop }) s
  { s with score := 0, end_query := 0, end_target := 0 }

/-- The body of the interior loops of `GlobalAlignment` at cell `(i, j)`. -/
def globalCell (query target : List Char) (match_ mismatch gap gap_open gap_extend : Int)
    (s : AlignState) (i j : Nat) : AlignState :=
  let step := step3 query target match_ mismatch gap gap_open gap_extend s.matrix s.traceback i j
  { s with matrix := s.matrix.set i j step.1, traceback := s.traceback.set i j step.2 }

/-- The body of the interior loops of `LocalAlignment` at cell `(i, j)`. -/
def localCell (query target : List Char) (match_ mismatch gap gap_open gap_extend : Int)
    (s : AlignState) (i j : Nat) : AlignState :=
  let step := step4 query target match_ mismatch gap gap_open gap_extend s.matrix s.traceback i j
  let s : AlignState :=
    { s with matrix := s.matrix.set i j step.1, traceback := s.traceback.set i j step.2 }
  if s.matrix i j > s.score then
    { s with score := s.matrix i j, end_query := i, end_target := j }
  else s

/-- The body of the interior loops of `SemiGlobalAlignment` at cell `(i, j)`. -/
def semiGlobalCell (query target : List Char) (match_ mismatch gap gap_open gap_extend : Int)
    (s : AlignState) (i j : Nat) : AlignState :=
  let step := step3 query target match_ mismatch gap gap_open gap_extend s.matrix s.traceback i j
  let s : AlignState :=
    { s with matrix := s.matrix.set i j step.1, traceback := s.traceback.set i j step.2 }
  if (i = query.length ∨ j = target.length) ∧ s.matrix i j > s.score then
    { s with score := s.matrix i j, end_query := i, end_target := j }
  else s

/-- The nested loops `for i in 1..query_len: for j in 1..target_len: body`. -/
def interiorLoop (body : AlignState → Nat → Nat → AlignState) (query_len target_len : Nat)
    (s : AlignState) : AlignState :=
  (List.range' 1 query_len).foldl
    (fun s i => (List.range' 1 target_len).foldl (fun s j => body s i j) s) s

/-- The state of `GlobalAlignment` when its grids are filled and `score`, `end_query`,
`end_target` are set. -/
def globalFill (query target : List Char) (match_ mismatch gap gap_open gap_extend : Int) :
    AlignState :=
  let s := interiorLoop (globalCell query target match_ mismatch gap gap_open gap_extend)
    query.length target.length (globalBorders query.length target.length gap)
  { s with score := s.matrix query.length target.length, end_query := query.length,
           end_target := target.length }

/-- The state of `LocalAlignment` when its grids are filled. -/
def localFill (query target : List Char) (match_ mismatch gap gap_open gap_extend : Int) :
    AlignState :=
  interiorLoop (localCell query target match_ mismatch gap gap_open gap_extend)
    query.length target.length (zeroBorders query.length target.length)

/-- The state of `SemiGlobalAlignment` when its grids are filled. -/
def semiGlobalFill (query target : List Char) (match_ mismatch gap gap_open gap_extend : Int) :
    AlignState :=
  interiorLoop (semiGlobalCell query target match_ mismatch gap gap_open gap_extend)
    query.length target.length (zeroBorders query.length target.length)

/-- The ways an execution of the traceback code can fail to produce a value. -/
inductive Fault where
  | outOfFuel
  | outOfBounds
  deriving DecidableEq

deriving instance DecidableEq for Except

/-- The `while (true)` loop shared by `GetCigar` and `GetTargetBegin`, started at cell `(i, j)`:
the operators appended to `cigar` (first appended first) and the cell at which the loop breaks.
A step that would leave the grid (`i--` at `i = 0`, `j--` at `j = 0`) makes the next read
`traceback[i][j]` undefined. -/
def tracebackWalk (traceback : Grid Direction) :
    Nat → Nat → Nat → Except Fault (List Char × Nat × Nat)
  | 0, _, _ => .error .outOfFuel
  | fuel + 1, i, j =>
    match traceback i j with
    | diag =>
      if i = 0 ∨ j = 0 then .error .outOfBounds
      else (tracebackWalk traceback fuel (i - 1) (j - 1)).map fun r => ('M' :: r.1, r.2)
    | left =>
      if j = 0 then .error .outOfBounds
      else (tracebackWalk traceback fuel i (j - 1)).map fun r => ('I' :: r.1, r.2)
    | up =>
      if i = 0 then .error .outOfBounds
      else (tracebackWalk traceback fuel (i - 1) j).map fun r => ('D' :: r.1, r.2)
    | stop => .ok ([], i, j)

/-- The run-length loop of `GetCigar`, `for (int i = 1; i < cigar.size(); i++)`, over the pairs
`(cigar[i-1], cigar[i])`; it returns the final `count` and `new_cigar`. -/
def runLengthLoop : List Char → Nat → String → Nat × String
  | prev :: cur :: rest, count, new_cigar =>
    if cur = prev then runLengthLoop (cur :: rest) (count + 1) new_cigar
    else runLengthLoop (cur :: rest) 1 (new_cigar ++ toString count ++ String.singleton prev)
  | _, count, new_cigar => (count, new_cigar)

/-- `GetCigar`.  The last statement reads `cigar[cigar.size()-1]`, which is outside the string
when the walk appended nothing. -/
def GetCigar (traceback : Grid Direction) (end_query end_target : Nat) : Except Fault String :=
  match tracebackWalk traceback (end_query + end_target + 1) end_query end_target with
  | .error e => .error e
  | .ok (cigar, _, _) =>
    let cigar := cigar.reverse
    let (count, new_cigar) := runLengthLoop cigar 1 ""
    match cigar.getLast? with
    | none => .error .outOfBounds
    | some c => .ok (new_cigar ++ toString count ++ String.singleton c)

/-- `GetTargetBegin`. -/
def GetTargetBegin (traceback : Grid Direction) (end_query end_target : Nat) : Except Fault Nat :=
  match tracebackWalk traceback (end_query + end_target + 1) end_query end_target with
  | .error e => .error e
  | .ok (_, _, j) => .ok j

/-- What an alignment function hands back: the returned score, and the values written through
`cigar` and `target_begin` when these pointers are not null. -/
structure AlignmentResult where
  score : Int
  cigar : Except Fault String
  target_begin : Except Fault Nat

/-- The tail shared by the three alignment functions: encode the traceback from the end cell. -/
def finish (s : AlignState) : AlignmentResult :=
  { score := s.score,
    cigar := GetCigar s.traceback s.end_query s.end_target,
    target_begin := GetTargetBegin s.traceback s.end_query s.end_target }

/-- `GlobalAlignment`. -/
def GlobalAlignment (query target : List Char) (match_ mismatch gap gap_open gap_extend : Int) :
    AlignmentResult :=
  finish (globalFill query target match_ mismatch gap gap_open gap_extend)

/-- `LocalAlignment`. -/
def LocalAlignment (query target : List Char) (match_ mismatch gap gap_open gap_extend : Int) :
    AlignmentResult :=
  finish (localFill query target match_ mismatch gap gap_open gap_extend)

/-- `SemiGlobalAlignment`. -/
def SemiGlobalAlignment (query target : List Char)
    (match_ mismatch gap gap_open gap_extend : Int) : AlignmentResult :=
  finish (semiGlobalFill query target match_ mismatch gap gap_open gap_extend)

/-- `Align`. -/
def Align (query target : List Char) (type : AlignmentType)
    (match_ mismatch gap gap_open gap_extend : Int) : AlignmentResult :=
  match type with
  | .global => GlobalAlignment query target match_ mismatch gap gap_open gap_extend
  | .local_ => LocalAlignment query target match_ mismatch gap gap_open gap_extend
  | .semiglobal => SemiGlobalAlignment query target match_ mismatch gap gap_open gap_extend

/-! ## Vocabulary of the statements -/

/-- The operator the traceback walk appends at a cell with the given tag. -/
def opOf : Direction → Option Char
  | diag => some 'M'
  | left => some 'I'
  | up => some 'D'
  | stop => none

/-- The substitution cost of aligning `query[i]` with `target[j]`. -/
def substitution (query target : List Char) (match_ mismatch : Int) (i j : Nat) : Int :=
  if query[i]? = target[j]? then match_ else mismatch

/-- State of a replay of an operator sequence: `i` query characters and `j` target characters
are consumed, `prev` is the operator replayed last, `cost` the sum of the step costs so far. -/
structure Replay where
  i : Nat
  j : Nat
  prev : Option Char
  cost : Int
  deriving DecidableEq

/-- One replayed operator, with the moves of the traceback walk read forwards: `M` consumes one
character of each sequence (walk: `i--; j--`), `I` one target character (walk: `j--`), `D` one
query character (walk: `i--`).  `sub i j` is charged for an `M` aligning `query[i]` with
`target[j]`, `gapCost op prev i j` for a gap operator `op` replayed at `(i, j)` after `prev`. -/
def replayStep (sub : Nat → Nat → Int) (gapCost : Char → Option Char → Nat → Nat → Int)
    (st : Replay) (op : Char) : Replay :=
  if op = 'M' then ⟨st.i + 1, st.j + 1, some 'M', st.cost + sub st.i st.j⟩
  else if op = 'I' then ⟨st.i, st.j + 1, some 'I', st.cost + gapCost 'I' st.prev st.i st.j⟩
  else ⟨st.i + 1, st.j, some 'D', st.cost + gapCost 'D' st.prev st.i st.j⟩

/-- Replay of an operator sequence given in start-to-end order. -/
def replay (sub : Nat → Nat → Int) (gapCost : Char → Option Char → Nat → Nat → Int)
    (ops : List Char) (start : Replay) : Replay :=
  ops.foldl (replayStep sub gapCost) start

/-- Linear gap cost: every `I` and every `D` costs `gap`. -/
def linearGap (gap : Int) : Char → Option Char → Nat → Nat → Int :=
  fun _ _ _ _ => gap

/-- Affine gap cost: `gap_extend` when the preceding operator is the same gap operator,
`gap_open` otherwise. -/
def affineGap (gap_open gap_extend : Int) : Char → Option Char → Nat → Nat → Int :=
  fun op prev _ _ => if prev = some op then gap_extend else gap_open

/-- Affine gap cost with a flat border: an `I` along row `0` and a `D` along column `0` cost
`gap`; every other gap operator follows `affineGap`. -/
def affineGapFlatBorder (gap gap_open gap_extend : Int) : Char → Option Char → Nat → Nat → Int :=
  fun op prev i j =>
    if (op = 'I' ∧ i = 0) ∨ (op = 'D' ∧ j = 0) then gap
    else if prev = some op then gap_extend else gap_open

/-- The gap cost the filled grids follow, in both regimes; `flat` says whether the border is
filled with multiples of `gap` (as in `GlobalAlignment`). -/
def gridGap (gap gap_open gap_extend : Int) (flat : Bool) :
    Char → Option Char → Nat → Nat → Int :=
  fun op prev i j =>
    if gap_open ≠ 0 ∧ gap_extend ≠ 0 then
      if flat = true ∧ ((op = 'I' ∧ i = 0) ∨ (op = 'D' ∧ j = 0)) then gap
      else if prev = some op then gap_extend else gap_open
    else gap

/-- Every tagged cell of the grids holds the value of its predecessor plus the cost of the step
its tag stands for. -/
structure Consistent (sub : Nat → Nat → Int) (gapCost : Char → Option Char → Nat → Nat → Int)
    (n m : Nat) (M : Grid Int) (T : Grid Direction) : Prop where
  diag : ∀ a b, a ≤ n → b ≤ m → T a b = diag →
    1 ≤ a ∧ 1 ≤ b ∧ M a b = M (a - 1) (b - 1) + sub (a - 1) (b - 1)
  left : ∀ a b, a ≤ n → b ≤ m → T a b = left →
    1 ≤ b ∧ M a b = M a (b - 1) + gapCost 'I' (opOf (T a (b - 1))) a (b - 1)
  up : ∀ a b, a ≤ n → b ≤ m → T a b = up →
    1 ≤ a ∧ M a b = M (a - 1) b + gapCost 'D' (opOf (T (a - 1) b)) (a - 1) b

/-- An operator sequence over `M`, `I`, `D`. -/
def IsEditScript (ops : List Char) : Prop :=
  ∀ c ∈ ops, c = 'M' ∨ c = 'I' ∨ c = 'D'

/-- The number of query characters an operator sequence consumes (moves `i--` of the walk). -/
def queryConsumed (ops : List Char) : Nat :=
  ops.count 'M' + ops.count 'D'

/-- The number of target characters an operator sequence consumes (moves `j--` of the walk). -/
def targetConsumed (ops : List Char) : Nat :=
  ops.count 'M' + ops.count 'I'

/-- The filled state from which `Align` encodes its results, for each alignment type. -/
def alignFill (type : AlignmentType) (query target : List Char)
    (match_ mismatch gap gap_open gap_extend : Int) : AlignState :=
  match type with
  | .global => globalFill query target match_ mismatch gap gap_open gap_extend
  | .local_ => localFill query target match_ mismatch gap gap_open gap_extend
  | .semiglobal => semiGlobalFill query target match_ mismatch gap gap_open gap_extend

/-- The cost of an edit script under the linear cost model, replayed from the start of both
sequences. -/
def scriptCost (query target : List Char) (match_ mismatch gap : Int) (ops : List Char) : Int :=
  (replay (substitution query target match_ mismatch) (linearGap gap) ops ⟨0, 0, none, 0⟩).cost

/-- Reading a CIGAR string from left to right: decimal digits accumulate a run length, any other
character is an operator and closes the token. -/
def cigarRunsAux : List Char → Nat → List (Nat × Char)
  | [], _ => []
  | c :: cs, acc =>
    if c.isDigit then cigarRunsAux cs (10 * acc + (c.toNat - '0'.toNat))
    else (acc, c) :: cigarRunsAux cs 0

/-- The tokens `(run length, operator)` of a CIGAR string. -/
def cigarRuns (cigar : String) : List (Nat × Char) :=
  cigarRunsAux cigar.data 0

/-- The run-length decoding of a token list. -/
def expandRuns : List (Nat × Char) → List Char
  | [] => []
  | (n, c) :: rs => List.replicate n c ++ expandRuns rs

/-- The sum of the run lengths of the tokens whose operator is one of `ops`. -/
def runLengthSum (ops : List Char) : List (Nat × Char) → Nat
  | [] => 0
  | (n, c) :: rs => (if c ∈ ops then n else 0) + runLengthSum ops rs

/-- The string `acc` is a sequence of complete tokens: read in front of any continuation it
contributes the tokens `runs`. -/
def ReadsAs (acc : String) (runs : List (Nat × Char)) : Prop :=
  ∀ rest : List Char, cigarRunsAux (acc.data ++ rest) 0 = runs ++ cigarRunsAux rest 0

/-- Cell `(i, j)` has been written when rows `1..r` are complete and columns `1..c` of row
`r + 1` are done. -/
def Processed (m r c i j : Nat) : Prop :=
  1 ≤ i ∧ 1 ≤ j ∧ j ≤ m ∧ (i ≤ r ∨ (i = r + 1 ∧ j ≤ c))

/-- A cell selection reads the grids only at the three neighbours of the cell. -/
def ReadsNeighbours (pick : Grid Int → Grid Direction → Nat → Nat → Int × Direction) : Prop :=
  ∀ (M M2 : Grid Int) (T T2 : Grid Direction) (i j : Nat),
    M (i - 1) (j - 1) = M2 (i - 1) (j - 1) → M i (j - 1) = M2 i (j - 1) →
    M (i - 1) j = M2 (i - 1) j → T i (j - 1) = T2 i (j - 1) → T (i - 1) j = T2 (i - 1) j →
    pick M T i j = pick M2 T2 i j

/-- Loop invariant of the grids: the border is as the border loops left it, and every written
cell holds the selection made from its neighbours. -/
structure GridInv (pick : Grid Int → Grid Direction → Nat → Nat → Int × Direction)
    (s0 : AlignState) (m r c : Nat) (s : AlignState) : Prop where
  border : ∀ i j, i = 0 ∨ j = 0 →
    s.matrix i j = s0.matrix i j ∧ s.traceback i j = s0.traceback i j
  cell : ∀ i j, Processed m r c i j →
    s.matrix i j = (pick s.matrix s.traceback i j).1 ∧
    s.traceback i j = (pick s.matrix s.traceback i j).2

/-- The border of the grids of `GlobalAlignment`. -/
structure GlobalBorder (gap : Int) (n m : Nat) (s : AlignState) : Prop where
  origin : s.matrix 0 0 = 0 ∧ s.traceback 0 0 = stop
  row : ∀ j, 1 ≤ j → j ≤ m → s.matrix 0 j = gap * j ∧ s.traceback 0 j = left
  col : ∀ i, 1 ≤ i → i ≤ n → s.matrix i 0 = gap * i ∧ s.traceback i 0 = up

/-- The border of the grids of `LocalAlignment` and `SemiGlobalAlignment`. -/
structure ZeroBorder (n m : Nat) (s : AlignState) : Prop where
  origin : s.matrix 0 0 = 0 ∧ s.traceback 0 0 = stop
  row : ∀ j, 1 ≤ j → j ≤ m → s.matrix 0 j = 0 ∧ s.traceback 0 j = stop
  col : ∀ i, 1 ≤ i → i ≤ n → s.matrix i 0 = 0 ∧ s.traceback i 0 = stop

/-- What the loops of `GlobalAlignment` establish. -/
structure GlobalSpec (query target : List Char) (match_ mismatch gap gap_open gap_extend : Int)
    (s : AlignState) : Prop where
  border : GlobalBorder gap query.length target.length s
  interior : ∀ i j, 1 ≤ i → i ≤ query.length → 1 ≤ j → j ≤ target.length →
    s.matrix i j = (step3 query target match_ mismatch gap gap_open gap_extend
      s.matrix s.traceback i j).1 ∧
    s.traceback i j = (step3 query target match_ mismatch gap gap_open gap_extend
      s.matrix s.traceback i j).2
  score_eq : s.score = s.matrix query.length target.length
  end_query_eq : s.end_query = query.length
  end_target_eq : s.end_target = target.length

/-- What the loops of `LocalAlignment` establish. -/
structure LocalSpec (query target : List Char) (match_ mismatch gap gap_open gap_extend : Int)
    (s : AlignState) : Prop where
  border : ZeroBorder query.length target.length s
  interior : ∀ i j, 1 ≤ i → i ≤ query.length → 1 ≤ j → j ≤ target.length →
    s.matrix i j = (step4 query target match_ mismatch gap gap_open gap_extend
      s.matrix s.traceback i j).1 ∧
    s.traceback i j = (step4 query target match_ mismatch gap gap_open gap_extend
      s.matrix s.traceback i j).2
  score_nonneg : 0 ≤ s.score
  score_ge : ∀ i j, 1 ≤ i → i ≤ query.length → 1 ≤ j → j ≤ target.length →
    s.matrix i j ≤ s.score
  score_eq : s.score = s.matrix s.end_query s.end_target
  end_cases : (s.end_query = 0 ∧ s.end_target = 0) ∨
    (1 ≤ s.end_query ∧ s.end_query ≤ query.length ∧
      1 ≤ s.end_target ∧ s.end_target ≤ target.length)

/-- What the loops of `SemiGlobalAlignment` establish. -/
structure SemiGlobalSpec (query target : List Char) (match_ mismatch gap gap_open gap_extend : Int)
    (s : AlignState) : Prop where
  border : ZeroBorder query.length target.length s
  interior : ∀ i j, 1 ≤ i → i ≤ query.length → 1 ≤ j → j ≤ target.length →
    s.matrix i j = (step3 query target match_ mismatch gap gap_open gap_extend
      s.matrix s.traceback i j).1 ∧
    s.traceback i j = (step3 query target match_ mismatch gap gap_open gap_extend
      s.matrix s.traceback i j).2
  score_nonneg : 0 ≤ s.score
  score_ge : ∀ i j, 1 ≤ i → i ≤ query.length → 1 ≤ j → j ≤ target.length →
    i = query.length ∨ j = target.length → s.matrix i j ≤ s.score
  score_eq : s.score = s.matrix s.end_query s.end_target
  end_cases : (s.end_query = 0 ∧ s.end_target = 0) ∨
    (1 ≤ s.end_query ∧ s.end_query ≤ query.length ∧
      1 ≤ s.end_target ∧ s.end_target ≤ target.length ∧
      (s.end_query = query.length ∨ s.end_target = target.length))

/-- The run-length encoding step of `GetCigar`: the statements after `std::reverse`, applied to
the reversed raw string `cigar`. -/
def runLengthEncode (cigar : List Char) : Except Fault String :=
  let (count, new_cigar) := runLengthLoop cigar 1 ""
  match cigar.getLast? with
  | none => .error .outOfBounds
  | some c => .ok (new_cigar ++ toString count ++ String.singleton c)

/-- The concatenation of the tokens `<count><operator>` of a token list. -/
def renderRuns (runs : List (Nat × Char)) : String :=
  runs.foldl (fun s t => s ++ toString t.1 ++ String.singleton t.2) ""

/-- The cells at which the `while (true)` loop of `GetCigar` and `GetTargetBegin` reads
`traceback[i][j]`, in the order of the reads, up to a fault. -/
def walkCells (traceback : Grid Direction) : Nat → Nat → Nat → List (Nat × Nat)
  | 0, _, _ => []
  | fuel + 1, i, j =>
    (i, j) ::
      match traceback i j with
      | diag => if i = 0 ∨ j = 0 then [] else walkCells traceback fuel (i - 1) (j - 1)
      | left => if j = 0 then [] else walkCells traceback fuel i (j - 1)
      | up => if i = 0 then [] else walkCells traceback fuel (i - 1) j
      | stop => []

/-! ## Loops -/

theorem Grid.set_same {α : Type} (g : Grid α) (i j : Nat) (v : α) : g.set i j v i j = v := by
  simp [Grid.set]

theorem Grid.set_other {α : Type} (g : Grid α) (i j : Nat) (v : α) (a b : Nat)
    (h : ¬(a = i ∧ b = j)) : g.set i j v a b = g a b := by
  simp [Grid.set, h]

/-- Invariant rule for a loop `for (k = 1; k < n + 1; k++)`. -/
theorem foldl_range_inv {σ : Type} (f : σ → Nat → σ) (P : Nat → σ → Prop) (s0 : σ) (n : Nat)
    (h0 : P 0 s0) (hstep : ∀ k s, k < n → P k s → P (k + 1) (f s (k + 1))) :
    P n ((List.range' 1 n).foldl f s0) := by
  induction n with
  | zero => simpa using h0
  | succ n ih =>
    rw [List.range'_concat, List.foldl_append]
    have h := hstep n _ (Nat.lt_succ_self n)
      (ih (fun k s hk hp => hstep k s (Nat.lt_succ_of_lt hk) hp))
    simpa [Nat.add_comm] using h

/-- Invariant rule for the nested interior loops: `P r c s` speaks of the state `s` reached when
rows `1..r` are complete and columns `1..c` of row `r + 1` are done. -/
theorem interiorLoop_inv (body : AlignState → Nat → Nat → AlignState)
    (P : Nat → Nat → AlignState → Prop) (n m : Nat) (s0 : AlignState)
    (h0 : P 0 0 s0)
    (hcell : ∀ r c s, r < n → c < m → P r c s → P r (c + 1) (body s (r + 1) (c + 1)))
    (hrow : ∀ r s, r < n → P r m s → P (r + 1) 0 s) :
    P n 0 (interiorLoop body n m s0) := by
  unfold interiorLoop
  refine foldl_range_inv _ (fun r s => P r 0 s) s0 n h0 ?_
  intro r s hr hP
  refine hrow r _ hr ?_
  exact foldl_range_inv _ (fun c s => P r c s) s m hP (fun c s hc hp => hcell r c s hr hc hp)

theorem GridInv.init (pick : Grid Int → Grid Direction → Nat → Nat → Int × Direction)
    (s0 : AlignState) (m : Nat) : GridInv pick s0 m 0 0 s0 := by
  refine ⟨fun _ _ _ => ⟨rfl, rfl⟩, ?_⟩
  intro i j h
  unfold Processed at h
  omega

theorem GridInv.row {pick : Grid Int → Grid Direction → Nat → Nat → Int × Direction}
    {s0 s : AlignState} {m r : Nat} (h : GridInv pick s0 m r m s) :
    GridInv pick s0 m (r + 1) 0 s := by
  refine ⟨h.border, ?_⟩
  intro i j hp
  apply h.cell
  unfold Processed at hp ⊢
  omega

theorem GridInv.step {pick : Grid Int → Grid Direction → Nat → Nat → Int × Direction}
    (hpick : ReadsNeighbours pick) {s0 s s2 : AlignState} {m r c : Nat}
    (h : GridInv pick s0 m r c s)
    (hM : s2.matrix = s.matrix.set (r + 1) (c + 1) (pick s.matrix s.traceback (r + 1) (c + 1)).1)
    (hT : s2.traceback =
      s.traceback.set (r + 1) (c + 1) (pick s.matrix s.traceback (r + 1) (c + 1)).2) :
    GridInv pick s0 m r (c + 1) s2 := by
  have key : ∀ i j, Processed m r (c + 1) i j →
      pick s2.matrix s2.traceback i j = pick s.matrix s.traceback i j := by
    intro i j hp
    unfold Processed at hp
    apply hpick <;> first | rw [hM] | rw [hT]
    all_goals (apply Grid.set_other; omega)
  constructor
  · intro i j hb
    rw [hM, hT, Grid.set_other _ _ _ _ _ _ (by omega), Grid.set_other _ _ _ _ _ _ (by omega)]
    exact h.border i j hb
  · intro i j hp
    rw [key i j hp]
    by_cases hij : i = r + 1 ∧ j = c + 1
    · obtain ⟨rfl, rfl⟩ := hij
      rw [hM, hT, Grid.set_same, Grid.set_same]
      exact ⟨rfl, rfl⟩
    · rw [hM, hT, Grid.set_other _ _ _ _ _ _ hij, Grid.set_other _ _ _ _ _ _ hij]
      apply h.cell
      unfold Processed at hp ⊢
      omega

/-! ## The filled grids -/

theorem step3_readsNeighbours (query target : List Char)
    (match_ mismatch gap gap_open gap_extend : Int) :
    ReadsNeighbours (step3 query target match_ mismatch gap gap_open gap_extend) := by
  intro M M2 T T2 i j h1 h2 h3 h4 h5
  simp only [step3, subs, ins, del, h1, h2, h3, h4, h5]

theorem step4_readsNeighbours (query target : List Char)
    (match_ mismatch gap gap_open gap_extend : Int) :
    ReadsNeighbours (step4 query target match_ mismatch gap gap_open gap_extend) := by
  intro M M2 T T2 i j h1 h2 h3 h4 h5
  simp only [step4, subs, ins, del, h1, h2, h3, h4, h5]

theorem globalBorders_spec (n m : Nat) (gap : Int) :
    GlobalBorder gap n m (globalBorders n m gap) := by
  unfold globalBorders
  refine foldl_range_inv _ (fun k s => GlobalBorder gap k m s) _ n ?_ ?_
  · refine foldl_range_inv _ (fun k s => GlobalBorder gap 0 k s) _ m ?_ ?_
    · refine ⟨⟨?_, ?_⟩, ?_, ?_⟩
      · simp [Grid.set]
      · simp [Grid.set]
      · intro j h1 h2; omega
      · intro i h1 h2; omega
    · intro k s _ h
      refine ⟨?_, ?_, ?_⟩
      · simpa [Grid.set] using h.origin
      · intro j h1 h2
        by_cases hj : j = k + 1
        · subst hj; simp [Grid.set]
        · have := h.row j h1 (by omega)
          simpa [Grid.set, hj] using this
      · intro i h1 h2; omega
  · intro k s _ h
    refine ⟨?_, ?_, ?_⟩
    · simpa [Grid.set] using h.origin
    · intro j h1 h2
      have := h.row j h1 h2
      simpa [Grid.set] using this
    · intro i h1 h2
      by_cases hi : i = k + 1
      · subst hi; simp [Grid.set]
      · have := h.col i h1 (by omega)
        simpa [Grid.set, hi] using this

theorem zeroBorders_spec (n m : Nat) :
    ZeroBorder n m (zeroBorders n m) ∧ (zeroBorders n m).score = 0 ∧
      (zeroBorders n m).end_query = 0 ∧ (zeroBorders n m).end_target = 0 := by
  refine ⟨?_, rfl, rfl, rfl⟩
  unfold zeroBorders
  suffices h : ZeroBorder n m ((List.range' 1 n).foldl
      (fun (s : AlignState) i =>
        { s with matrix := s.matrix.set i 0 0, traceback := s.traceback.set i 0 stop })
      ((List.range' 1 m).foldl
        (fun (s : AlignState) j =>
          { s with matrix := s.matrix.set 0 j 0, traceback := s.traceback.set 0 j stop })
        { allocate with matrix := allocate.matrix.set 0 0 0,
                        traceback := allocate.traceback.set 0 0 stop })) from
    ⟨h.origin, h.row, h.col⟩
  refine foldl_range_inv _ (fun k s => ZeroBorder k m s) _ n ?_ ?_
  · refine foldl_range_inv _ (fun k s => ZeroBorder 0 k s) _ m ?_ ?_
    · refine ⟨⟨?_, ?_⟩, ?_, ?_⟩
      · simp [Grid.set]
      · simp [Grid.set]
      · intro j h1 h2; omega
      · intro i h1 h2; omega
    · intro k s _ h
      refine ⟨?_, ?_, ?_⟩
      · simpa [Grid.set] using h.origin
      · intro j h1 h2
        by_cases hj : j = k + 1
        · subst hj; simp [Grid.set]
        · have := h.row j h1 (by omega)
          simpa [Grid.set, hj] using this
      · intro i h1 h2; omega
  · intro k s _ h
    refine ⟨?_, ?_, ?_⟩
    · simpa [Grid.set] using h.origin
    · intro j h1 h2
      have := h.row j h1 h2
      simpa [Grid.set] using this
    · intro i h1 h2
      by_cases hi : i = k + 1
      · subst hi; simp [Grid.set]
      · have := h.col i h1 (by omega)
        simpa [Grid.set, hi] using this

section Fill

variable (query target : List Char) (match_ mismatch gap gap_open gap_extend : Int)

theorem localCell_matrix (s : AlignState) (i j : Nat) :
    (localCell query target match_ mismatch gap gap_open gap_extend s i j).matrix =
      s.matrix.set i j
        (step4 query target match_ mismatch gap gap_open gap_extend s.matrix s.traceback i j).1 := by
  unfold localCell
  dsimp only
  split <;> rfl

theorem localCell_traceback (s : AlignState) (i j : Nat) :
    (localCell query target match_ mismatch gap gap_open gap_extend s i j).traceback =
      s.traceback.set i j
        (step4 query target match_ mismatch gap gap_open gap_extend s.matrix s.traceback i j).2 := by
  unfold localCell
  dsimp only
  split <;> rfl

theorem localCell_score (s : AlignState) (i j : Nat) :
    let v := (step4 query target match_ mismatch gap gap_open gap_extend
      s.matrix s.traceback i j).1
    let s2 := localCell query target match_ mismatch gap gap_open gap_extend s i j
    (s.score < v ∧ s2.score = v ∧ s2.end_query = i ∧ s2.end_target = j) ∨
    (¬ s.score < v ∧ s2.score = s.score ∧ s2.end_query = s.end_query ∧
      s2.end_target = s.end_target) := by
  intro v s2
  by_cases h : s.score < v
  · left
    have : s2 = _ := if_pos (by simpa [Grid.set_same] using h)
    rw [this]
    exact ⟨h, by simp [Grid.set_same, v], rfl, rfl⟩
  · right
    have : s2 = _ := if_neg (by simpa [Grid.set_same] using h)
    rw [this]
    exact ⟨h, rfl, rfl, rfl⟩

theorem semiGlobalCell_matrix (s : AlignState) (i j : Nat) :
    (semiGlobalCell query target match_ mismatch gap gap_open gap_extend s i j).matrix =
      s.matrix.set i j
        (step3 query target match_ mismatch gap gap_open gap_extend s.matrix s.traceback i j).1 := by
  unfold semiGlobalCell
  dsimp only
  split <;> rfl

theorem semiGlobalCell_traceback (s : AlignState) (i j : Nat) :
    (semiGlobalCell query target match_ mismatch gap gap_open gap_extend s i j).traceback =
      s.traceback.set i j
        (step3 query target match_ mismatch gap gap_open gap_extend s.matrix s.traceback i j).2 := by
  unfold semiGlobalCell
  dsimp only
  split <;> rfl

theorem semiGlobalCell_score (s : AlignState) (i j : Nat) :
    let v := (step3 query target match_ mismatch gap gap_open gap_extend
      s.matrix s.traceback i j).1
    let s2 := semiGlobalCell query target match_ mismatch gap gap_open gap_extend s i j
    (((i = query.length ∨ j = target.length) ∧ s.score < v) ∧
      s2.score = v ∧ s2.end_query = i ∧ s2.end_target = j) ∨
    (¬ ((i = query.length ∨ j = target.length) ∧ s.score < v) ∧
      s2.score = s.score ∧ s2.end_query = s.end_query ∧ s2.end_target = s.end_target) := by
  intro v s2
  by_cases h : (i = query.length ∨ j = target.length) ∧ s.score < v
  · left
    have : s2 = _ := if_pos (by simpa [Grid.set_same] using h)
    rw [this]
    exact ⟨h, by simp [Grid.set_same, v], rfl, rfl⟩
  · right
    have : s2 = _ := if_neg (by simpa [Grid.set_same] using h)
    rw [this]
    exact ⟨h, rfl, rfl, rfl⟩

theorem globalFill_spec :
    GlobalSpec query target match_ mismatch gap gap_open gap_extend
      (globalFill query target match_ mismatch gap gap_open gap_extend) := by
  have hb := globalBorders_spec query.length target.length gap
  have h := interiorLoop_inv
    (globalCell query target match_ mismatch gap gap_open gap_extend)
    (fun r c s => GridInv (step3 query target match_ mismatch gap gap_open gap_extend)
      (globalBorders query.length target.length gap) target.length r c s)
    query.length target.length (globalBorders query.length target.length gap)
    (GridInv.init _ _ _)
    (fun r c s _ _ hp => GridInv.step (step3_readsNeighbours _ _ _ _ _ _ _) hp rfl rfl)
    (fun r s _ hp => hp.row)
  unfold globalFill
  refine ⟨⟨?_, ?_, ?_⟩, ?_, rfl, rfl, rfl⟩
  · have := h.border 0 0 (Or.inl rfl)
    exact ⟨this.1.trans hb.origin.1, this.2.trans hb.origin.2⟩
  · intro j h1 h2
    have := h.border 0 j (Or.inl rfl)
    exact ⟨this.1.trans (hb.row j h1 h2).1, this.2.trans (hb.row j h1 h2).2⟩
  · intro i h1 h2
    have := h.border i 0 (Or.inr rfl)
    exact ⟨this.1.trans (hb.col i h1 h2).1, this.2.trans (hb.col i h1 h2).2⟩
  · intro i j h1 h2 h3 h4
    exact h.cell i j ⟨h1, h3, h4, Or.inl h2⟩

theorem localFill_spec :
    LocalSpec query target match_ mismatch gap gap_open gap_extend
      (localFill query target match_ mismatch gap gap_open gap_extend) := by
  obtain ⟨hb, hs0, hq0, ht0⟩ := zeroBorders_spec query.length target.length
  have h := interiorLoop_inv
    (localCell query target match_ mismatch gap gap_open gap_extend)
    (fun r c s => GridInv (step4 query target match_ mismatch gap gap_open gap_extend)
        (zeroBorders query.length target.length) target.length r c s ∧
      0 ≤ s.score ∧
      (∀ i j, Processed target.length r c i j → s.matrix i j ≤ s.score) ∧
      s.score = s.matrix s.end_query s.end_target ∧
      ((s.end_query = 0 ∧ s.end_target = 0) ∨
        (Processed target.length r c s.end_query s.end_target ∧ s.end_query ≤ query.length)))
    query.length target.length (zeroBorders query.length target.length)
    ?init ?cell ?row
  case init =>
    refine ⟨GridInv.init _ _ _, by rw [hs0], ?_, ?_, Or.inl ⟨hq0, ht0⟩⟩
    · intro i j hp
      unfold Processed at hp
      omega
    · rw [hs0, hq0, ht0, hb.origin.1]
  case row =>
    rintro r s hr ⟨hg, h0, hle, heq, hend⟩
    refine ⟨hg.row, h0, ?_, heq, ?_⟩
    · intro i j hp
      apply hle
      unfold Processed at hp ⊢
      omega
    · rcases hend with hend | ⟨hend, hn⟩
      · exact Or.inl hend
      · refine Or.inr ⟨?_, hn⟩
        unfold Processed at hend ⊢
        omega
  case cell =>
    rintro r c s hr hc ⟨hg, h0, hle, heq, hend⟩
    have hM := localCell_matrix query target match_ mismatch gap gap_open gap_extend
      s (r + 1) (c + 1)
    have hT := localCell_traceback query target match_ mismatch gap gap_open gap_extend
      s (r + 1) (c + 1)
    have hS := localCell_score query target match_ mismatch gap gap_open gap_extend
      s (r + 1) (c + 1)
    have hendne : ¬(s.end_query = r + 1 ∧ s.end_target = c + 1) := by
      rcases hend with hend | ⟨hend, _⟩
      · omega
      · unfold Processed at hend
        omega
    refine ⟨GridInv.step (step4_readsNeighbours _ _ _ _ _ _ _) hg hM hT, ?_⟩
    rcases hS with ⟨hlt, e1, e2, e3⟩ | ⟨hlt, e1, e2, e3⟩
    · rw [e1, e2, e3, hM]
      refine ⟨by omega, ?_, by rw [Grid.set_same], Or.inr ⟨?_, by omega⟩⟩
      · intro i j hp
        by_cases hij : i = r + 1 ∧ j = c + 1
        · obtain ⟨rfl, rfl⟩ := hij
          rw [Grid.set_same]
        · rw [Grid.set_other _ _ _ _ _ _ hij]
          have := hle i j (by unfold Processed at hp ⊢; omega)
          omega
      · unfold Processed
        omega
    · rw [e1, e2, e3, hM]
      refine ⟨h0, ?_, by rw [Grid.set_other _ _ _ _ _ _ hendne]; exact heq, ?_⟩
      · intro i j hp
        by_cases hij : i = r + 1 ∧ j = c + 1
        · obtain ⟨rfl, rfl⟩ := hij
          rw [Grid.set_same]
          omega
        · rw [Grid.set_other _ _ _ _ _ _ hij]
          exact hle i j (by unfold Processed at hp ⊢; omega)
      · rcases hend with hend | ⟨hend, hn⟩
        · exact Or.inl hend
        · refine Or.inr ⟨?_, hn⟩
          unfold Processed at hend ⊢
          omega
  obtain ⟨hg, h0, hle, heq, hend⟩ := h
  unfold localFill
  refine ⟨⟨?_, ?_, ?_⟩, ?_, h0, ?_, heq, ?_⟩
  · have := hg.border 0 0 (Or.inl rfl)
    exact ⟨this.1.trans hb.origin.1, this.2.trans hb.origin.2⟩
  · intro j h1 h2
    have := hg.border 0 j (Or.inl rfl)
    exact ⟨this.1.trans (hb.row j h1 h2).1, this.2.trans (hb.row j h1 h2).2⟩
  · intro i h1 h2
    have := hg.border i 0 (Or.inr rfl)
    exact ⟨this.1.trans (hb.col i h1 h2).1, this.2.trans (hb.col i h1 h2).2⟩
  · intro i j h1 h2 h3 h4
    exact hg.cell i j ⟨h1, h3, h4, Or.inl h2⟩
  · intro i j h1 h2 h3 h4
    exact hle i j ⟨h1, h3, h4, Or.inl h2⟩
  · rcases hend with hend | ⟨hend, hn⟩
    · exact Or.inl hend
    · right
      unfold Processed at hend
      omega

theorem semiGlobalFill_spec :
    SemiGlobalSpec query target match_ mismatch gap gap_open gap_extend
      (semiGlobalFill query target match_ mismatch gap gap_open gap_extend) := by
  obtain ⟨hb, hs0, hq0, ht0⟩ := zeroBorders_spec query.length target.length
  have h := interiorLoop_inv
    (semiGlobalCell query target match_ mismatch gap gap_open gap_extend)
    (fun r c s => GridInv (step3 query target match_ mismatch gap gap_open gap_extend)
        (zeroBorders query.length target.length) target.length r c s ∧
      0 ≤ s.score ∧
      (∀ i j, Processed target.length r c i j → i = query.length ∨ j = target.length →
        s.matrix i j ≤ s.score) ∧
      s.score = s.matrix s.end_query s.end_target ∧
      ((s.end_query = 0 ∧ s.end_target = 0) ∨
        (Processed target.length r c s.end_query s.end_target ∧ s.end_query ≤ query.length ∧
          (s.end_query = query.length ∨ s.end_target = target.length))))
    query.length target.length (zeroBorders query.length target.length)
    ?init ?cell ?row
  case init =>
    refine ⟨GridInv.init _ _ _, by rw [hs0], ?_, ?_, Or.inl ⟨hq0, ht0⟩⟩
    · intro i j hp
      unfold Processed at hp
      omega
    · rw [hs0, hq0, ht0, hb.origin.1]
  case row =>
    rintro r s hr ⟨hg, h0, hle, heq, hend⟩
    refine ⟨hg.row, h0, ?_, heq, ?_⟩
    · intro i j hp
      apply hle
      unfold Processed at hp ⊢
      omega
    · rcases hend with hend | ⟨hend, hn⟩
      · exact Or.inl hend
      · refine Or.inr ⟨?_, hn⟩
        unfold Processed at hend ⊢
        omega
  case cell =>
    rintro r c s hr hc ⟨hg, h0, hle, heq, hend⟩
    have hM := semiGlobalCell_matrix query target match_ mismatch gap gap_open gap_extend
      s (r + 1) (c + 1)
    have hT := semiGlobalCell_traceback query target match_ mismatch gap gap_open gap_extend
      s (r + 1) (c + 1)
    have hS := semiGlobalCell_score query target match_ mismatch gap gap_open gap_extend
      s (r + 1) (c + 1)
    have hendne : ¬(s.end_query = r + 1 ∧ s.end_target = c + 1) := by
      rcases hend with hend | ⟨hend, _⟩
      · omega
      · unfold Processed at hend
        omega
    refine ⟨GridInv.step (step3_readsNeighbours _ _ _ _ _ _ _) hg hM hT, ?_⟩
    rcases hS with ⟨⟨hedge, hlt⟩, e1, e2, e3⟩ | ⟨hlt, e1, e2, e3⟩
    · rw [e1, e2, e3, hM]
      refine ⟨by omega, ?_, by rw [Grid.set_same], Or.inr ⟨?_, by omega, hedge⟩⟩
      · intro i j hp hedge2
        by_cases hij : i = r + 1 ∧ j = c + 1
        · obtain ⟨rfl, rfl⟩ := hij
          rw [Grid.set_same]
        · rw [Grid.set_other _ _ _ _ _ _ hij]
          have := hle i j (by unfold Processed at hp ⊢; omega) hedge2
          omega
      · unfold Processed
        omega
    · rw [e1, e2, e3, hM]
      refine ⟨h0, ?_, by rw [Grid.set_other _ _ _ _ _ _ hendne]; exact heq, ?_⟩
      · intro i j hp hedge2
        by_cases hij : i = r + 1 ∧ j = c + 1
        · obtain ⟨rfl, rfl⟩ := hij
          rw [Grid.set_same]
          have : ¬ s.score < (step3 query target match_ mismatch gap gap_open gap_extend
              s.matrix s.traceback (r + 1) (c + 1)).1 := fun hh => hlt ⟨hedge2, hh⟩
          omega
        · rw [Grid.set_other _ _ _ _ _ _ hij]
          exact hle i j (by unfold Processed at hp ⊢; omega) hedge2
      · rcases hend with hend | ⟨hend, hn⟩
        · exact Or.inl hend
        · refine Or.inr ⟨?_, hn⟩
          unfold Processed at hend ⊢
          omega
  obtain ⟨hg, h0, hle, heq, hend⟩ := h
  unfold semiGlobalFill
  refine ⟨⟨?_, ?_, ?_⟩, ?_, h0, ?_, heq, ?_⟩
  · have := hg.border 0 0 (Or.inl rfl)
    exact ⟨this.1.trans hb.origin.1, this.2.trans hb.origin.2⟩
  · intro j h1 h2
    have := hg.border 0 j (Or.inl rfl)
    exact ⟨this.1.trans (hb.row j h1 h2).1, this.2.trans (hb.row j h1 h2).2⟩
  · intro i h1 h2
    have := hg.border i 0 (Or.inr rfl)
    exact ⟨this.1.trans (hb.col i h1 h2).1, this.2.trans (hb.col i h1 h2).2⟩
  · intro i j h1 h2 h3 h4
    exact hg.cell i j ⟨h1, h3, h4, Or.inl h2⟩
  · intro i j h1 h2 h3 h4
    exact hle i j ⟨h1, h3, h4, Or.inl h2⟩
  · rcases hend with hend | ⟨hend, hn, hedge⟩
    · exact Or.inl hend
    · right
      unfold Processed at hend
      omega

end Fill

/-! ## The selected element -/

theorem pairLess_le {a b : Int × Direction} (h : pairLess a b = true) : a.1 ≤ b.1 := by
  simp only [pairLess, Bool.or_eq_true, Bool.and_eq_true, decide_eq_true_eq,
    Bool.not_eq_true', decide_eq_false_iff_not] at h
  omega

theorem le_of_not_pairLess {a b : Int × Direction} (h : ¬ pairLess a b = true) : b.1 ≤ a.1 := by
  simp only [pairLess, Bool.or_eq_true, Bool.and_eq_true, decide_eq_true_eq,
    Bool.not_eq_true', decide_eq_false_iff_not] at h
  omega

theorem foldl_largest (xs : List (Int × Direction)) (x : Int × Direction) :
    let r := xs.foldl (fun largest y => if pairLess largest y then y else largest) x
    r ∈ x :: xs ∧ ∀ y ∈ x :: xs, y.1 ≤ r.1 := by
  induction xs generalizing x with
  | nil => simp
  | cons y ys ih =>
    simp only [List.foldl_cons]
    by_cases h : pairLess x y = true
    · rw [if_pos h]
      obtain ⟨h1, h2⟩ := ih y
      refine ⟨List.mem_cons_of_mem _ h1, ?_⟩
      intro z hz
      rcases List.mem_cons.1 hz with rfl | hz
      · exact le_trans (pairLess_le h) (h2 y (List.mem_cons_self _ _))
      · exact h2 z hz
    · rw [if_neg h]
      obtain ⟨h1, h2⟩ := ih x
      refine ⟨?_, ?_⟩
      · rcases List.mem_cons.1 h1 with h1 | h1
        · exact List.mem_cons.2 (Or.inl h1)
        · exact List.mem_cons_of_mem _ (List.mem_cons_of_mem _ h1)
      · intro z hz
        rcases List.mem_cons.1 hz with rfl | hz
        · exact h2 z (List.mem_cons_self _ _)
        · rcases List.mem_cons.1 hz with rfl | hz
          · exact le_trans (le_of_not_pairLess h) (h2 x (List.mem_cons_self _ _))
          · exact h2 z (List.mem_cons_of_mem _ hz)

theorem max_element_mem {l : List (Int × Direction)} (h : l ≠ []) : max_element l ∈ l := by
  cases l with
  | nil => exact absurd rfl h
  | cons x xs => exact (foldl_largest xs x).1

theorem max_element_ge {l : List (Int × Direction)} {y : Int × Direction} (h : y ∈ l) :
    y.1 ≤ (max_element l).1 := by
  cases l with
  | nil => cases h
  | cons x xs => exact (foldl_largest xs x).2 y h

section Step

variable (query target : List Char) (match_ mismatch gap gap_open gap_extend : Int)
  (M : Grid Int) (T : Grid Direction) (i j : Nat)

theorem step3_mem :
    step3 query target match_ mismatch gap gap_open gap_extend M T i j =
        (subs query target match_ mismatch M i j, diag) ∨
    step3 query target match_ mismatch gap gap_open gap_extend M T i j =
        (ins gap gap_open gap_extend M T i j, left) ∨
    step3 query target match_ mismatch gap gap_open gap_extend M T i j =
        (del gap gap_open gap_extend M T i j, up) := by
  have h := max_element_mem (l :=
    [(subs query target match_ mismatch M i j, diag),
     (ins gap gap_open gap_extend M T i j, left),
     (del gap gap_open gap_extend M T i j, up)]) (by simp)
  simpa [step3] using h

theorem step3_ge :
    subs query target match_ mismatch M i j ≤
        (step3 query target match_ mismatch gap gap_open gap_extend M T i j).1 ∧
    ins gap gap_open gap_extend M T i j ≤
        (step3 query target match_ mismatch gap gap_open gap_extend M T i j).1 ∧
    del gap gap_open gap_extend M T i j ≤
        (step3 query target match_ mismatch gap gap_open gap_extend M T i j).1 := by
  refine ⟨?_, ?_, ?_⟩
  · exact max_element_ge (y := (subs query target match_ mismatch M i j, diag)) (by simp)
  · exact max_element_ge (y := (ins gap gap_open gap_extend M T i j, left)) (by simp)
  · exact max_element_ge (y := (del gap gap_open gap_extend M T i j, up)) (by simp)

theorem step4_mem :
    step4 query target match_ mismatch gap gap_open gap_extend M T i j =
        (subs query target match_ mismatch M i j, diag) ∨
    step4 query target match_ mismatch gap gap_open gap_extend M T i j =
        (ins gap gap_open gap_extend M T i j, left) ∨
    step4 query target match_ mismatch gap gap_open gap_extend M T i j =
        (del gap gap_open gap_extend M T i j, up) ∨
    step4 query target match_ mismatch gap gap_open gap_extend M T i j = (0, stop) := by
  have h := max_element_mem (l :=
    [(subs query target match_ mismatch M i j, diag),
     (ins gap gap_open gap_extend M T i j, left),
     (del gap gap_open gap_extend M T i j, up), (0, stop)]) (by simp)
  simpa [step4] using h

theorem step4_ge :
    subs query target match_ mismatch M i j ≤
        (step4 query target match_ mismatch gap gap_open gap_extend M T i j).1 ∧
    ins gap gap_open gap_extend M T i j ≤
        (step4 query target match_ mismatch gap gap_open gap_extend M T i j).1 ∧
    del gap gap_open gap_extend M T i j ≤
        (step4 query target match_ mismatch gap gap_open gap_extend M T i j).1 ∧
    0 ≤ (step4 query target match_ mismatch gap gap_open gap_extend M T i j).1 := by
  refine ⟨?_, ?_, ?_, ?_⟩
  · exact max_element_ge (y := (subs query target match_ mismatch M i j, diag)) (by simp)
  · exact max_element_ge (y := (ins gap gap_open gap_extend M T i j, left)) (by simp)
  · exact max_element_ge (y := (del gap gap_open gap_extend M T i j, up)) (by simp)
  · exact max_element_ge (y := ((0 : Int), stop)) (by simp)

end Step

/-! ## The traceback walk -/

theorem replay_append (sub : Nat → Nat → Int) (gapCost : Char → Option Char → Nat → Nat → Int)
    (ops : List Char) (op : Char) (start : Replay) :
    replay sub gapCost (ops ++ [op]) start =
      replayStep sub gapCost (replay sub gapCost ops start) op := by
  simp [replay, List.foldl_append]

theorem opOf_diag : opOf diag = some 'M' := rfl

theorem opOf_left : opOf left = some 'I' := rfl

theorem opOf_up : opOf up = some 'D' := rfl

theorem opOf_stop : opOf stop = none := rfl

theorem replayStep_M (sub : Nat → Nat → Int) (gapCost : Char → Option Char → Nat → Nat → Int)
    (st : Replay) :
    replayStep sub gapCost st 'M' = ⟨st.i + 1, st.j + 1, some 'M', st.cost + sub st.i st.j⟩ := by
  simp [replayStep]

theorem replayStep_I (sub : Nat → Nat → Int) (gapCost : Char → Option Char → Nat → Nat → Int)
    (st : Replay) :
    replayStep sub gapCost st 'I' =
      ⟨st.i, st.j + 1, some 'I', st.cost + gapCost 'I' st.prev st.i st.j⟩ := by
  simp [replayStep]

theorem replayStep_D (sub : Nat → Nat → Int) (gapCost : Char → Option Char → Nat → Nat → Int)
    (st : Replay) :
    replayStep sub gapCost st 'D' =
      ⟨st.i + 1, st.j, some 'D', st.cost + gapCost 'D' st.prev st.i st.j⟩ := by
  simp [replayStep]

/-- The walk never stops for lack of fuel when it is given more than `i + j` units. -/
theorem tracebackWalk_fuel (T : Grid Direction) (fuel i j : Nat) (h : i + j < fuel) :
    tracebackWalk T fuel i j ≠ .error .outOfFuel := by
  induction fuel generalizing i j with
  | zero => omega
  | succ fuel ih =>
    unfold tracebackWalk
    cases hT : T i j with
    | stop => simp
    | diag =>
      by_cases h0 : i = 0 ∨ j = 0
      · simp [h0]
      · have := ih (i - 1) (j - 1) (by omega)
        simp only [h0, if_false]
        cases hw : tracebackWalk T fuel (i - 1) (j - 1) with
        | error e => intro hh; apply this; rw [hw]; simpa [Except.map] using hh
        | ok r => simp [Except.map]
    | left =>
      by_cases h0 : j = 0
      · simp [h0]
      · have := ih i (j - 1) (by omega)
        simp only [h0, if_false]
        cases hw : tracebackWalk T fuel i (j - 1) with
        | error e => intro hh; apply this; rw [hw]; simpa [Except.map] using hh
        | ok r => simp [Except.map]
    | up =>
      by_cases h0 : i = 0
      · simp [h0]
      · have := ih (i - 1) j (by omega)
        simp only [h0, if_false]
        cases hw : tracebackWalk T fuel (i - 1) j with
        | error e => intro hh; apply this; rw [hw]; simpa [Except.map] using hh
        | ok r => simp [Except.map]

/-- Where a walk that returns has been: it breaks at a `stop` cell, its `M` and `D` steps
account for the rows it climbed, its `M` and `I` steps for the columns. -/
theorem tracebackWalk_counts (T : Grid Direction) (fuel i j : Nat) (raw : List Char)
    (i0 j0 : Nat) (h : tracebackWalk T fuel i j = .ok (raw, i0, j0)) :
    T i0 j0 = stop ∧ queryConsumed raw + i0 = i ∧ targetConsumed raw + j0 = j ∧
      IsEditScript raw := by
  induction fuel generalizing i j raw with
  | zero => simp [tracebackWalk] at h
  | succ fuel ih =>
    unfold tracebackWalk at h
    cases hT : T i j with
    | stop =>
      simp only [hT, Except.ok.injEq, Prod.mk.injEq] at h
      obtain ⟨rfl, rfl, rfl⟩ := h
      simp [hT, queryConsumed, targetConsumed, IsEditScript]
    | diag =>
      simp only [hT] at h
      by_cases h0 : i = 0 ∨ j = 0
      · simp [h0] at h
      · simp only [h0, if_false] at h
        cases hw : tracebackWalk T fuel (i - 1) (j - 1) with
        | error e => simp [hw, Except.map] at h
        | ok r =>
          obtain ⟨raw2, i2, j2⟩ := r
          simp only [hw, Except.map, Except.ok.injEq, Prod.mk.injEq] at h
          obtain ⟨rfl, rfl, rfl⟩ := h
          obtain ⟨h1, h2, h3, h4⟩ := ih _ _ _ hw
          refine ⟨h1, ?_, ?_, ?_⟩
          · simp [queryConsumed] at h2 ⊢; omega
          · simp [targetConsumed] at h3 ⊢; omega
          · intro c hc
            rcases List.mem_cons.1 hc with rfl | hc
            · exact Or.inl rfl
            · exact h4 c hc
    | left =>
      simp only [hT] at h
      by_cases h0 : j = 0
      · simp [h0] at h
      · simp only [h0, if_false] at h
        cases hw : tracebackWalk T fuel i (j - 1) with
        | error e => simp [hw, Except.map] at h
        | ok r =>
          obtain ⟨raw2, i2, j2⟩ := r
          simp only [hw, Except.map, Except.ok.injEq, Prod.mk.injEq] at h
          obtain ⟨rfl, rfl, rfl⟩ := h
          obtain ⟨h1, h2, h3, h4⟩ := ih _ _ _ hw
          refine ⟨h1, ?_, ?_, ?_⟩
          · simp [queryConsumed] at h2 ⊢; omega
          · simp [targetConsumed] at h3 ⊢; omega
          · intro c hc
            rcases List.mem_cons.1 hc with rfl | hc
            · exact Or.inr (Or.inl rfl)
            · exact h4 c hc
    | up =>
      simp only [hT] at h
      by_cases h0 : i = 0
      · simp [h0] at h
      · simp only [h0, if_false] at h
        cases hw : tracebackWalk T fuel (i - 1) j with
        | error e => simp [hw, Except.map] at h
        | ok r =>
          obtain ⟨raw2, i2, j2⟩ := r
          simp only [hw, Except.map, Except.ok.injEq, Prod.mk.injEq] at h
          obtain ⟨rfl, rfl, rfl⟩ := h
          obtain ⟨h1, h2, h3, h4⟩ := ih _ _ _ hw
          refine ⟨h1, ?_, ?_, ?_⟩
          · simp [queryConsumed] at h2 ⊢; omega
          · simp [targetConsumed] at h3 ⊢; omega
          · intro c hc
            rcases List.mem_cons.1 hc with rfl | hc
            · exact Or.inr (Or.inr rfl)
            · exact h4 c hc

/-- On consistent grids the walk from a cell of the grid returns, and replaying its operators
from the cell where it breaks leads back to the start cell with the difference of the two grid
values as cost. -/
theorem tracebackWalk_replay {sub : Nat → Nat → Int}
    {gapCost : Char → Option Char → Nat → Nat → Int} {n m : Nat} {M : Grid Int}
    {T : Grid Direction} (hc : Consistent sub gapCost n m M T) (fuel i j : Nat)
    (hf : i + j < fuel) (hi : i ≤ n) (hj : j ≤ m) :
    ∃ raw i0 j0, tracebackWalk T fuel i j = .ok (raw, i0, j0) ∧ T i0 j0 = stop ∧
      i0 ≤ i ∧ j0 ≤ j ∧
      replay sub gapCost raw.reverse ⟨i0, j0, none, 0⟩ =
        ⟨i, j, opOf (T i j), M i j - M i0 j0⟩ := by
  induction fuel generalizing i j with
  | zero => omega
  | succ fuel ih =>
    unfold tracebackWalk
    cases hT : T i j with
    | stop =>
      refine ⟨[], i, j, rfl, hT, le_refl _, le_refl _, ?_⟩
      simp [replay, opOf]
    | diag =>
      obtain ⟨h1, h2, h3⟩ := hc.diag i j hi hj hT
      obtain ⟨raw, i0, j0, hw, hs, hi0, hj0, hr⟩ := ih (i - 1) (j - 1) (by omega) (by omega)
        (by omega)
      refine ⟨'M' :: raw, i0, j0, ?_, hs, by omega, by omega, ?_⟩
      · have : ¬(i = 0 ∨ j = 0) := by omega
        simp [this, hw, Except.map]
      · rw [List.reverse_cons, replay_append, hr]
        simp only [replayStep_M, hT, opOf_diag, opOf_left, opOf_up, Replay.mk.injEq, true_and]
        refine ⟨by omega, by omega, ?_⟩
        rw [h3]; ring
    | left =>
      obtain ⟨h2, h3⟩ := hc.left i j hi hj hT
      obtain ⟨raw, i0, j0, hw, hs, hi0, hj0, hr⟩ := ih i (j - 1) (by omega) hi (by omega)
      refine ⟨'I' :: raw, i0, j0, ?_, hs, by omega, by omega, ?_⟩
      · have : ¬(j = 0) := by omega
        simp [this, hw, Except.map]
      · rw [List.reverse_cons, replay_append, hr]
        simp only [replayStep_I, hT, opOf_diag, opOf_left, opOf_up, Replay.mk.injEq, true_and, and_true]
        refine ⟨by omega, ?_⟩
        rw [h3]; ring
    | up =>
      obtain ⟨h2, h3⟩ := hc.up i j hi hj hT
      obtain ⟨raw, i0, j0, hw, hs, hi0, hj0, hr⟩ := ih (i - 1) j (by omega) (by omega) hj
      refine ⟨'D' :: raw, i0, j0, ?_, hs, by omega, by omega, ?_⟩
      · have : ¬(i = 0) := by omega
        simp [this, hw, Except.map]
      · rw [List.reverse_cons, replay_append, hr]
        simp only [replayStep_D, hT, opOf_diag, opOf_left, opOf_up, Replay.mk.injEq, true_and, and_true]
        refine ⟨by omega, ?_⟩
        rw [h3]; ring

/-! ## Consistency of the filled grids -/

theorem gridGap_linear (gap gap_open gap_extend : Int) (flat : Bool)
    (h : ¬(gap_open ≠ 0 ∧ gap_extend ≠ 0)) :
    gridGap gap gap_open gap_extend flat = linearGap gap := by
  funext op prev i j
  simp only [gridGap, linearGap, if_neg h]

theorem gridGap_affine (gap gap_open gap_extend : Int)
    (h : gap_open ≠ 0 ∧ gap_extend ≠ 0) :
    gridGap gap gap_open gap_extend false = affineGap gap_open gap_extend := by
  funext op prev i j
  simp [gridGap, affineGap, h]

theorem gridGap_affine_flat (gap gap_open gap_extend : Int)
    (h : gap_open ≠ 0 ∧ gap_extend ≠ 0) :
    gridGap gap gap_open gap_extend true = affineGapFlatBorder gap gap_open gap_extend := by
  funext op prev i j
  simp [gridGap, affineGapFlatBorder, h]

theorem subs_eq (query target : List Char) (match_ mismatch : Int) (M : Grid Int) (i j : Nat) :
    subs query target match_ mismatch M i j =
      M (i - 1) (j - 1) + substitution query target match_ mismatch (i - 1) (j - 1) := rfl

theorem ins_eq (gap gap_open gap_extend : Int) (flat : Bool) (M : Grid Int) (T : Grid Direction)
    (i j : Nat) (hi : 1 ≤ i) :
    ins gap gap_open gap_extend M T i j =
      M i (j - 1) + gridGap gap gap_open gap_extend flat 'I' (opOf (T i (j - 1))) i (j - 1) := by
  have hi0 : i ≠ 0 := by omega
  unfold ins gridGap
  by_cases h : gap_open ≠ 0 ∧ gap_extend ≠ 0
  · rw [if_pos h, if_pos h]
    cases T i (j - 1) <;> simp [opOf, hi0]
  · rw [if_neg h, if_neg h]

theorem del_eq (gap gap_open gap_extend : Int) (flat : Bool) (M : Grid Int) (T : Grid Direction)
    (i j : Nat) (hj : 1 ≤ j) :
    del gap gap_open gap_extend M T i j =
      M (i - 1) j + gridGap gap gap_open gap_extend flat 'D' (opOf (T (i - 1) j)) (i - 1) j := by
  have hj0 : j ≠ 0 := by omega
  unfold del gridGap
  by_cases h : gap_open ≠ 0 ∧ gap_extend ≠ 0
  · rw [if_pos h, if_pos h]
    cases T (i - 1) j <;> simp [opOf, hj0]
  · rw [if_neg h, if_neg h]

theorem gridGap_flat_row (gap gap_open gap_extend : Int) (prev : Option Char) (j : Nat) :
    gridGap gap gap_open gap_extend true 'I' prev 0 j = gap := by
  simp [gridGap]

theorem gridGap_flat_col (gap gap_open gap_extend : Int) (prev : Option Char) (i : Nat) :
    gridGap gap gap_open gap_extend true 'D' prev i 0 = gap := by
  simp [gridGap]

section Consistency

variable {query target : List Char} {match_ mismatch gap gap_open gap_extend : Int}
  {s : AlignState}

theorem GlobalSpec.consistent_global
    (h : GlobalSpec query target match_ mismatch gap gap_open gap_extend s) :
    Consistent (substitution query target match_ mismatch)
      (gridGap gap gap_open gap_extend true) query.length target.length
      s.matrix s.traceback := by
  have border : ∀ k : Nat, s.matrix 0 k = gap * k ∨ target.length < k := by
    intro k
    rcases Nat.eq_zero_or_pos k with rfl | hk
    · left; simpa using h.border.origin.1
    · by_cases hk2 : k ≤ target.length
      · exact Or.inl (h.border.row k hk hk2).1
      · right; omega
  have border2 : ∀ k : Nat, s.matrix k 0 = gap * k ∨ query.length < k := by
    intro k
    rcases Nat.eq_zero_or_pos k with rfl | hk
    · left; simpa using h.border.origin.1
    · by_cases hk2 : k ≤ query.length
      · exact Or.inl (h.border.col k hk hk2).1
      · right; omega
  have tag : ∀ a b, a ≤ query.length → b ≤ target.length →
      (a = 0 ∧ b = 0 ∧ s.traceback a b = stop) ∨
      (a = 0 ∧ 1 ≤ b ∧ s.traceback a b = left ∧
        s.matrix a b = s.matrix a (b - 1) +
          gridGap gap gap_open gap_extend true 'I' (opOf (s.traceback a (b - 1))) a (b - 1)) ∨
      (1 ≤ a ∧ b = 0 ∧ s.traceback a b = up ∧
        s.matrix a b = s.matrix (a - 1) b +
          gridGap gap gap_open gap_extend true 'D' (opOf (s.traceback (a - 1) b)) (a - 1) b) ∨
      (1 ≤ a ∧ 1 ≤ b) := by
    intro a b ha hb
    rcases Nat.eq_zero_or_pos a with rfl | ha0
    · rcases Nat.eq_zero_or_pos b with rfl | hb0
      · exact Or.inl ⟨rfl, rfl, h.border.origin.2⟩
      · refine Or.inr (Or.inl ⟨rfl, hb0, (h.border.row b hb0 hb).2, ?_⟩)
        rw [gridGap_flat_row, (h.border.row b hb0 hb).1]
        rcases border (b - 1) with e | e
        · rw [e]
          have : ((b - 1 : Nat) : Int) = (b : Int) - 1 := by omega
          rw [this]; ring
        · omega
    · rcases Nat.eq_zero_or_pos b with rfl | hb0
      · refine Or.inr (Or.inr (Or.inl ⟨ha0, rfl, (h.border.col a ha0 ha).2, ?_⟩))
        rw [gridGap_flat_col, (h.border.col a ha0 ha).1]
        rcases border2 (a - 1) with e | e
        · rw [e]
          have : ((a - 1 : Nat) : Int) = (a : Int) - 1 := by omega
          rw [this]; ring
        · omega
      · exact Or.inr (Or.inr (Or.inr ⟨ha0, hb0⟩))
  constructor
  · intro a b ha hb hT
    rcases tag a b ha hb with ⟨_, _, e⟩ | ⟨_, _, e, _⟩ | ⟨_, _, e, _⟩ | ⟨ha0, hb0⟩
    · rw [hT] at e; cases e
    · rw [hT] at e; cases e
    · rw [hT] at e; cases e
    · obtain ⟨hM, hT2⟩ := h.interior a b ha0 ha hb0 hb
      refine ⟨ha0, hb0, ?_⟩
      rcases step3_mem query target match_ mismatch gap gap_open gap_extend
        s.matrix s.traceback a b with e | e | e <;> rw [e] at hM hT2
      · rw [hM, subs_eq]
      · rw [hT] at hT2; cases hT2
      · rw [hT] at hT2; cases hT2
  · intro a b ha hb hT
    rcases tag a b ha hb with ⟨_, _, e⟩ | ⟨_, hb0, _, e⟩ | ⟨_, _, e, _⟩ | ⟨ha0, hb0⟩
    · rw [hT] at e; cases e
    · exact ⟨hb0, e⟩
    · rw [hT] at e; cases e
    · obtain ⟨hM, hT2⟩ := h.interior a b ha0 ha hb0 hb
      refine ⟨hb0, ?_⟩
      rcases step3_mem query target match_ mismatch gap gap_open gap_extend
        s.matrix s.traceback a b with e | e | e <;> rw [e] at hM hT2
      · rw [hT] at hT2; cases hT2
      · rw [hM, ins_eq _ _ _ true _ _ _ _ ha0]
      · rw [hT] at hT2; cases hT2
  · intro a b ha hb hT
    rcases tag a b ha hb with ⟨_, _, e⟩ | ⟨_, _, e, _⟩ | ⟨ha0, _, _, e⟩ | ⟨ha0, hb0⟩
    · rw [hT] at e; cases e
    · rw [hT] at e; cases e
    · exact ⟨ha0, e⟩
    · obtain ⟨hM, hT2⟩ := h.interior a b ha0 ha hb0 hb
      refine ⟨ha0, ?_⟩
      rcases step3_mem query target match_ mismatch gap gap_open gap_extend
        s.matrix s.traceback a b with e | e | e <;> rw [e] at hM hT2
      · rw [hT] at hT2; cases hT2
      · rw [hT] at hT2; cases hT2
      · rw [hM, del_eq _ _ _ true _ _ _ _ hb0]

/-- In the grids of `GlobalAlignment` the only `stop` cell is `(0, 0)`. -/
theorem GlobalSpec.stop_origin
    (h : GlobalSpec query target match_ mismatch gap gap_open gap_extend s) (a b : Nat)
    (ha : a ≤ query.length) (hb : b ≤ target.length) (hT : s.traceback a b = stop) :
    a = 0 ∧ b = 0 := by
  rcases Nat.eq_zero_or_pos a with rfl | ha0
  · rcases Nat.eq_zero_or_pos b with rfl | hb0
    · exact ⟨rfl, rfl⟩
    · have := (h.border.row b hb0 hb).2
      rw [hT] at this; cases this
  · rcases Nat.eq_zero_or_pos b with rfl | hb0
    · have := (h.border.col a ha0 ha).2
      rw [hT] at this; cases this
    · obtain ⟨_, hT2⟩ := h.interior a b ha0 ha hb0 hb
      rcases step3_mem query target match_ mismatch gap gap_open gap_extend
        s.matrix s.traceback a b with e | e | e <;> rw [e, hT] at hT2 <;> cases hT2

theorem ZeroBorder.at_border {n m : Nat} (h : ZeroBorder n m s) (a b : Nat) (ha : a ≤ n)
    (hb : b ≤ m) (h0 : a = 0 ∨ b = 0) : s.matrix a b = 0 ∧ s.traceback a b = stop := by
  rcases Nat.eq_zero_or_pos a with rfl | ha0
  · rcases Nat.eq_zero_or_pos b with rfl | hb0
    · exact h.origin
    · exact h.row b hb0 hb
  · rcases h0 with rfl | rfl
    · omega
    · exact h.col a ha0 ha

theorem LocalSpec.consistent_local
    (h : LocalSpec query target match_ mismatch gap gap_open gap_extend s) (flat : Bool) :
    Consistent (substitution query target match_ mismatch)
      (gridGap gap gap_open gap_extend flat) query.length target.length
      s.matrix s.traceback := by
  have tag : ∀ a b, a ≤ query.length → b ≤ target.length →
      s.traceback a b = stop ∨ (1 ≤ a ∧ 1 ≤ b) := by
    intro a b ha hb
    by_cases h0 : a = 0 ∨ b = 0
    · exact Or.inl (h.border.at_border a b ha hb h0).2
    · right; omega
  constructor
  · intro a b ha hb hT
    rcases tag a b ha hb with e | ⟨ha0, hb0⟩
    · rw [hT] at e; cases e
    · obtain ⟨hM, hT2⟩ := h.interior a b ha0 ha hb0 hb
      refine ⟨ha0, hb0, ?_⟩
      rcases step4_mem query target match_ mismatch gap gap_open gap_extend
        s.matrix s.traceback a b with e | e | e | e <;> rw [e] at hM hT2
      · rw [hM, subs_eq]
      · rw [hT] at hT2; cases hT2
      · rw [hT] at hT2; cases hT2
      · rw [hT] at hT2; cases hT2
  · intro a b ha hb hT
    rcases tag a b ha hb with e | ⟨ha0, hb0⟩
    · rw [hT] at e; cases e
    · obtain ⟨hM, hT2⟩ := h.interior a b ha0 ha hb0 hb
      refine ⟨hb0, ?_⟩
      rcases step4_mem query target match_ mismatch gap gap_open gap_extend
        s.matrix s.traceback a b with e | e | e | e <;> rw [e] at hM hT2
      · rw [hT] at hT2; cases hT2
      · rw [hM, ins_eq _ _ _ flat _ _ _ _ ha0]
      · rw [hT] at hT2; cases hT2
      · rw [hT] at hT2; cases hT2
  · intro a b ha hb hT
    rcases tag a b ha hb with e | ⟨ha0, hb0⟩
    · rw [hT] at e; cases e
    · obtain ⟨hM, hT2⟩ := h.interior a b ha0 ha hb0 hb
      refine ⟨ha0, ?_⟩
      rcases step4_mem query target match_ mismatch gap gap_open gap_extend
        s.matrix s.traceback a b with e | e | e | e <;> rw [e] at hM hT2
      · rw [hT] at hT2; cases hT2
      · rw [hT] at hT2; cases hT2
      · rw [hM, del_eq _ _ _ flat _ _ _ _ hb0]
      · rw [hT] at hT2; cases hT2

/-- In the grids of `LocalAlignment` a `stop` cell holds `0`. -/
theorem LocalSpec.stop_zero_local
    (h : LocalSpec query target match_ mismatch gap gap_open gap_extend s) (a b : Nat)
    (ha : a ≤ query.length) (hb : b ≤ target.length) (hT : s.traceback a b = stop) :
    s.matrix a b = 0 := by
  by_cases h0 : a = 0 ∨ b = 0
  · exact (h.border.at_border a b ha hb h0).1
  · obtain ⟨hM, hT2⟩ := h.interior a b (by omega) ha (by omega) hb
    rcases step4_mem query target match_ mismatch gap gap_open gap_extend
      s.matrix s.traceback a b with e | e | e | e <;> rw [e] at hM hT2
    · rw [hT] at hT2; cases hT2
    · rw [hT] at hT2; cases hT2
    · rw [hT] at hT2; cases hT2
    · exact hM

theorem SemiGlobalSpec.consistent_semi
    (h : SemiGlobalSpec query target match_ mismatch gap gap_open gap_extend s) (flat : Bool) :
    Consistent (substitution query target match_ mismatch)
      (gridGap gap gap_open gap_extend flat) query.length target.length
      s.matrix s.traceback := by
  have tag : ∀ a b, a ≤ query.length → b ≤ target.length →
      s.traceback a b = stop ∨ (1 ≤ a ∧ 1 ≤ b) := by
    intro a b ha hb
    by_cases h0 : a = 0 ∨ b = 0
    · exact Or.inl (h.border.at_border a b ha hb h0).2
    · right; omega
  constructor
  · intro a b ha hb hT
    rcases tag a b ha hb with e | ⟨ha0, hb0⟩
    · rw [hT] at e; cases e
    · obtain ⟨hM, hT2⟩ := h.interior a b ha0 ha hb0 hb
      refine ⟨ha0, hb0, ?_⟩
      rcases step3_mem query target match_ mismatch gap gap_open gap_extend
        s.matrix s.traceback a b with e | e | e <;> rw [e] at hM hT2
      · rw [hM, subs_eq]
      · rw [hT] at hT2; cases hT2
      · rw [hT] at hT2; cases hT2
  · intro a b ha hb hT
    rcases tag a b ha hb with e | ⟨ha0, hb0⟩
    · rw [hT] at e; cases e
    · obtain ⟨hM, hT2⟩ := h.interior a b ha0 ha hb0 hb
      refine ⟨hb0, ?_⟩
      rcases step3_mem query target match_ mismatch gap gap_open gap_extend
        s.matrix s.traceback a b with e | e | e <;> rw [e] at hM hT2
      · rw [hT] at hT2; cases hT2
      · rw [hM, ins_eq _ _ _ flat _ _ _ _ ha0]
      · rw [hT] at hT2; cases hT2
  · intro a b ha hb hT
    rcases tag a b ha hb with e | ⟨ha0, hb0⟩
    · rw [hT] at e; cases e
    · obtain ⟨hM, hT2⟩ := h.interior a b ha0 ha hb0 hb
      refine ⟨ha0, ?_⟩
      rcases step3_mem query target match_ mismatch gap gap_open gap_extend
        s.matrix s.traceback a b with e | e | e <;> rw [e] at hM hT2
      · rw [hT] at hT2; cases hT2
      · rw [hT] at hT2; cases hT2
      · rw [hM, del_eq _ _ _ flat _ _ _ _ hb0]

/-- In the grids of `SemiGlobalAlignment` the `stop` cells are the border cells; they hold
`0`. -/
theorem SemiGlobalSpec.stop_zero_semi
    (h : SemiGlobalSpec query target match_ mismatch gap gap_open gap_extend s) (a b : Nat)
    (ha : a ≤ query.length) (hb : b ≤ target.length) (hT : s.traceback a b = stop) :
    s.matrix a b = 0 := by
  by_cases h0 : a = 0 ∨ b = 0
  · exact (h.border.at_border a b ha hb h0).1
  · obtain ⟨hM, hT2⟩ := h.interior a b (by omega) ha (by omega) hb
    rcases step3_mem query target match_ mismatch gap gap_open gap_extend
      s.matrix s.traceback a b with e | e | e <;> rw [e, hT] at hT2 <;> cases hT2

theorem LocalSpec.end_le_local
    (h : LocalSpec query target match_ mismatch gap gap_open gap_extend s) :
    s.end_query ≤ query.length ∧ s.end_target ≤ target.length := by
  rcases h.end_cases with ⟨h1, h2⟩ | ⟨_, h1, _, h2⟩
  · omega
  · exact ⟨h1, h2⟩

theorem SemiGlobalSpec.end_le_semi
    (h : SemiGlobalSpec query target match_ mismatch gap gap_open gap_extend s) :
    s.end_query ≤ query.length ∧ s.end_target ≤ target.length := by
  rcases h.end_cases with ⟨h1, h2⟩ | ⟨_, h1, _, h2, _⟩
  · omega
  · exact ⟨h1, h2⟩

end Consistency

/-! ## The run-length encoding -/

theorem digitChar_spec (k : Nat) (h : k < 10) :
    (Nat.digitChar k).isDigit = true ∧ (Nat.digitChar k).toNat - '0'.toNat = k := by
  interval_cases k <;> exact ⟨rfl, rfl⟩

theorem toDigitsCore_spec (fuel n : Nat) (ds : List Char) (h : n < fuel) :
    ∃ pre, Nat.toDigitsCore 10 fuel n ds = pre ++ ds ∧ (∀ c ∈ pre, c.isDigit = true) ∧
      pre.foldl (fun a d => 10 * a + (d.toNat - '0'.toNat)) 0 = n := by
  induction fuel generalizing n ds with
  | zero => omega
  | succ fuel ih =>
    obtain ⟨hd1, hd2⟩ := digitChar_spec (n % 10) (Nat.mod_lt _ (by decide))
    unfold Nat.toDigitsCore
    by_cases h0 : n / 10 = 0
    · refine ⟨[Nat.digitChar (n % 10)], by simp [h0], by simpa using hd1, ?_⟩
      simp only [List.foldl_cons, List.foldl_nil, hd2]
      omega
    · obtain ⟨pre, h1, h2, h3⟩ := ih (n / 10) (Nat.digitChar (n % 10) :: ds) (by omega)
      refine ⟨pre ++ [Nat.digitChar (n % 10)], by simp [h0, h1], ?_, ?_⟩
      · intro c hc
        rcases List.mem_append.1 hc with hc | hc
        · exact h2 c hc
        · simp only [List.mem_singleton] at hc
          rw [hc]; exact hd1
      · simp only [List.foldl_append, List.foldl_cons, List.foldl_nil, h3, hd2]
        omega

theorem cigarRunsAux_digits (ds : List Char) (hds : ∀ c ∈ ds, c.isDigit = true) (op : Char)
    (hop : op.isDigit = false) (rest : List Char) (acc : Nat) :
    cigarRunsAux (ds ++ op :: rest) acc =
      (ds.foldl (fun a d => 10 * a + (d.toNat - '0'.toNat)) acc, op) :: cigarRunsAux rest 0 := by
  induction ds generalizing acc with
  | nil => simp [cigarRunsAux, hop]
  | cons d ds ih =>
    have hd : d.isDigit = true := hds d (List.mem_cons_self _ _)
    simp only [List.cons_append, cigarRunsAux, hd, if_true, List.foldl_cons]
    exact ih (fun c hc => hds c (List.mem_cons_of_mem _ hc)) _

/-- One token `<count><operator>` is read back as `(count, operator)`. -/
theorem cigarRunsAux_token (n : Nat) (op : Char) (hop : op.isDigit = false) (rest : List Char) :
    cigarRunsAux ((toString n).data ++ op :: rest) 0 = (n, op) :: cigarRunsAux rest 0 := by
  obtain ⟨pre, h1, h2, h3⟩ := toDigitsCore_spec (n + 1) n [] (Nat.lt_succ_self n)
  have : (toString n).data = pre := by
    show (Nat.toDigits 10 n) = pre
    simpa [Nat.toDigits] using h1
  rw [this, cigarRunsAux_digits pre h2 op hop rest 0, h3]

theorem ReadsAs.empty : ReadsAs "" [] := by
  intro rest
  simp

theorem ReadsAs.token {acc : String} {runs : List (Nat × Char)} (h : ReadsAs acc runs)
    (n : Nat) (op : Char) (hop : op.isDigit = false) :
    ReadsAs (acc ++ toString n ++ String.singleton op) (runs ++ [(n, op)]) := by
  intro rest
  simp only [String.data_append, String.data_singleton, List.append_assoc, List.singleton_append]
  rw [h, cigarRunsAux_token n op hop rest]

theorem ReadsAs.cigarRuns_eq {acc : String} {runs : List (Nat × Char)} (h : ReadsAs acc runs) :
    cigarRuns acc = runs := by
  have := h []
  simpa [cigarRuns, cigarRunsAux] using this

theorem expandRuns_append (r1 r2 : List (Nat × Char)) :
    expandRuns (r1 ++ r2) = expandRuns r1 ++ expandRuns r2 := by
  induction r1 with
  | nil => rfl
  | cons x xs ih =>
    obtain ⟨n, c⟩ := x
    simp [expandRuns, ih]

theorem replicate_pending (count : Nat) (c : Char) (h : 1 ≤ count) :
    List.replicate count c = List.replicate (count - 1) c ++ [c] := by
  obtain ⟨k, rfl⟩ : ∃ k, count = k + 1 := ⟨count - 1, by omega⟩
  have : [c] = List.replicate 1 c := rfl
  rw [Nat.add_sub_cancel, this, List.append_replicate_replicate]

/-- The run-length loop followed by the final append: the string produced is a sequence of
tokens whose decoding is the raw operator string, after the `count - 1` operators of the run
that was pending when the loop was entered. -/
theorem runLengthLoop_spec (l : List Char) (prev : Char) (count : Nat) (acc : String)
    (runs : List (Nat × Char)) (hacc : ReadsAs acc runs)
    (hops : ∀ c ∈ prev :: l, c.isDigit = false) (hcount : 1 ≤ count) (last : Char)
    (hlast : (prev :: l).getLast? = some last) :
    ∃ runs2, ReadsAs ((runLengthLoop (prev :: l) count acc).2 ++
        toString (runLengthLoop (prev :: l) count acc).1 ++ String.singleton last) runs2 ∧
      expandRuns runs2 = expandRuns runs ++ List.replicate (count - 1) prev ++ (prev :: l) := by
  induction l generalizing prev count acc runs with
  | nil =>
    simp only [List.getLast?_singleton, Option.some.injEq] at hlast
    subst hlast
    refine ⟨runs ++ [(count, prev)], ?_, ?_⟩
    · simpa [runLengthLoop] using hacc.token count prev (hops prev (List.mem_cons_self _ _))
    · rw [expandRuns_append]
      simp only [expandRuns, List.append_nil, List.append_assoc]
      rw [replicate_pending count prev hcount]
  | cons cur rest ih =>
    rw [List.getLast?_cons_cons] at hlast
    have hops2 : ∀ c ∈ cur :: rest, c.isDigit = false :=
      fun c hc => hops c (List.mem_cons_of_mem _ hc)
    by_cases h : cur = prev
    · subst h
      obtain ⟨runs2, h1, h2⟩ := ih cur (count + 1) acc runs hacc hops2 (by omega) hlast
      refine ⟨runs2, ?_, ?_⟩
      · simpa [runLengthLoop] using h1
      · rw [h2, Nat.add_sub_cancel, replicate_pending count cur hcount]
        simp
    · obtain ⟨runs2, h1, h2⟩ := ih cur 1 (acc ++ toString count ++ String.singleton prev)
        (runs ++ [(count, prev)]) (hacc.token count prev (hops prev (List.mem_cons_self _ _)))
        hops2 (le_refl _) hlast
      refine ⟨runs2, ?_, ?_⟩
      · simpa [runLengthLoop, h] using h1
      · rw [h2, expandRuns_append]
        simp only [expandRuns, List.append_nil, List.append_assoc, Nat.sub_self,
          List.replicate_zero, List.nil_append]
        rw [replicate_pending count prev hcount]
        simp

theorem IsEditScript.not_digit {ops : List Char} (h : IsEditScript ops) :
    ∀ c ∈ ops, c.isDigit = false := by
  intro c hc
  rcases h c hc with rfl | rfl | rfl <;> rfl

/-- `GetCigar` on a walk that returns: a fault when the walk appended nothing, and otherwise a
string of tokens whose decoding is the reversed raw string. -/
theorem GetCigar_spec (T : Grid Direction) (end_query end_target : Nat) (raw : List Char)
    (i0 j0 : Nat)
    (hw : tracebackWalk T (end_query + end_target + 1) end_query end_target = .ok (raw, i0, j0)) :
    (raw = [] → GetCigar T end_query end_target = .error .outOfBounds) ∧
    (raw ≠ [] → ∃ cigar, GetCigar T end_query end_target = .ok cigar ∧
      expandRuns (cigarRuns cigar) = raw.reverse) := by
  have hscript := (tracebackWalk_counts T _ _ _ _ _ _ hw).2.2.2
  constructor
  · intro h
    subst h
    simp [GetCigar, hw]
  · intro h
    have hrev : raw.reverse ≠ [] := by simpa using h
    obtain ⟨prev, l, hl⟩ := List.exists_cons_of_ne_nil hrev
    have hlast : (prev :: l).getLast? = raw.head? := by rw [← hl]; simp
    obtain ⟨last, rawtl, rfl⟩ := List.exists_cons_of_ne_nil h
    simp only [List.head?_cons] at hlast
    have hops : ∀ c ∈ prev :: l, c.isDigit = false := by
      intro c hc
      apply hscript.not_digit
      rw [← hl] at hc
      exact List.mem_reverse.1 hc
    obtain ⟨runs2, h1, h2⟩ := runLengthLoop_spec l prev 1 "" [] ReadsAs.empty hops (le_refl _)
      last hlast
    refine ⟨(runLengthLoop (prev :: l) 1 "").2 ++ toString (runLengthLoop (prev :: l) 1 "").1 ++
      String.singleton last, ?_, ?_⟩
    · simp only [GetCigar, hw, hl, hlast]
    · rw [h1.cigarRuns_eq, h2, hl]
      simp [expandRuns]

theorem runLengthSum_eq (ops : List Char) (runs : List (Nat × Char)) :
    runLengthSum ops runs = (expandRuns runs).countP (fun c => decide (c ∈ ops)) := by
  induction runs with
  | nil => rfl
  | cons x xs ih =>
    obtain ⟨n, c⟩ := x
    simp only [runLengthSum, expandRuns, List.countP_append, List.countP_replicate, ih,
      decide_eq_true_eq]

theorem countP_pair (a b : Char) (hab : a ≠ b) (l : List Char) :
    l.countP (fun c => decide (c ∈ [a, b])) = l.count a + l.count b := by
  induction l with
  | nil => rfl
  | cons x xs ih =>
    rw [List.countP_cons, List.count_cons, List.count_cons, ih]
    by_cases h1 : x = a
    · subst h1
      have : ¬ (x = b) := hab
      simp [this]; omega
    · by_cases h2 : x = b
      · subst h2
        simp [h1]; omega
      · simp [h1, h2]

/-- The run lengths of a CIGAR string count the operators of its decoding. -/
theorem runLengthSum_cigar (cigar : String) (ops : List Char)
    (h : expandRuns (cigarRuns cigar) = ops) :
    runLengthSum ['M', 'D'] (cigarRuns cigar) = queryConsumed ops ∧
    runLengthSum ['M', 'I'] (cigarRuns cigar) = targetConsumed ops := by
  rw [runLengthSum_eq, runLengthSum_eq, h, countP_pair _ _ (by decide),
    countP_pair _ _ (by decide)]
  exact ⟨rfl, rfl⟩

/-! ## The walk from the end cell of each mode -/

theorem walk_of_consistent {sub : Nat → Nat → Int}
    {gapCost : Char → Option Char → Nat → Nat → Int} {n m : Nat} {s : AlignState}
    (hc : Consistent sub gapCost n m s.matrix s.traceback)
    (hstop : ∀ a b, a ≤ n → b ≤ m → s.traceback a b = stop → s.matrix a b = 0)
    (hq : s.end_query ≤ n) (ht : s.end_target ≤ m)
    (hscore : s.score = s.matrix s.end_query s.end_target) :
    ∃ raw i0 j0,
      tracebackWalk s.traceback (s.end_query + s.end_target + 1) s.end_query s.end_target =
        .ok (raw, i0, j0) ∧
      s.traceback i0 j0 = stop ∧ i0 ≤ n ∧ j0 ≤ m ∧
      replay sub gapCost raw.reverse ⟨i0, j0, none, 0⟩ =
        ⟨s.end_query, s.end_target, opOf (s.traceback s.end_query s.end_target), s.score⟩ := by
  obtain ⟨raw, i0, j0, hw, hs, hi0, hj0, hr⟩ :=
    tracebackWalk_replay hc (s.end_query + s.end_target + 1) s.end_query s.end_target
      (Nat.lt_succ_self _) hq ht
  refine ⟨raw, i0, j0, hw, hs, by omega, by omega, ?_⟩
  rw [hr, hstop i0 j0 (by omega) (by omega) hs, hscore]
  simp

theorem GlobalSpec.stop_zero_global {query target : List Char}
    {match_ mismatch gap gap_open gap_extend : Int} {s : AlignState}
    (h : GlobalSpec query target match_ mismatch gap gap_open gap_extend s) (a b : Nat)
    (ha : a ≤ query.length) (hb : b ≤ target.length) (hT : s.traceback a b = stop) :
    s.matrix a b = 0 := by
  obtain ⟨rfl, rfl⟩ := h.stop_origin a b ha hb hT
  exact h.border.origin.1

/-- For each alignment type the walk from the end cell returns, breaks at a `stop` cell of the
grid, and the replay of its operators from that cell under the cost rule of the grids leads
back to the end cell with the score as cost. -/
theorem alignFill_walk (type : AlignmentType) (query target : List Char)
    (match_ mismatch gap gap_open gap_extend : Int) :
    ∃ raw i0 j0,
      tracebackWalk (alignFill type query target match_ mismatch gap gap_open gap_extend).traceback
        ((alignFill type query target match_ mismatch gap gap_open gap_extend).end_query +
          (alignFill type query target match_ mismatch gap gap_open gap_extend).end_target + 1)
        (alignFill type query target match_ mismatch gap gap_open gap_extend).end_query
        (alignFill type query target match_ mismatch gap gap_open gap_extend).end_target =
        .ok (raw, i0, j0) ∧
      (alignFill type query target match_ mismatch gap gap_open gap_extend).traceback i0 j0
        = stop ∧
      i0 ≤ query.length ∧ j0 ≤ target.length ∧
      replay (substitution query target match_ mismatch)
          (gridGap gap gap_open gap_extend (decide (type = .global))) raw.reverse
          ⟨i0, j0, none, 0⟩ =
        ⟨(alignFill type query target match_ mismatch gap gap_open gap_extend).end_query,
         (alignFill type query target match_ mismatch gap gap_open gap_extend).end_target,
         opOf ((alignFill type query target match_ mismatch gap gap_open gap_extend).traceback
           (alignFill type query target match_ mismatch gap gap_open gap_extend).end_query
           (alignFill type query target match_ mismatch gap gap_open gap_extend).end_target),
         (alignFill type query target match_ mismatch gap gap_open gap_extend).score⟩ := by
  cases type with
  | global =>
    have hs := globalFill_spec query target match_ mismatch gap gap_open gap_extend
    simp only [alignFill]
    exact walk_of_consistent hs.consistent_global hs.stop_zero_global (le_of_eq hs.end_query_eq)
      (le_of_eq hs.end_target_eq) (by rw [hs.score_eq, hs.end_query_eq, hs.end_target_eq])
  | local_ =>
    have hs := localFill_spec query target match_ mismatch gap gap_open gap_extend
    simp only [alignFill]
    exact walk_of_consistent (hs.consistent_local false) hs.stop_zero_local hs.end_le_local.1 hs.end_le_local.2
      hs.score_eq
  | semiglobal =>
    have hs := semiGlobalFill_spec query target match_ mismatch gap gap_open gap_extend
    simp only [alignFill]
    exact walk_of_consistent (hs.consistent_semi false) hs.stop_zero_semi hs.end_le_semi.1 hs.end_le_semi.2
      hs.score_eq

theorem Align_eq_finish (type : AlignmentType) (query target : List Char)
    (match_ mismatch gap gap_open gap_extend : Int) :
    Align query target type match_ mismatch gap gap_open gap_extend =
      finish (alignFill type query target match_ mismatch gap gap_open gap_extend) := by
  cases type <;> rfl

/-- When `GetCigar` returns a string for a walk, the string decodes to the reversed raw
operators of the walk. -/
theorem GetCigar_decode (T : Grid Direction) (end_query end_target : Nat) (raw : List Char)
    (i0 j0 : Nat)
    (hw : tracebackWalk T (end_query + end_target + 1) end_query end_target = .ok (raw, i0, j0))
    (cigar : String) (hc : GetCigar T end_query end_target = .ok cigar) :
    expandRuns (cigarRuns cigar) = raw.reverse := by
  obtain ⟨h1, h2⟩ := GetCigar_spec T end_query end_target raw i0 j0 hw
  by_cases h : raw = []
  · rw [h1 h] at hc
    cases hc
  · obtain ⟨cigar2, hc2, hd⟩ := h2 h
    rw [hc2] at hc
    cases hc
    exact hd

/-! ## Lower bounds inside the grids, linear regime -/

theorem ins_linear (gap gap_open gap_extend : Int) (M : Grid Int) (T : Grid Direction)
    (i j : Nat) (h : ¬(gap_open ≠ 0 ∧ gap_extend ≠ 0)) :
    ins gap gap_open gap_extend M T i j = M i (j - 1) + gap := by
  rw [ins, if_neg h]

theorem del_linear (gap gap_open gap_extend : Int) (M : Grid Int) (T : Grid Direction)
    (i j : Nat) (h : ¬(gap_open ≠ 0 ∧ gap_extend ≠ 0)) :
    del gap gap_open gap_extend M T i j = M (i - 1) j + gap := by
  rw [del, if_neg h]

theorem GlobalSpec.row_zero {query target : List Char}
    {match_ mismatch gap gap_open gap_extend : Int} {s : AlignState}
    (h : GlobalSpec query target match_ mismatch gap gap_open gap_extend s) (b : Nat)
    (hb : b ≤ target.length) : s.matrix 0 b = gap * b := by
  rcases Nat.eq_zero_or_pos b with rfl | hb0
  · simpa using h.border.origin.1
  · exact (h.border.row b hb0 hb).1

theorem GlobalSpec.col_zero {query target : List Char}
    {match_ mismatch gap gap_open gap_extend : Int} {s : AlignState}
    (h : GlobalSpec query target match_ mismatch gap gap_open gap_extend s) (a : Nat)
    (ha : a ≤ query.length) : s.matrix a 0 = gap * a := by
  rcases Nat.eq_zero_or_pos a with rfl | ha0
  · simpa using h.border.origin.1
  · exact (h.border.col a ha0 ha).1

/-- In the linear regime every cell of the grid of `GlobalAlignment` is at least each of its
three predecessors plus the cost of the step from it. -/
theorem GlobalSpec.ge_linear_global {query target : List Char}
    {match_ mismatch gap gap_open gap_extend : Int} {s : AlignState}
    (h : GlobalSpec query target match_ mismatch gap gap_open gap_extend s)
    (hlin : ¬(gap_open ≠ 0 ∧ gap_extend ≠ 0)) (a b : Nat) :
    (a < query.length → b < target.length →
      s.matrix a b + substitution query target match_ mismatch a b ≤ s.matrix (a + 1) (b + 1)) ∧
    (a ≤ query.length → b < target.length → s.matrix a b + gap ≤ s.matrix a (b + 1)) ∧
    (a < query.length → b ≤ target.length → s.matrix a b + gap ≤ s.matrix (a + 1) b) := by
  refine ⟨?_, ?_, ?_⟩
  · intro ha hb
    have hc := (h.interior (a + 1) (b + 1) (by omega) (by omega) (by omega) (by omega)).1
    have hge := (step3_ge query target match_ mismatch gap gap_open gap_extend
      s.matrix s.traceback (a + 1) (b + 1)).1
    rw [← hc, subs_eq] at hge
    simpa using hge
  · intro ha hb
    rcases Nat.eq_zero_or_pos a with rfl | ha0
    · rw [h.row_zero b (by omega), h.row_zero (b + 1) (by omega)]
      push_cast; linarith
    · have hc := (h.interior a (b + 1) ha0 ha (by omega) (by omega)).1
      have hge := (step3_ge query target match_ mismatch gap gap_open gap_extend
        s.matrix s.traceback a (b + 1)).2.1
      rw [← hc, ins_linear _ _ _ _ _ _ _ hlin] at hge
      simpa using hge
  · intro ha hb
    rcases Nat.eq_zero_or_pos b with rfl | hb0
    · rw [h.col_zero a (by omega), h.col_zero (a + 1) (by omega)]
      push_cast; linarith
    · have hc := (h.interior (a + 1) b (by omega) (by omega) hb0 hb).1
      have hge := (step3_ge query target match_ mismatch gap gap_open gap_extend
        s.matrix s.traceback (a + 1) b).2.2
      rw [← hc, del_linear _ _ _ _ _ _ _ hlin] at hge
      simpa using hge

theorem queryConsumed_append (ops : List Char) (op : Char) :
    queryConsumed (ops ++ [op]) =
      queryConsumed ops + (if op = 'M' ∨ op = 'D' then 1 else 0) := by
  simp only [queryConsumed, List.count_append, List.count_singleton, beq_iff_eq]
  by_cases h1 : op = 'M'
  · subst h1; simp; omega
  · by_cases h2 : op = 'D'
    · subst h2; simp; omega
    · simp [h1, h2]

theorem targetConsumed_append (ops : List Char) (op : Char) :
    targetConsumed (ops ++ [op]) =
      targetConsumed ops + (if op = 'M' ∨ op = 'I' then 1 else 0) := by
  simp only [targetConsumed, List.count_append, List.count_singleton, beq_iff_eq]
  by_cases h1 : op = 'M'
  · subst h1; simp; omega
  · by_cases h2 : op = 'I'
    · subst h2; simp; omega
    · simp [h1, h2]

/-- The replay of an edit script from the start of both sequences stands at the numbers of
characters the script consumes, and costs at most the grid value of `GlobalAlignment` there. -/
theorem GlobalSpec.replay_le {query target : List Char}
    {match_ mismatch gap gap_open gap_extend : Int} {s : AlignState}
    (h : GlobalSpec query target match_ mismatch gap gap_open gap_extend s)
    (hlin : ¬(gap_open ≠ 0 ∧ gap_extend ≠ 0)) (ops : List Char) (hops : IsEditScript ops) :
    (replay (substitution query target match_ mismatch) (linearGap gap) ops
      ⟨0, 0, none, 0⟩).i = queryConsumed ops ∧
    (replay (substitution query target match_ mismatch) (linearGap gap) ops
      ⟨0, 0, none, 0⟩).j = targetConsumed ops ∧
    (queryConsumed ops ≤ query.length → targetConsumed ops ≤ target.length →
      (replay (substitution query target match_ mismatch) (linearGap gap) ops
        ⟨0, 0, none, 0⟩).cost ≤ s.matrix (queryConsumed ops) (targetConsumed ops)) := by
  induction ops using List.reverseRecOn with
  | nil =>
    refine ⟨rfl, rfl, ?_⟩
    intro _ _
    simp [replay, queryConsumed, targetConsumed, h.border.origin.1]
  | append_singleton l op ih =>
    obtain ⟨ih1, ih2, ih3⟩ := ih (fun c hc => hops c (List.mem_append_left _ hc))
    rw [replay_append, queryConsumed_append, targetConsumed_append]
    obtain ⟨g1, g2, g3⟩ := h.ge_linear_global hlin (queryConsumed l) (targetConsumed l)
    rcases hops op (by simp) with rfl | rfl | rfl
    · have e1 : (if 'M' = 'M' ∨ 'M' = 'D' then 1 else 0 : Nat) = 1 := by decide
      have e2 : (if 'M' = 'M' ∨ 'M' = 'I' then 1 else 0 : Nat) = 1 := by decide
      rw [e1, e2, replayStep_M]
      refine ⟨by simp [ih1], by simp [ih2], ?_⟩
      intro hq ht
      have := ih3 (by omega) (by omega)
      have := g1 (by omega) (by omega)
      simp only [ih1, ih2]
      linarith
    · have e1 : (if 'I' = 'M' ∨ 'I' = 'D' then 1 else 0 : Nat) = 0 := by decide
      have e2 : (if 'I' = 'M' ∨ 'I' = 'I' then 1 else 0 : Nat) = 1 := by decide
      rw [e1, e2, replayStep_I]
      simp only [Nat.add_zero]
      refine ⟨by simp [ih1], by simp [ih2], ?_⟩
      intro hq ht
      have := ih3 (by omega) (by omega)
      have := g2 (by omega) (by omega)
      simp only [linearGap]
      linarith
    · have e1 : (if 'D' = 'M' ∨ 'D' = 'D' then 1 else 0 : Nat) = 1 := by decide
      have e2 : (if 'D' = 'M' ∨ 'D' = 'I' then 1 else 0 : Nat) = 0 := by decide
      rw [e1, e2, replayStep_D]
      simp only [Nat.add_zero]
      refine ⟨by simp [ih1], by simp [ih2], ?_⟩
      intro hq ht
      have := ih3 (by omega) (by omega)
      have := g3 (by omega) (by omega)
      simp only [linearGap]
      linarith

theorem IsEditScript.reverse {ops : List Char} (h : IsEditScript ops) :
    IsEditScript ops.reverse :=
  fun c hc => h c (List.mem_reverse.1 hc)

theorem queryConsumed_reverse (ops : List Char) :
    queryConsumed ops.reverse = queryConsumed ops := by
  simp [queryConsumed]

theorem targetConsumed_reverse (ops : List Char) :
    targetConsumed ops.reverse = targetConsumed ops := by
  simp [targetConsumed]

/-- The walk of `GlobalAlignment`: it returns, breaks at `(0, 0)`, consumes both sequences
entirely, and its replay under the cost rule of the grid costs the score. -/
theorem global_walk (query target : List Char) (match_ mismatch gap gap_open gap_extend : Int) :
    ∃ raw,
      tracebackWalk (globalFill query target match_ mismatch gap gap_open gap_extend).traceback
        (query.length + target.length + 1) query.length target.length = .ok (raw, 0, 0) ∧
      IsEditScript raw ∧ queryConsumed raw = query.length ∧
      targetConsumed raw = target.length ∧
      (replay (substitution query target match_ mismatch)
        (gridGap gap gap_open gap_extend true) raw.reverse ⟨0, 0, none, 0⟩).cost =
        (globalFill query target match_ mismatch gap gap_open gap_extend).score := by
  have hs := globalFill_spec query target match_ mismatch gap gap_open gap_extend
  obtain ⟨raw, i0, j0, hw, hstop, hi0, hj0, hr⟩ :=
    alignFill_walk .global query target match_ mismatch gap gap_open gap_extend
  simp only [alignFill, hs.end_query_eq, hs.end_target_eq] at hw hstop hr
  obtain ⟨rfl, rfl⟩ := hs.stop_origin i0 j0 hi0 hj0 hstop
  obtain ⟨_, h2, h3, h4⟩ := tracebackWalk_counts _ _ _ _ _ _ _ hw
  refine ⟨raw, hw, h4, by omega, by omega, ?_⟩
  simp only [decide_True] at hr
  rw [hr]

/-- Each operator of a walk stands for one move: `M` for `i--; j--`, `I` for `j--`, `D` for
`i--`; the rest of the raw string is the walk from the cell moved to. -/
theorem tracebackWalk_step (T : Grid Direction) (fuel i j : Nat) (op : Char) (raw : List Char)
    (i0 j0 : Nat) (h : tracebackWalk T (fuel + 1) i j = .ok (op :: raw, i0, j0)) :
    (op = 'M' ∧ T i j = diag ∧ 1 ≤ i ∧ 1 ≤ j ∧
      tracebackWalk T fuel (i - 1) (j - 1) = .ok (raw, i0, j0)) ∨
    (op = 'I' ∧ T i j = left ∧ 1 ≤ j ∧ tracebackWalk T fuel i (j - 1) = .ok (raw, i0, j0)) ∨
    (op = 'D' ∧ T i j = up ∧ 1 ≤ i ∧ tracebackWalk T fuel (i - 1) j = .ok (raw, i0, j0)) := by
  unfold tracebackWalk at h
  cases hT : T i j with
  | stop => simp [hT] at h
  | diag =>
    simp only [hT] at h
    by_cases h0 : i = 0 ∨ j = 0
    · simp [h0] at h
    · simp only [h0, if_false] at h
      cases hw : tracebackWalk T fuel (i - 1) (j - 1) with
      | error e => simp [hw, Except.map] at h
      | ok r =>
        obtain ⟨raw2, i2, j2⟩ := r
        simp only [hw, Except.map, Except.ok.injEq, Prod.mk.injEq, List.cons.injEq] at h
        obtain ⟨⟨rfl, rfl⟩, rfl, rfl⟩ := h
        exact Or.inl ⟨rfl, rfl, by omega, by omega, rfl⟩
  | left =>
    simp only [hT] at h
    by_cases h0 : j = 0
    · simp [h0] at h
    · simp only [h0, if_false] at h
      cases hw : tracebackWalk T fuel i (j - 1) with
      | error e => simp [hw, Except.map] at h
      | ok r =>
        obtain ⟨raw2, i2, j2⟩ := r
        simp only [hw, Except.map, Except.ok.injEq, Prod.mk.injEq, List.cons.injEq] at h
        obtain ⟨⟨rfl, rfl⟩, rfl, rfl⟩ := h
        exact Or.inr (Or.inl ⟨rfl, rfl, by omega, rfl⟩)
  | up =>
    simp only [hT] at h
    by_cases h0 : i = 0
    · simp [h0] at h
    · simp only [h0, if_false] at h
      cases hw : tracebackWalk T fuel (i - 1) j with
      | error e => simp [hw, Except.map] at h
      | ok r =>
        obtain ⟨raw2, i2, j2⟩ := r
        simp only [hw, Except.map, Except.ok.injEq, Prod.mk.injEq, List.cons.injEq] at h
        obtain ⟨⟨rfl, rfl⟩, rfl, rfl⟩ := h
        exact Or.inr (Or.inr ⟨rfl, rfl, by omega, rfl⟩)

/-- The CIGAR of `GlobalAlignment` on sequences that are not both empty: it is returned, its
`M` and `D` run lengths sum to `query_len`, its `M` and `I` run lengths to `target_len`. -/
theorem global_cigar (query target : List Char) (match_ mismatch gap gap_open gap_extend : Int)
    (h : query ≠ [] ∨ target ≠ []) :
    ∃ cigar,
      (GlobalAlignment query target match_ mismatch gap gap_open gap_extend).cigar = .ok cigar ∧
      runLengthSum ['M', 'D'] (cigarRuns cigar) = query.length ∧
      runLengthSum ['M', 'I'] (cigarRuns cigar) = target.length := by
  obtain ⟨raw, hw, _, hq, ht, _⟩ :=
    global_walk query target match_ mismatch gap gap_open gap_extend
  have hne : raw ≠ [] := by
    rintro rfl
    simp only [queryConsumed, targetConsumed, List.count_nil, Nat.add_zero] at hq ht
    rcases h with h | h
    · exact h (List.length_eq_zero.1 hq.symm)
    · exact h (List.length_eq_zero.1 ht.symm)
  obtain ⟨cigar, hc, hd⟩ := (GetCigar_spec _ _ _ raw 0 0 hw).2 hne
  refine ⟨cigar, hc, ?_⟩
  obtain ⟨h1, h2⟩ := runLengthSum_cigar cigar raw.reverse hd
  rw [h1, h2, queryConsumed_reverse, targetConsumed_reverse]
  exact ⟨hq, ht⟩

/-! ## Global alignment: optimal score and coverage (C1, C2, C3) -/

/-- C1. In linear-gap mode (`gap_open = 0`, `gap_extend = 0`), for every query, every target and
all integers `match`, `mismatch`, `gap`, the score returned by `GlobalAlignment` is the maximum,
over all edit scripts over `M`, `I`, `D` that consume exactly `query_len` query characters and
`target_len` target characters, of the summed step costs (`M` costs `match` when the two aligned
characters are equal and `mismatch` otherwise, every `I` and every `D` costs `gap`).  Scripts
are replayed with the moves of the walk (`I` consumes a target character, `D` a query
character); exchanging the roles of `I` and `D` maps scripts to scripts of equal cost. -/
theorem global_score_is_optimal (query target : List Char) (match_ mismatch gap : Int) :
    IsGreatest
      {c : Int | ∃ ops, IsEditScript ops ∧ queryConsumed ops = query.length ∧
        targetConsumed ops = target.length ∧
        scriptCost query target match_ mismatch gap ops = c}
      (GlobalAlignment query target match_ mismatch gap 0 0).score := by
  have hs := globalFill_spec query target match_ mismatch gap 0 0
  have hlin : ¬((0 : Int) ≠ 0 ∧ (0 : Int) ≠ 0) := by simp
  constructor
  · obtain ⟨raw, _, h1, h2, h3, h4⟩ := global_walk query target match_ mismatch gap 0 0
    refine ⟨raw.reverse, h1.reverse, by rw [queryConsumed_reverse, h2],
      by rw [targetConsumed_reverse, h3], ?_⟩
    rw [gridGap_linear gap 0 0 true hlin] at h4
    exact h4
  · rintro c ⟨ops, h1, h2, h3, rfl⟩
    have h4 := (hs.replay_le hlin ops h1).2.2 (le_of_eq h2) (le_of_eq h3)
    rw [h2, h3, ← hs.score_eq] at h4
    exact h4

/-- C2. For every query and target that are not both empty and for all cost parameters (linear
or affine), `GlobalAlignment` returns a CIGAR whose `M` and `D` run lengths sum to exactly
`query_len` and whose `M` and `I` run lengths sum to exactly `target_len`. -/
theorem global_cigar_coverage (query target : List Char)
    (match_ mismatch gap gap_open gap_extend : Int) (h : query ≠ [] ∨ target ≠ []) :
    ∃ cigar,
      (GlobalAlignment query target match_ mismatch gap gap_open gap_extend).cigar = .ok cigar ∧
      runLengthSum ['M', 'D'] (cigarRuns cigar) = query.length ∧
      runLengthSum ['M', 'I'] (cigarRuns cigar) = target.length :=
  global_cigar query target match_ mismatch gap gap_open gap_extend h

/-- Witness for C2: the query `GA` against the target `A`, affine costs. -/
theorem global_cigar_coverage_witness :
    (['G', 'A'] ≠ [] ∨ ['A'] ≠ []) ∧
    ∃ cigar,
      (GlobalAlignment ['G', 'A'] ['A'] 1 (-1) (-1) (-2) (-1)).cigar = .ok cigar ∧
      runLengthSum ['M', 'D'] (cigarRuns cigar) = ['G', 'A'].length ∧
      runLengthSum ['M', 'I'] (cigarRuns cigar) = ['A'].length :=
  ⟨by decide, global_cigar_coverage ['G', 'A'] ['A'] 1 (-1) (-1) (-2) (-1) (by decide)⟩

/-- C3, the claim as stated fails: on the query `A` and the empty target `GlobalAlignment`
returns the CIGAR `1D`, whose `M` and `I` run lengths sum to `0`, not to `query_len = 1`, and
whose `M` and `D` run lengths sum to `1`, not to `target_len = 0`. -/
theorem cigar_operator_roles_counterexample :
    (GlobalAlignment ['A'] [] 1 (-1) (-1) 0 0).cigar = .ok "1D" ∧
    ¬(runLengthSum ['M', 'I'] (cigarRuns "1D") = ['A'].length) ∧
    ¬(runLengthSum ['M', 'D'] (cigarRuns "1D") = ([] : List Char).length) := by
  decide

/-- C3, amended. In the raw operator string of the traceback walk every `M` stands for a step
`i--; j--`, every `I` for a step `j--` that consumes one target character and no query
character, and every `D` for a step `i--` that consumes one query character and no target
character; so for Global mode on sequences that are not both empty the `M` and `D` run lengths
of the CIGAR sum to `query_len` and the `M` and `I` run lengths to `target_len`. -/
theorem cigar_operator_roles (query target : List Char)
    (match_ mismatch gap gap_open gap_extend : Int) (h : query ≠ [] ∨ target ≠ []) :
    (∀ (T : Grid Direction) (fuel i j : Nat) (op : Char) (raw : List Char) (i0 j0 : Nat),
      tracebackWalk T (fuel + 1) i j = .ok (op :: raw, i0, j0) →
      (op = 'M' ∧ T i j = diag ∧ 1 ≤ i ∧ 1 ≤ j ∧
        tracebackWalk T fuel (i - 1) (j - 1) = .ok (raw, i0, j0)) ∨
      (op = 'I' ∧ T i j = left ∧ 1 ≤ j ∧
        tracebackWalk T fuel i (j - 1) = .ok (raw, i0, j0)) ∨
      (op = 'D' ∧ T i j = up ∧ 1 ≤ i ∧
        tracebackWalk T fuel (i - 1) j = .ok (raw, i0, j0))) ∧
    ∃ cigar,
      (GlobalAlignment query target match_ mismatch gap gap_open gap_extend).cigar = .ok cigar ∧
      runLengthSum ['M', 'D'] (cigarRuns cigar) = query.length ∧
      runLengthSum ['M', 'I'] (cigarRuns cigar) = target.length :=
  ⟨tracebackWalk_step, global_cigar query target match_ mismatch gap gap_open gap_extend h⟩

/-- Witness for the amended C3: the query `A` against the empty target. -/
theorem cigar_operator_roles_witness :
    (['A'] ≠ [] ∨ ([] : List Char) ≠ []) ∧
    ((∀ (T : Grid Direction) (fuel i j : Nat) (op : Char) (raw : List Char) (i0 j0 : Nat),
      tracebackWalk T (fuel + 1) i j = .ok (op :: raw, i0, j0) →
      (op = 'M' ∧ T i j = diag ∧ 1 ≤ i ∧ 1 ≤ j ∧
        tracebackWalk T fuel (i - 1) (j - 1) = .ok (raw, i0, j0)) ∨
      (op = 'I' ∧ T i j = left ∧ 1 ≤ j ∧
        tracebackWalk T fuel i (j - 1) = .ok (raw, i0, j0)) ∨
      (op = 'D' ∧ T i j = up ∧ 1 ≤ i ∧
        tracebackWalk T fuel (i - 1) j = .ok (raw, i0, j0))) ∧
    ∃ cigar,
      (GlobalAlignment ['A'] [] 1 (-1) (-1) 0 0).cigar = .ok cigar ∧
      runLengthSum ['M', 'D'] (cigarRuns cigar) = ['A'].length ∧
      runLengthSum ['M', 'I'] (cigarRuns cigar) = ([] : List Char).length) :=
  ⟨by decide, cigar_operator_roles ['A'] [] 1 (-1) (-1) 0 0 (by decide)⟩

/-! ## Score reconstruction (C4, C5) -/

/-- C4. In linear-gap mode (`gap_open = 0`, `gap_extend = 0`), for each of the three alignment
types and every input, the traceback walk from the end cell returns, and replaying its operators
in start-to-end order from the `stop` cell where it broke, charging `match` or `mismatch` for
each `M` according to the two characters it aligns and `gap` for each `I` and each `D`, sums to
exactly the returned score; a CIGAR string that `Align` returns decodes to exactly this operator
sequence.  The replay reads the moves of the walk forwards: `M` advances in both sequences, `I`
in the target, `D` in the query.  (When the walk emits no operator, the sum is `0`, the score is
`0`, and `GetCigar` returns no string.) -/
theorem linear_score_reconstruction (type : AlignmentType) (query target : List Char)
    (match_ mismatch gap : Int) :
    ∃ raw i0 j0,
      tracebackWalk (alignFill type query target match_ mismatch gap 0 0).traceback
        ((alignFill type query target match_ mismatch gap 0 0).end_query +
          (alignFill type query target match_ mismatch gap 0 0).end_target + 1)
        (alignFill type query target match_ mismatch gap 0 0).end_query
        (alignFill type query target match_ mismatch gap 0 0).end_target = .ok (raw, i0, j0) ∧
      (alignFill type query target match_ mismatch gap 0 0).traceback i0 j0 = stop ∧
      (replay (substitution query target match_ mismatch) (linearGap gap) raw.reverse
        ⟨i0, j0, none, 0⟩).cost = (Align query target type match_ mismatch gap 0 0).score ∧
      (∀ cigar, (Align query target type match_ mismatch gap 0 0).cigar = .ok cigar →
        expandRuns (cigarRuns cigar) = raw.reverse) := by
  obtain ⟨raw, i0, j0, hw, hs, _, _, hr⟩ :=
    alignFill_walk type query target match_ mismatch gap 0 0
  refine ⟨raw, i0, j0, hw, hs, ?_, ?_⟩
  · rw [gridGap_linear gap 0 0 _ (by simp)] at hr
    rw [hr, Align_eq_finish]
    rfl
  · intro cigar hc
    rw [Align_eq_finish] at hc
    exact GetCigar_decode _ _ _ raw i0 j0 hw cigar hc

/-- C5, the claim as stated fails: `GlobalAlignment` on an empty query and the target `A`, with
`gap = -1`, `gap_open = -2`, `gap_extend = -1`, returns the score `-1` and the CIGAR `1I`, while
the affine replay of `I` charges `gap_open = -2`. -/
theorem affine_replay_global_counterexample :
    tracebackWalk (alignFill .global [] ['A'] 1 (-1) (-1) (-2) (-1)).traceback 2 0 1 =
      .ok (['I'], 0, 0) ∧
    (Align [] ['A'] .global 1 (-1) (-1) (-2) (-1)).cigar = .ok "1I" ∧
    (replay (substitution [] ['A'] 1 (-1)) (affineGap (-2) (-1)) ['I'] ⟨0, 0, none, 0⟩).cost
      = -2 ∧
    (Align [] ['A'] .global 1 (-1) (-1) (-2) (-1)).score = -1 := by
  decide

/-- C5, amended. In affine mode (`gap_open` and `gap_extend` both non-zero), for each alignment
type and every input, the walk from the end cell returns and the replay of its operators from the
`stop` cell, charging `match` or `mismatch` for each `M` and, for each `I` or `D`, `gap_extend`
when the preceding operator is the same gap operator and `gap_open` otherwise, sums to exactly
the returned score, where in Global mode the gap operators that run along row `0` or column `0`
are charged the flat `gap` instead. -/
theorem affine_score_reconstruction (type : AlignmentType) (query target : List Char)
    (match_ mismatch gap gap_open gap_extend : Int) (h : gap_open ≠ 0 ∧ gap_extend ≠ 0) :
    ∃ raw i0 j0,
      tracebackWalk (alignFill type query target match_ mismatch gap gap_open gap_extend).traceback
        ((alignFill type query target match_ mismatch gap gap_open gap_extend).end_query +
          (alignFill type query target match_ mismatch gap gap_open gap_extend).end_target + 1)
        (alignFill type query target match_ mismatch gap gap_open gap_extend).end_query
        (alignFill type query target match_ mismatch gap gap_open gap_extend).end_target =
        .ok (raw, i0, j0) ∧
      (alignFill type query target match_ mismatch gap gap_open gap_extend).traceback i0 j0
        = stop ∧
      (replay (substitution query target match_ mismatch)
        (if type = .global then affineGapFlatBorder gap gap_open gap_extend
          else affineGap gap_open gap_extend)
        raw.reverse ⟨i0, j0, none, 0⟩).cost =
          (Align query target type match_ mismatch gap gap_open gap_extend).score ∧
      (∀ cigar,
        (Align query target type match_ mismatch gap gap_open gap_extend).cigar = .ok cigar →
        expandRuns (cigarRuns cigar) = raw.reverse) := by
  obtain ⟨raw, i0, j0, hw, hs, _, _, hr⟩ :=
    alignFill_walk type query target match_ mismatch gap gap_open gap_extend
  refine ⟨raw, i0, j0, hw, hs, ?_, ?_⟩
  · have hg : gridGap gap gap_open gap_extend (decide (type = .global)) =
        (if type = .global then affineGapFlatBorder gap gap_open gap_extend
          else affineGap gap_open gap_extend) := by
      cases type
      · exact gridGap_affine_flat gap gap_open gap_extend h
      · exact gridGap_affine gap gap_open gap_extend h
      · exact gridGap_affine gap gap_open gap_extend h
    rw [hg] at hr
    rw [hr, Align_eq_finish]
    rfl
  · intro cigar hc
    rw [Align_eq_finish] at hc
    exact GetCigar_decode _ _ _ raw i0 j0 hw cigar hc

/-- Witness for the amended C5: Local mode on `A` against `A` with `gap_open = -2`,
`gap_extend = -1`. -/
theorem affine_score_reconstruction_witness :
    ((-2 : Int) ≠ 0 ∧ (-1 : Int) ≠ 0) ∧
    ∃ raw i0 j0,
      tracebackWalk (alignFill .local_ ['A'] ['A'] 1 (-1) (-1) (-2) (-1)).traceback
        ((alignFill .local_ ['A'] ['A'] 1 (-1) (-1) (-2) (-1)).end_query +
          (alignFill .local_ ['A'] ['A'] 1 (-1) (-1) (-2) (-1)).end_target + 1)
        (alignFill .local_ ['A'] ['A'] 1 (-1) (-1) (-2) (-1)).end_query
        (alignFill .local_ ['A'] ['A'] 1 (-1) (-1) (-2) (-1)).end_target =
        .ok (raw, i0, j0) ∧
      (alignFill .local_ ['A'] ['A'] 1 (-1) (-1) (-2) (-1)).traceback i0 j0 = stop ∧
      (replay (substitution ['A'] ['A'] 1 (-1))
        (if AlignmentType.local_ = .global then affineGapFlatBorder (-1) (-2) (-1)
          else affineGap (-2) (-1))
        raw.reverse ⟨i0, j0, none, 0⟩).cost =
          (Align ['A'] ['A'] .local_ 1 (-1) (-1) (-2) (-1)).score ∧
      (∀ cigar,
        (Align ['A'] ['A'] .local_ 1 (-1) (-1) (-2) (-1)).cigar = .ok cigar →
        expandRuns (cigarRuns cigar) = raw.reverse) :=
  ⟨by decide, affine_score_reconstruction .local_ ['A'] ['A'] 1 (-1) (-1) (-2) (-1) (by decide)⟩

/-! ## Local and semi-global scores (C6, C8, C9) -/

/-- C6. For every query, every target and all cost parameters, the score returned by
`LocalAlignment` is at least `0`. -/
theorem local_score_nonneg (query target : List Char)
    (match_ mismatch gap gap_open gap_extend : Int) :
    0 ≤ (LocalAlignment query target match_ mismatch gap gap_open gap_extend).score :=
  (localFill_spec query target match_ mismatch gap gap_open gap_extend).score_nonneg

/-- C8, the code at the failing input: on the query `A` and the target `C` with `match = 1`,
`mismatch = -1`, `gap = -1` (linear), no cell of the last row or column exceeds the initial
score `0`, so `SemiGlobalAlignment` keeps the initial end cell `(0, 0)`, which lies neither in
row `query_len = 1` nor in column `target_len = 1`; the walk from it is empty and `GetCigar`
reads `cigar[cigar.size()-1]` outside the string. -/
theorem semiglobal_end_cell_origin :
    (semiGlobalFill ['A'] ['C'] 1 (-1) (-1) 0 0).end_query = 0 ∧
    (semiGlobalFill ['A'] ['C'] 1 (-1) (-1) 0 0).end_target = 0 ∧
    ¬((semiGlobalFill ['A'] ['C'] 1 (-1) (-1) 0 0).end_query = ['A'].length ∨
      (semiGlobalFill ['A'] ['C'] 1 (-1) (-1) 0 0).end_target = ['C'].length) ∧
    (SemiGlobalAlignment ['A'] ['C'] 1 (-1) (-1) 0 0).score = 0 ∧
    (SemiGlobalAlignment ['A'] ['C'] 1 (-1) (-1) 0 0).cigar = .error .outOfBounds := by
  decide

/-- C9. For every input of `SemiGlobalAlignment`, the returned score is the maximum of the
score-grid values over the cells `(i, j)` of the grid with `i = query_len` or `j = target_len`
(last row or last column, border cells included). -/
theorem semiglobal_score_is_edge_maximum (query target : List Char)
    (match_ mismatch gap gap_open gap_extend : Int) :
    IsGreatest
      {v : Int | ∃ i j, i ≤ query.length ∧ j ≤ target.length ∧
        (i = query.length ∨ j = target.length) ∧
        (semiGlobalFill query target match_ mismatch gap gap_open gap_extend).matrix i j = v}
      (SemiGlobalAlignment query target match_ mismatch gap gap_open gap_extend).score := by
  have hs := semiGlobalFill_spec query target match_ mismatch gap gap_open gap_extend
  have hscore : (SemiGlobalAlignment query target match_ mismatch gap gap_open gap_extend).score
      = (semiGlobalFill query target match_ mismatch gap gap_open gap_extend).score := rfl
  rw [hscore]
  constructor
  · rcases hs.end_cases with ⟨h1, h2⟩ | ⟨h1, h2, h3, h4, h5⟩
    · refine ⟨query.length, 0, le_refl _, Nat.zero_le _, Or.inl rfl, ?_⟩
      rw [hs.score_eq, h1, h2, hs.border.origin.1]
      exact (hs.border.at_border _ _ (le_refl _) (Nat.zero_le _) (Or.inr rfl)).1
    · exact ⟨_, _, h2, h4, h5, hs.score_eq.symm⟩
  · rintro v ⟨i, j, hi, hj, hedge, rfl⟩
    by_cases h0 : i = 0 ∨ j = 0
    · rw [(hs.border.at_border i j hi hj h0).1]
      exact hs.score_nonneg
    · exact hs.score_ge i j (by omega) hi (by omega) hj hedge

/-! ## Local against global on substrings (C7) -/

theorem LocalSpec.nonneg {query target : List Char}
    {match_ mismatch gap gap_open gap_extend : Int} {s : AlignState}
    (h : LocalSpec query target match_ mismatch gap gap_open gap_extend s) (a b : Nat)
    (ha : a ≤ query.length) (hb : b ≤ target.length) : 0 ≤ s.matrix a b := by
  by_cases h0 : a = 0 ∨ b = 0
  · rw [(h.border.at_border a b ha hb h0).1]
  · rw [(h.interior a b (by omega) ha (by omega) hb).1]
    exact (step4_ge query target match_ mismatch gap gap_open gap_extend
      s.matrix s.traceback a b).2.2.2

/-- In the linear regime with `gap ≤ 0` every cell of the grid of `LocalAlignment` is at least
each of its three predecessors plus the cost of the step from it. -/
theorem LocalSpec.ge_linear_local {query target : List Char}
    {match_ mismatch gap gap_open gap_extend : Int} {s : AlignState}
    (h : LocalSpec query target match_ mismatch gap gap_open gap_extend s)
    (hlin : ¬(gap_open ≠ 0 ∧ gap_extend ≠ 0)) (hgap : gap ≤ 0) (a b : Nat) :
    (a < query.length → b < target.length →
      s.matrix a b + substitution query target match_ mismatch a b ≤ s.matrix (a + 1) (b + 1)) ∧
    (a ≤ query.length → b < target.length → s.matrix a b + gap ≤ s.matrix a (b + 1)) ∧
    (a < query.length → b ≤ target.length → s.matrix a b + gap ≤ s.matrix (a + 1) b) := by
  refine ⟨?_, ?_, ?_⟩
  · intro ha hb
    have hc := (h.interior (a + 1) (b + 1) (by omega) (by omega) (by omega) (by omega)).1
    have hge := (step4_ge query target match_ mismatch gap gap_open gap_extend
      s.matrix s.traceback (a + 1) (b + 1)).1
    rw [← hc, subs_eq] at hge
    simpa using hge
  · intro ha hb
    rcases Nat.eq_zero_or_pos a with rfl | ha0
    · rw [(h.border.at_border 0 b ha (by omega) (Or.inl rfl)).1,
        (h.border.at_border 0 (b + 1) ha (by omega) (Or.inl rfl)).1]
      omega
    · have hc := (h.interior a (b + 1) ha0 ha (by omega) (by omega)).1
      have hge := (step4_ge query target match_ mismatch gap gap_open gap_extend
        s.matrix s.traceback a (b + 1)).2.1
      rw [← hc, ins_linear _ _ _ _ _ _ _ hlin] at hge
      simpa using hge
  · intro ha hb
    rcases Nat.eq_zero_or_pos b with rfl | hb0
    · rw [(h.border.at_border a 0 (by omega) hb (Or.inr rfl)).1,
        (h.border.at_border (a + 1) 0 (by omega) hb (Or.inr rfl)).1]
      omega
    · have hc := (h.interior (a + 1) b (by omega) (by omega) hb0 hb).1
      have hge := (step4_ge query target match_ mismatch gap gap_open gap_extend
        s.matrix s.traceback (a + 1) b).2.2.1
      rw [← hc, del_linear _ _ _ _ _ _ _ hlin] at hge
      simpa using hge

theorem getElem?_middle (pre mid post : List Char) (i : Nat) (hi : i < mid.length) :
    (pre ++ mid ++ post)[pre.length + i]? = mid[i]? := by
  rw [List.append_assoc, List.getElem?_append_right (by omega)]
  rw [Nat.add_sub_cancel_left, List.getElem?_append_left hi]

/-- In the linear regime with `gap ≤ 0`, the grid of `GlobalAlignment` on a pair of substrings
lies below the grid of `LocalAlignment` on the whole sequences, cell by shifted cell. -/
theorem global_le_local_grid (qpre q2 qpost tpre t2 tpost : List Char)
    (match_ mismatch gap gap_open gap_extend : Int) (G H : AlignState)
    (hG : GlobalSpec q2 t2 match_ mismatch gap gap_open gap_extend G)
    (hH : LocalSpec (qpre ++ q2 ++ qpost) (tpre ++ t2 ++ tpost) match_ mismatch gap gap_open
      gap_extend H)
    (hlin : ¬(gap_open ≠ 0 ∧ gap_extend ≠ 0)) (hgap : gap ≤ 0) (i j : Nat)
    (hi : i ≤ q2.length) (hj : j ≤ t2.length) :
    G.matrix i j ≤ H.matrix (qpre.length + i) (tpre.length + j) := by
  have hlenq : (qpre ++ q2 ++ qpost).length = qpre.length + q2.length + qpost.length := by
    simp only [List.length_append]
  have hlent : (tpre ++ t2 ++ tpost).length = tpre.length + t2.length + tpost.length := by
    simp only [List.length_append]
  have hnonneg : ∀ a b, a ≤ q2.length → b ≤ t2.length →
      0 ≤ H.matrix (qpre.length + a) (tpre.length + b) :=
    fun a b ha hb => hH.nonneg _ _ (by omega) (by omega)
  have hmul : ∀ k : Nat, gap * (k : Int) ≤ 0 := fun k =>
    mul_nonpos_of_nonpos_of_nonneg hgap (Int.ofNat_nonneg k)
  induction i generalizing j with
  | zero =>
    rw [hG.row_zero j hj]
    exact le_trans (hmul j) (hnonneg 0 j (Nat.zero_le _) hj)
  | succ i ih =>
    induction j with
    | zero =>
      rw [hG.col_zero (i + 1) hi]
      exact le_trans (hmul (i + 1)) (hnonneg (i + 1) 0 hi (Nat.zero_le _))
    | succ j ihj =>
      obtain ⟨g1, g2, g3⟩ := hH.ge_linear_local hlin hgap (qpre.length + i) (tpre.length + j)
      have g2b := (hH.ge_linear_local hlin hgap (qpre.length + (i + 1)) (tpre.length + j)).2.1
        (by omega) (by omega)
      have g3b := (hH.ge_linear_local hlin hgap (qpre.length + i) (tpre.length + (j + 1))).2.2
        (by omega) (by omega)
      have hsub : substitution q2 t2 match_ mismatch i j =
          substitution (qpre ++ q2 ++ qpost) (tpre ++ t2 ++ tpost) match_ mismatch
            (qpre.length + i) (tpre.length + j) := by
        unfold substitution
        rw [getElem?_middle qpre q2 qpost i (by omega), getElem?_middle tpre t2 tpost j (by omega)]
      have hc := (hG.interior (i + 1) (j + 1) (by omega) hi (by omega) hj).1
      have e1 := ih j (by omega) (by omega)
      have e2 := ih (j + 1) (by omega) hj
      have e3 := ihj (by omega)
      have g1b := g1 (by omega) (by omega)
      rcases step3_mem q2 t2 match_ mismatch gap gap_open gap_extend G.matrix G.traceback
        (i + 1) (j + 1) with e | e | e <;> rw [e] at hc <;> rw [hc]
      · rw [subs_eq]
        simp only [Nat.add_sub_cancel, ← Nat.add_assoc] at e2 e3 g2b g3b ⊢
        rw [hsub]
        linarith
      · rw [ins_linear _ _ _ _ _ _ _ hlin]
        simp only [Nat.add_sub_cancel, ← Nat.add_assoc] at e2 e3 g2b g3b ⊢
        linarith
      · rw [del_linear _ _ _ _ _ _ _ hlin]
        simp only [Nat.add_sub_cancel, ← Nat.add_assoc] at e2 e3 g2b g3b ⊢
        linarith

/-- The score of `LocalAlignment` is at least every value of its grid. -/
theorem LocalSpec.matrix_le_score {query target : List Char}
    {match_ mismatch gap gap_open gap_extend : Int} {s : AlignState}
    (h : LocalSpec query target match_ mismatch gap gap_open gap_extend s) (a b : Nat)
    (ha : a ≤ query.length) (hb : b ≤ target.length) : s.matrix a b ≤ s.score := by
  by_cases h0 : a = 0 ∨ b = 0
  · rw [(h.border.at_border a b ha hb h0).1]
    exact h.score_nonneg
  · exact h.score_ge a b (by omega) ha (by omega) hb

set_option maxRecDepth 1000000 in
/-- C7, the claim as stated fails, in both regimes.  Linear with a positive `gap`: on the query
`A` and the empty target with `gap = 1`, `LocalAlignment` returns `0` and `GlobalAlignment`
returns `1`.  Affine with negative gap costs: with `match = 6`, `mismatch = -3`, `gap = -3`,
`gap_open = -3`, `gap_extend = -2`, `LocalAlignment` on `ACCAC` against `CAAAC` returns `12`
and `GlobalAlignment` on the substring `CAC` against `CAAAC` returns `13`. -/
theorem local_ge_global_counterexample :
    (['A'] <:+: ['A'] ∧ ([] : List Char) <:+: [] ∧
      (LocalAlignment ['A'] [] 1 (-1) 1 0 0).score = 0 ∧
      (GlobalAlignment ['A'] [] 1 (-1) 1 0 0).score = 1) ∧
    (['C', 'A', 'C'] <:+: ['A', 'C', 'C', 'A', 'C'] ∧
      ['C', 'A', 'A', 'A', 'C'] <:+: ['C', 'A', 'A', 'A', 'C'] ∧
      (LocalAlignment ['A', 'C', 'C', 'A', 'C'] ['C', 'A', 'A', 'A', 'C']
        6 (-3) (-3) (-3) (-2)).score = 12 ∧
      (GlobalAlignment ['C', 'A', 'C'] ['C', 'A', 'A', 'A', 'C']
        6 (-3) (-3) (-3) (-2)).score = 13) :=
  ⟨⟨List.infix_refl _, List.infix_refl _, by decide, by decide⟩,
   ⟨⟨['A', 'C'], [], rfl⟩, List.infix_refl _, by decide, by decide⟩⟩

/-- C7, amended. In linear-gap mode (`gap_open` and `gap_extend` not both non-zero) with
`gap ≤ 0`, for every query, every target, all `match` and `mismatch`, every contiguous substring
`q2` of the query and every contiguous substring `t2` of the target, the score `LocalAlignment`
returns on `(query, target)` is at least the score `GlobalAlignment` returns on `(q2, t2)` with
the same cost parameters. -/
theorem local_ge_global_on_substrings (query target q2 t2 : List Char)
    (match_ mismatch gap gap_open gap_extend : Int)
    (hlin : ¬(gap_open ≠ 0 ∧ gap_extend ≠ 0)) (hgap : gap ≤ 0)
    (hq : q2 <:+: query) (ht : t2 <:+: target) :
    (GlobalAlignment q2 t2 match_ mismatch gap gap_open gap_extend).score ≤
      (LocalAlignment query target match_ mismatch gap gap_open gap_extend).score := by
  obtain ⟨qpre, qpost, rfl⟩ := hq
  obtain ⟨tpre, tpost, rfl⟩ := ht
  have hG := globalFill_spec q2 t2 match_ mismatch gap gap_open gap_extend
  have hH := localFill_spec (qpre ++ q2 ++ qpost) (tpre ++ t2 ++ tpost) match_ mismatch gap
    gap_open gap_extend
  have h1 := global_le_local_grid qpre q2 qpost tpre t2 tpost match_ mismatch gap gap_open
    gap_extend _ _ hG hH hlin hgap q2.length t2.length (le_refl _) (le_refl _)
  have h2 := hH.matrix_le_score (qpre.length + q2.length) (tpre.length + t2.length)
    (by simp only [List.length_append]; omega) (by simp only [List.length_append]; omega)
  have h3 : (GlobalAlignment q2 t2 match_ mismatch gap gap_open gap_extend).score =
      (globalFill q2 t2 match_ mismatch gap gap_open gap_extend).matrix q2.length t2.length :=
    rfl
  rw [h3]
  exact le_trans h1 h2

/-- Witness for the amended C7: the substrings `AT` of `GATTACA` and `CAT` of `GCATGCU`, with
`match = 1`, `mismatch = -1`, `gap = -1`. -/
theorem local_ge_global_on_substrings_witness :
    (¬((0 : Int) ≠ 0 ∧ (0 : Int) ≠ 0) ∧ (-1 : Int) ≤ 0 ∧
      ['A', 'T'] <:+: ['G', 'A', 'T', 'T', 'A', 'C', 'A'] ∧
      ['C', 'A', 'T'] <:+: ['G', 'C', 'A', 'T', 'G', 'C', 'U']) ∧
    (GlobalAlignment ['A', 'T'] ['C', 'A', 'T'] 1 (-1) (-1) 0 0).score ≤
      (LocalAlignment ['G', 'A', 'T', 'T', 'A', 'C', 'A'] ['G', 'C', 'A', 'T', 'G', 'C', 'U']
        1 (-1) (-1) 0 0).score :=
  ⟨⟨by decide, by decide, ⟨['G'], ['T', 'A', 'C', 'A'], rfl⟩, ⟨['G'], ['G', 'C', 'U'], rfl⟩⟩,
   local_ge_global_on_substrings _ _ _ _ 1 (-1) (-1) 0 0 (by decide) (by decide)
     ⟨['G'], ['T', 'A', 'C', 'A'], rfl⟩ ⟨['G'], ['G', 'C', 'U'], rfl⟩⟩

/-! ## Single characters (C10) -/

/-- C10, the claim as stated fails: on the query `A` and the target `C` with `match = 1`,
`mismatch = -5`, `gap = -1` (linear), `GlobalAlignment` returns the score `-2` (two gaps), not
`mismatch = -5`, and the CIGAR `1D1I`, not `1M`. -/
theorem global_single_character_counterexample :
    (GlobalAlignment ['A'] ['C'] 1 (-5) (-1) 0 0).score = -2 ∧
    (GlobalAlignment ['A'] ['C'] 1 (-5) (-1) 0 0).cigar = .ok "1D1I" ∧
    ¬((GlobalAlignment ['A'] ['C'] 1 (-5) (-1) 0 0).score = (if 'A' = 'C' then 1 else -5) ∧
      (GlobalAlignment ['A'] ['C'] 1 (-5) (-1) 0 0).cigar = .ok "1M") := by
  decide

/-- C10, amended. For `query_len = target_len = 1` in Global mode, for every pair of characters
and all cost parameters such that the substitution score of the pair (`match` if the characters
are equal, `mismatch` otherwise) is at least the cost of the two gap steps around it (`2 * gap`
in linear mode, `gap + gap_open` in affine mode), the returned score is that substitution score
and the returned CIGAR is `1M`. -/
theorem global_single_character (a b : Char) (match_ mismatch gap gap_open gap_extend : Int)
    (h : gap + (if gap_open ≠ 0 ∧ gap_extend ≠ 0 then gap_open else gap) ≤
      (if a = b then match_ else mismatch)) :
    (GlobalAlignment [a] [b] match_ mismatch gap gap_open gap_extend).score =
      (if a = b then match_ else mismatch) ∧
    (GlobalAlignment [a] [b] match_ mismatch gap gap_open gap_extend).cigar = .ok "1M" := by
  have hs := globalFill_spec [a] [b] match_ mismatch gap gap_open gap_extend
  obtain ⟨hM00, hT00⟩ := hs.border.origin
  obtain ⟨hM01, hT01⟩ := hs.border.row 1 (le_refl _) (le_refl _)
  obtain ⟨hM10, hT10⟩ := hs.border.col 1 (le_refl _) (le_refl _)
  obtain ⟨hM11, hT11⟩ := hs.interior 1 1 (le_refl _) (le_refl _) (le_refl _) (le_refl _)
  have hstep : step3 [a] [b] match_ mismatch gap gap_open gap_extend
      (globalFill [a] [b] match_ mismatch gap gap_open gap_extend).matrix
      (globalFill [a] [b] match_ mismatch gap gap_open gap_extend).traceback 1 1 =
      ((if a = b then match_ else mismatch), diag) := by
    simp only [step3, subs, ins, del, Nat.sub_self, hM00, hM01, hM10, hT01, hT10,
      List.getElem?_cons_zero, Option.some.injEq, zero_add, max_element, List.foldl_cons,
      List.foldl_nil, pairLess]
    generalize (if a = b then match_ else mismatch) = sc at h ⊢
    by_cases haff : gap_open ≠ 0 ∧ gap_extend ≠ 0
    · rw [if_pos haff] at h
      simp only [if_pos haff]
      have h1 : ¬(sc < gap + gap_open) := by omega
      simp [h1, Direction.toNat]
    · rw [if_neg haff] at h
      simp only [if_neg haff]
      have h1 : ¬(sc < gap + gap) := by omega
      simp [h1, Direction.toNat]
  rw [hstep] at hM11 hT11
  have hscore : (GlobalAlignment [a] [b] match_ mismatch gap gap_open gap_extend).score =
    (globalFill [a] [b] match_ mismatch gap gap_open gap_extend).matrix 1 1 := rfl
  have hcigar : (GlobalAlignment [a] [b] match_ mismatch gap gap_open gap_extend).cigar =
    GetCigar (globalFill [a] [b] match_ mismatch gap gap_open gap_extend).traceback 1 1 := rfl
  refine ⟨by rw [hscore, hM11], ?_⟩
  have hw : tracebackWalk (globalFill [a] [b] match_ mismatch gap gap_open gap_extend).traceback
      (1 + 1 + 1) 1 1 = .ok (['M'], 0, 0) := by
    simp [tracebackWalk, hT11, hT00, Except.map]
  rw [hcigar]
  simp only [GetCigar, hw]
  rfl

/-- Witness for the amended C10: `A` against `C` with `match = 1`, `mismatch = -1`, `gap = -1`,
linear. -/
theorem global_single_character_witness :
    ((-1 : Int) + (if (0 : Int) ≠ 0 ∧ (0 : Int) ≠ 0 then 0 else -1) ≤
      (if 'A' = 'C' then 1 else -1)) ∧
    ((GlobalAlignment ['A'] ['C'] 1 (-1) (-1) 0 0).score = (if 'A' = 'C' then 1 else -1) ∧
      (GlobalAlignment ['A'] ['C'] 1 (-1) (-1) 0 0).cigar = .ok "1M") :=
  ⟨by decide, global_single_character 'A' 'C' 1 (-1) (-1) 0 0 (by decide)⟩

/-! ## Tie-breaking (C16, C17, C18) -/

theorem pairLess_of_toNat_le (x y : Int) (d1 d2 : Direction) (h : d2.toNat ≤ d1.toNat) :
    pairLess (x, d1) (y, d2) = decide (x < y) := by
  have h2 : ¬(d1.toNat < d2.toNat) := by omega
  simp [pairLess, h2]

theorem pairLess_of_toNat_lt (x y : Int) (d1 d2 : Direction) (h : d1.toNat < d2.toNat) :
    pairLess (x, d1) (y, d2) = decide (x ≤ y) := by
  simp only [pairLess, h, decide_True, Bool.and_true]
  by_cases h1 : x < y
  · have : x ≤ y := by omega
    simp [h1, this]
  · by_cases h2 : y < x
    · have : ¬ x ≤ y := by omega
      simp [h1, h2, this]
    · have : x ≤ y := by omega
      simp [h1, h2, this]

/-- The element selected among the three candidates of `GlobalAlignment` and
`SemiGlobalAlignment`. -/
theorem max_element_three (a b c : Int) :
    max_element [(a, diag), (b, left), (c, up)] =
      if b ≤ a ∧ c ≤ a then (a, diag) else if c ≤ b then (b, left) else (c, up) := by
  have e1 : pairLess (a, diag) (b, left) = decide (a < b) :=
    pairLess_of_toNat_le _ _ _ _ (by decide)
  have e2 : pairLess (b, left) (c, up) = decide (b < c) :=
    pairLess_of_toNat_le _ _ _ _ (by decide)
  have e3 : pairLess (a, diag) (c, up) = decide (a < c) :=
    pairLess_of_toNat_le _ _ _ _ (by decide)
  simp only [max_element, List.foldl_cons, List.foldl_nil, e1]
  by_cases h1 : a < b
  · simp only [h1, decide_True, if_true, e2]
    by_cases h3 : b < c
    · simp only [h3, decide_True, if_true]
      rw [if_neg (by omega), if_neg (by omega)]
    · simp only [h3, decide_False, Bool.false_eq_true, if_false]
      rw [if_neg (by omega), if_pos (by omega)]
  · simp only [h1, decide_False, Bool.false_eq_true, if_false, e3]
    by_cases h2 : a < c
    · simp only [h2, decide_True, if_true]
      rw [if_neg (by omega), if_neg (by omega)]
    · simp only [h2, decide_False, Bool.false_eq_true, if_false]
      rw [if_pos (by omega)]

/-- The element selected among the four candidates of `LocalAlignment`. -/
theorem max_element_four (a b c : Int) :
    max_element [(a, diag), (b, left), (c, up), (0, stop)] =
      if a ≤ 0 ∧ b ≤ 0 ∧ c ≤ 0 then (0, stop)
      else if b ≤ a ∧ c ≤ a then (a, diag) else if c ≤ b then (b, left) else (c, up) := by
  have h3 := max_element_three a b c
  have e : max_element [(a, diag), (b, left), (c, up), (0, stop)] =
      if pairLess (max_element [(a, diag), (b, left), (c, up)]) (0, stop) then (0, stop)
      else max_element [(a, diag), (b, left), (c, up)] := by
    simp only [max_element, List.foldl_cons, List.foldl_nil]
  rw [e, h3]
  by_cases c1 : b ≤ a ∧ c ≤ a
  · rw [if_pos c1, pairLess_of_toNat_lt _ _ _ _ (by decide)]
    by_cases c0 : a ≤ 0
    · rw [if_pos (by simpa using c0), if_pos (by omega)]
    · rw [if_neg (by simpa using c0), if_neg (by omega)]
  · rw [if_neg c1]
    by_cases c2 : c ≤ b
    · rw [if_pos c2, pairLess_of_toNat_lt _ _ _ _ (by decide)]
      by_cases c0 : b ≤ 0
      · rw [if_pos (by simpa using c0), if_pos (by omega)]
      · rw [if_neg (by simpa using c0), if_neg (by omega)]
    · rw [if_neg c2, pairLess_of_toNat_lt _ _ _ _ (by decide)]
      by_cases c0 : c ≤ 0
      · rw [if_pos (by simpa using c0), if_pos (by omega)]
      · rw [if_neg (by simpa using c0), if_neg (by omega)]

/-- C16. In Global mode, for every interior cell `(i, j)` with candidates `subs` (diagonal),
`ins` (left) and `del` (up), ties are broken diag over left over up: the traceback tag is `diag`
when `subs ≥ ins` and `subs ≥ del`, otherwise `left` when `ins ≥ del`, otherwise `up` (with the
tags numbered `up = 0`, `left = 1`, `diag = 2`, `stop = 3`); the score-grid value is the
candidate of the tag. -/
theorem global_tie_break (query target : List Char)
    (match_ mismatch gap gap_open gap_extend : Int) (i j : Nat)
    (hi1 : 1 ≤ i) (hi : i ≤ query.length) (hj1 : 1 ≤ j) (hj : j ≤ target.length)
    (sb is dl : Int)
    (hsb : sb = subs query target match_ mismatch
      (globalFill query target match_ mismatch gap gap_open gap_extend).matrix i j)
    (his : is = ins gap gap_open gap_extend
      (globalFill query target match_ mismatch gap gap_open gap_extend).matrix
      (globalFill query target match_ mismatch gap gap_open gap_extend).traceback i j)
    (hdl : dl = del gap gap_open gap_extend
      (globalFill query target match_ mismatch gap gap_open gap_extend).matrix
      (globalFill query target match_ mismatch gap gap_open gap_extend).traceback i j) :
    (globalFill query target match_ mismatch gap gap_open gap_extend).traceback i j =
      (if is ≤ sb ∧ dl ≤ sb then diag else if dl ≤ is then left else up) ∧
    (globalFill query target match_ mismatch gap gap_open gap_extend).matrix i j =
      (if is ≤ sb ∧ dl ≤ sb then sb else if dl ≤ is then is else dl) := by
  obtain ⟨hM, hT⟩ := (globalFill_spec query target match_ mismatch gap gap_open gap_extend).interior
    i j hi1 hi hj1 hj
  rw [hM, hT, step3, ← hsb, ← his, ← hdl, max_element_three]
  by_cases c1 : is ≤ sb ∧ dl ≤ sb
  · simp only [if_pos c1, and_self]
  · by_cases c2 : dl ≤ is
    · simp only [if_neg c1, if_pos c2, and_self]
    · simp only [if_neg c1, if_neg c2, and_self]

/-- Witness for C16: `A` against `A` with `match = 1`, `mismatch = -1`, `gap = -1`, at cell
`(1, 1)`, whose candidates are `1`, `-2` and `-2`. -/
theorem global_tie_break_witness :
    (1 ≤ 1 ∧ 1 ≤ ['A'].length ∧ 1 ≤ 1 ∧ 1 ≤ ['A'].length ∧
      (1 : Int) = subs ['A'] ['A'] 1 (-1) (globalFill ['A'] ['A'] 1 (-1) (-1) 0 0).matrix 1 1 ∧
      (-2 : Int) = ins (-1) 0 0 (globalFill ['A'] ['A'] 1 (-1) (-1) 0 0).matrix
        (globalFill ['A'] ['A'] 1 (-1) (-1) 0 0).traceback 1 1 ∧
      (-2 : Int) = del (-1) 0 0 (globalFill ['A'] ['A'] 1 (-1) (-1) 0 0).matrix
        (globalFill ['A'] ['A'] 1 (-1) (-1) 0 0).traceback 1 1) ∧
    ((globalFill ['A'] ['A'] 1 (-1) (-1) 0 0).traceback 1 1 =
      (if (-2 : Int) ≤ 1 ∧ (-2 : Int) ≤ 1 then diag
        else if (-2 : Int) ≤ -2 then left else up) ∧
    (globalFill ['A'] ['A'] 1 (-1) (-1) 0 0).matrix 1 1 =
      (if (-2 : Int) ≤ 1 ∧ (-2 : Int) ≤ 1 then 1 else if (-2 : Int) ≤ -2 then -2 else -2)) :=
  ⟨by decide, global_tie_break ['A'] ['A'] 1 (-1) (-1) 0 0 1 1 (by decide) (by decide)
    (by decide) (by decide) 1 (-2) (-2) (by decide) (by decide) (by decide)⟩

/-- C17, the claim as stated fails: in `LocalAlignment` on `A` against `C` with `match = 1`,
`mismatch = 0`, `gap = -1` (linear), the candidates of cell `(1, 1)` are `subs = 0`, `ins = -1`,
`del = -1`; the zero floor is not strictly greater than `subs`, the diag candidate is maximal
and equal to `0`, and the cell is tagged `stop`, not `diag`. -/
theorem local_tie_break_counterexample :
    subs ['A'] ['C'] 1 0 (localFill ['A'] ['C'] 1 0 (-1) 0 0).matrix 1 1 = 0 ∧
    ins (-1) 0 0 (localFill ['A'] ['C'] 1 0 (-1) 0 0).matrix
      (localFill ['A'] ['C'] 1 0 (-1) 0 0).traceback 1 1 = -1 ∧
    del (-1) 0 0 (localFill ['A'] ['C'] 1 0 (-1) 0 0).matrix
      (localFill ['A'] ['C'] 1 0 (-1) 0 0).traceback 1 1 = -1 ∧
    (localFill ['A'] ['C'] 1 0 (-1) 0 0).traceback 1 1 = stop ∧
    (localFill ['A'] ['C'] 1 0 (-1) 0 0).traceback 1 1 ≠ diag := by
  decide

/-- C17, amended. In Local mode, for every interior cell, ties among the four candidates are
broken stop over diag over left over up: the cell is tagged `stop` exactly when the zero floor
is greater than or equal to all of the diag, left and up candidates (so a diag candidate equal
to `0` that is maximal is tagged `stop`), and otherwise `diag` when `subs ≥ ins` and
`subs ≥ del`, otherwise `left` when `ins ≥ del`, otherwise `up`; the score-grid value is the
candidate of the tag. -/
theorem local_tie_break (query target : List Char)
    (match_ mismatch gap gap_open gap_extend : Int) (i j : Nat)
    (hi1 : 1 ≤ i) (hi : i ≤ query.length) (hj1 : 1 ≤ j) (hj : j ≤ target.length)
    (sb is dl : Int)
    (hsb : sb = subs query target match_ mismatch
      (localFill query target match_ mismatch gap gap_open gap_extend).matrix i j)
    (his : is = ins gap gap_open gap_extend
      (localFill query target match_ mismatch gap gap_open gap_extend).matrix
      (localFill query target match_ mismatch gap gap_open gap_extend).traceback i j)
    (hdl : dl = del gap gap_open gap_extend
      (localFill query target match_ mismatch gap gap_open gap_extend).matrix
      (localFill query target match_ mismatch gap gap_open gap_extend).traceback i j) :
    (localFill query target match_ mismatch gap gap_open gap_extend).traceback i j =
      (if sb ≤ 0 ∧ is ≤ 0 ∧ dl ≤ 0 then stop
        else if is ≤ sb ∧ dl ≤ sb then diag else if dl ≤ is then left else up) ∧
    (localFill query target match_ mismatch gap gap_open gap_extend).matrix i j =
      (if sb ≤ 0 ∧ is ≤ 0 ∧ dl ≤ 0 then 0
        else if is ≤ sb ∧ dl ≤ sb then sb else if dl ≤ is then is else dl) := by
  obtain ⟨hM, hT⟩ := (localFill_spec query target match_ mismatch gap gap_open gap_extend).interior
    i j hi1 hi hj1 hj
  rw [hM, hT, step4, ← hsb, ← his, ← hdl, max_element_four]
  by_cases c0 : sb ≤ 0 ∧ is ≤ 0 ∧ dl ≤ 0
  · simp only [if_pos c0, and_self]
  · by_cases c1 : is ≤ sb ∧ dl ≤ sb
    · simp only [if_neg c0, if_pos c1, and_self]
    · by_cases c2 : dl ≤ is
      · simp only [if_neg c0, if_neg c1, if_pos c2, and_self]
      · simp only [if_neg c0, if_neg c1, if_neg c2, and_self]

/-- Witness for the amended C17: `A` against `C` with `match = 1`, `mismatch = 0`, `gap = -1`,
at cell `(1, 1)`, whose candidates are `0`, `-1` and `-1`. -/
theorem local_tie_break_witness :
    (1 ≤ 1 ∧ 1 ≤ ['A'].length ∧ 1 ≤ 1 ∧ 1 ≤ ['C'].length ∧
      (0 : Int) = subs ['A'] ['C'] 1 0 (localFill ['A'] ['C'] 1 0 (-1) 0 0).matrix 1 1 ∧
      (-1 : Int) = ins (-1) 0 0 (localFill ['A'] ['C'] 1 0 (-1) 0 0).matrix
        (localFill ['A'] ['C'] 1 0 (-1) 0 0).traceback 1 1 ∧
      (-1 : Int) = del (-1) 0 0 (localFill ['A'] ['C'] 1 0 (-1) 0 0).matrix
        (localFill ['A'] ['C'] 1 0 (-1) 0 0).traceback 1 1) ∧
    ((localFill ['A'] ['C'] 1 0 (-1) 0 0).traceback 1 1 =
      (if (0 : Int) ≤ 0 ∧ (-1 : Int) ≤ 0 ∧ (-1 : Int) ≤ 0 then stop
        else if (-1 : Int) ≤ 0 ∧ (-1 : Int) ≤ 0 then diag
        else if (-1 : Int) ≤ -1 then left else up) ∧
    (localFill ['A'] ['C'] 1 0 (-1) 0 0).matrix 1 1 =
      (if (0 : Int) ≤ 0 ∧ (-1 : Int) ≤ 0 ∧ (-1 : Int) ≤ 0 then 0
        else if (-1 : Int) ≤ 0 ∧ (-1 : Int) ≤ 0 then 0
        else if (-1 : Int) ≤ -1 then -1 else -1)) :=
  ⟨by decide, local_tie_break ['A'] ['C'] 1 0 (-1) 0 0 1 1 (by decide) (by decide)
    (by decide) (by decide) 0 (-1) (-1) (by decide) (by decide) (by decide)⟩

/-- The cells read by a walk that returns: the cells it moved through, none of them tagged
`stop`, followed by the cell at which it breaks; one operator per move; every move decreases
`i + j`. -/
theorem walkCells_spec (T : Grid Direction) (fuel i j : Nat) (raw : List Char) (i0 j0 : Nat)
    (h : tracebackWalk T fuel i j = .ok (raw, i0, j0)) :
    ∃ init, walkCells T fuel i j = init ++ [(i0, j0)] ∧ init.length = raw.length ∧
      (∀ c ∈ init, T c.1 c.2 ≠ stop ∧ c.1 ≤ i ∧ c.2 ≤ j) ∧ i0 ≤ i ∧ j0 ≤ j ∧
      raw.length + i0 + j0 ≤ i + j := by
  induction fuel generalizing i j raw with
  | zero => simp [tracebackWalk] at h
  | succ fuel ih =>
    unfold tracebackWalk at h
    unfold walkCells
    cases hT : T i j with
    | stop =>
      simp only [hT, Except.ok.injEq, Prod.mk.injEq] at h
      obtain ⟨rfl, rfl, rfl⟩ := h
      exact ⟨[], by simp, rfl, by simp, le_refl _, le_refl _, by simp⟩
    | diag =>
      simp only [hT] at h
      by_cases h0 : i = 0 ∨ j = 0
      · simp [h0] at h
      · simp only [h0, if_false] at h ⊢
        cases hw : tracebackWalk T fuel (i - 1) (j - 1) with
        | error e => simp [hw, Except.map] at h
        | ok r =>
          obtain ⟨raw2, i2, j2⟩ := r
          simp only [hw, Except.map, Except.ok.injEq, Prod.mk.injEq] at h
          obtain ⟨rfl, rfl, rfl⟩ := h
          obtain ⟨init, h1, h2, h3, h4, h5, h6⟩ := ih _ _ _ hw
          refine ⟨(i, j) :: init, by simp [h1], by simp [h2], ?_, by omega, by omega,
            by simp only [List.length_cons]; omega⟩
          intro c hc
          rcases List.mem_cons.1 hc with rfl | hc
          · simp [hT]
          · obtain ⟨g1, g2, g3⟩ := h3 c hc
            exact ⟨g1, by omega, by omega⟩
    | left =>
      simp only [hT] at h
      by_cases h0 : j = 0
      · simp [h0] at h
      · simp only [h0, if_false] at h ⊢
        cases hw : tracebackWalk T fuel i (j - 1) with
        | error e => simp [hw, Except.map] at h
        | ok r =>
          obtain ⟨raw2, i2, j2⟩ := r
          simp only [hw, Except.map, Except.ok.injEq, Prod.mk.injEq] at h
          obtain ⟨rfl, rfl, rfl⟩ := h
          obtain ⟨init, h1, h2, h3, h4, h5, h6⟩ := ih _ _ _ hw
          refine ⟨(i, j) :: init, by simp [h1], by simp [h2], ?_, by omega, by omega,
            by simp only [List.length_cons]; omega⟩
          intro c hc
          rcases List.mem_cons.1 hc with rfl | hc
          · simp [hT]
          · obtain ⟨g1, g2, g3⟩ := h3 c hc
            exact ⟨g1, by omega, by omega⟩
    | up =>
      simp only [hT] at h
      by_cases h0 : i = 0
      · simp [h0] at h
      · simp only [h0, if_false] at h ⊢
        cases hw : tracebackWalk T fuel (i - 1) j with
        | error e => simp [hw, Except.map] at h
        | ok r =>
          obtain ⟨raw2, i2, j2⟩ := r
          simp only [hw, Except.map, Except.ok.injEq, Prod.mk.injEq] at h
          obtain ⟨rfl, rfl, rfl⟩ := h
          obtain ⟨init, h1, h2, h3, h4, h5, h6⟩ := ih _ _ _ hw
          refine ⟨(i, j) :: init, by simp [h1], by simp [h2], ?_, by omega, by omega,
            by simp only [List.length_cons]; omega⟩
          intro c hc
          rcases List.mem_cons.1 hc with rfl | hc
          · simp [hT]
          · obtain ⟨g1, g2, g3⟩ := h3 c hc
            exact ⟨g1, by omega, by omega⟩

/-- In the grids of `LocalAlignment` a cell that holds `0` is tagged `stop`. -/
theorem LocalSpec.zero_stop {query target : List Char}
    {match_ mismatch gap gap_open gap_extend : Int} {s : AlignState}
    (h : LocalSpec query target match_ mismatch gap gap_open gap_extend s) (a b : Nat)
    (ha : a ≤ query.length) (hb : b ≤ target.length) (hM : s.matrix a b = 0) :
    s.traceback a b = stop := by
  by_cases h0 : a = 0 ∨ b = 0
  · exact (h.border.at_border a b ha hb h0).2
  · obtain ⟨hM2, hT2⟩ := h.interior a b (by omega) ha (by omega) hb
    rw [hM2] at hM
    rw [hT2]
    rw [step4, max_element_four] at hM ⊢
    by_cases c0 : subs query target match_ mismatch s.matrix a b ≤ 0 ∧
        ins gap gap_open gap_extend s.matrix s.traceback a b ≤ 0 ∧
        del gap gap_open gap_extend s.matrix s.traceback a b ≤ 0
    · rw [if_pos c0]
    · rw [if_neg c0] at hM
      exfalso
      by_cases c1 : ins gap gap_open gap_extend s.matrix s.traceback a b ≤
          subs query target match_ mismatch s.matrix a b ∧
          del gap gap_open gap_extend s.matrix s.traceback a b ≤
          subs query target match_ mismatch s.matrix a b
      · rw [if_pos c1] at hM
        simp only at hM
        omega
      · rw [if_neg c1] at hM
        by_cases c2 : del gap gap_open gap_extend s.matrix s.traceback a b ≤
            ins gap gap_open gap_extend s.matrix s.traceback a b
        · rw [if_pos c2] at hM
          simp only at hM
          omega
        · rw [if_neg c2] at hM
          simp only at hM
          omega

/-- C18. In Local mode, for every input and every cell `(i, j)` of the filled grids (border and
interior, linear or affine), the traceback tag is `stop` if and only if the score-grid value is
`0`; hence the traceback walk from the end cell ends at the first zero-valued cell it reaches:
the cell where it breaks holds `0` and every cell it read before holds a non-zero value. -/
theorem local_stop_iff_zero (query target : List Char)
    (match_ mismatch gap gap_open gap_extend : Int) :
    (∀ i j, i ≤ query.length → j ≤ target.length →
      ((localFill query target match_ mismatch gap gap_open gap_extend).traceback i j = stop ↔
        (localFill query target match_ mismatch gap gap_open gap_extend).matrix i j = 0)) ∧
    ∃ raw i0 j0 init,
      tracebackWalk (localFill query target match_ mismatch gap gap_open gap_extend).traceback
        ((localFill query target match_ mismatch gap gap_open gap_extend).end_query +
          (localFill query target match_ mismatch gap gap_open gap_extend).end_target + 1)
        (localFill query target match_ mismatch gap gap_open gap_extend).end_query
        (localFill query target match_ mismatch gap gap_open gap_extend).end_target =
        .ok (raw, i0, j0) ∧
      walkCells (localFill query target match_ mismatch gap gap_open gap_extend).traceback
        ((localFill query target match_ mismatch gap gap_open gap_extend).end_query +
          (localFill query target match_ mismatch gap gap_open gap_extend).end_target + 1)
        (localFill query target match_ mismatch gap gap_open gap_extend).end_query
        (localFill query target match_ mismatch gap gap_open gap_extend).end_target =
        init ++ [(i0, j0)] ∧
      (localFill query target match_ mismatch gap gap_open gap_extend).matrix i0 j0 = 0 ∧
      ∀ c ∈ init,
        (localFill query target match_ mismatch gap gap_open gap_extend).matrix c.1 c.2 ≠ 0 := by
  have hs := localFill_spec query target match_ mismatch gap gap_open gap_extend
  refine ⟨fun i j hi hj => ⟨hs.stop_zero_local i j hi hj, hs.zero_stop i j hi hj⟩, ?_⟩
  obtain ⟨raw, i0, j0, hw, hstop, hi0, hj0, _⟩ :=
    alignFill_walk .local_ query target match_ mismatch gap gap_open gap_extend
  simp only [alignFill] at hw hstop
  obtain ⟨init, h1, _, h3, _, _, _⟩ := walkCells_spec _ _ _ _ _ _ _ hw
  refine ⟨raw, i0, j0, init, hw, h1, hs.stop_zero_local i0 j0 hi0 hj0 hstop, ?_⟩
  intro c hc hM
  obtain ⟨g1, g2, g3⟩ := h3 c hc
  exact g1 (hs.zero_stop c.1 c.2 (le_trans g2 hs.end_le_local.1) (le_trans g3 hs.end_le_local.2)
    hM)

/-! ## The walk stays in the grid and ends (C14, C19) -/

/-- For each alignment type, a cell of row `0` is tagged `left` or `stop` and a cell of column
`0` is tagged `up` or `stop`. -/
theorem alignFill_border_tags (type : AlignmentType) (query target : List Char)
    (match_ mismatch gap gap_open gap_extend : Int) :
    (∀ j, j ≤ target.length →
      (alignFill type query target match_ mismatch gap gap_open gap_extend).traceback 0 j
        = left ∨
      (alignFill type query target match_ mismatch gap gap_open gap_extend).traceback 0 j
        = stop) ∧
    (∀ i, i ≤ query.length →
      (alignFill type query target match_ mismatch gap gap_open gap_extend).traceback i 0
        = up ∨
      (alignFill type query target match_ mismatch gap gap_open gap_extend).traceback i 0
        = stop) := by
  cases type with
  | global =>
    have hs := globalFill_spec query target match_ mismatch gap gap_open gap_extend
    simp only [alignFill]
    constructor
    · intro j hj
      rcases Nat.eq_zero_or_pos j with rfl | hj0
      · exact Or.inr hs.border.origin.2
      · exact Or.inl (hs.border.row j hj0 hj).2
    · intro i hi
      rcases Nat.eq_zero_or_pos i with rfl | hi0
      · exact Or.inr hs.border.origin.2
      · exact Or.inl (hs.border.col i hi0 hi).2
  | local_ =>
    have hs := localFill_spec query target match_ mismatch gap gap_open gap_extend
    simp only [alignFill]
    exact ⟨fun j hj => Or.inr (hs.border.at_border 0 j (Nat.zero_le _) hj (Or.inl rfl)).2,
      fun i hi => Or.inr (hs.border.at_border i 0 hi (Nat.zero_le _) (Or.inr rfl)).2⟩
  | semiglobal =>
    have hs := semiGlobalFill_spec query target match_ mismatch gap gap_open gap_extend
    simp only [alignFill]
    exact ⟨fun j hj => Or.inr (hs.border.at_border 0 j (Nat.zero_le _) hj (Or.inl rfl)).2,
      fun i hi => Or.inr (hs.border.at_border i 0 hi (Nat.zero_le _) (Or.inr rfl)).2⟩

/-- The end cell of each alignment type lies in the grid. -/
theorem alignFill_end_le (type : AlignmentType) (query target : List Char)
    (match_ mismatch gap gap_open gap_extend : Int) :
    (alignFill type query target match_ mismatch gap gap_open gap_extend).end_query
      ≤ query.length ∧
    (alignFill type query target match_ mismatch gap gap_open gap_extend).end_target
      ≤ target.length := by
  cases type with
  | global => exact ⟨le_refl _, le_refl _⟩
  | local_ => exact (localFill_spec query target match_ mismatch gap gap_open gap_extend).end_le_local
  | semiglobal =>
    exact (semiGlobalFill_spec query target match_ mismatch gap gap_open gap_extend).end_le_semi

/-- C14. For every Global-mode input (linear or affine), the traceback walk from the
bottom-right cell `(query_len, target_len)` returns and breaks at cell `(0, 0)`, the `stop` cell
of the grid, so the `target_begin` returned by `GlobalAlignment` is `0`. -/
theorem global_target_begin_zero (query target : List Char)
    (match_ mismatch gap gap_open gap_extend : Int) :
    (∃ raw,
      tracebackWalk (globalFill query target match_ mismatch gap gap_open gap_extend).traceback
        (query.length + target.length + 1) query.length target.length = .ok (raw, 0, 0)) ∧
    (globalFill query target match_ mismatch gap gap_open gap_extend).traceback 0 0 = stop ∧
    (GlobalAlignment query target match_ mismatch gap gap_open gap_extend).target_begin
      = .ok 0 := by
  obtain ⟨raw, hw, _⟩ := global_walk query target match_ mismatch gap gap_open gap_extend
  refine ⟨⟨raw, hw⟩,
    (globalFill_spec query target match_ mismatch gap gap_open gap_extend).border.origin.2, ?_⟩
  show GetTargetBegin
    (globalFill query target match_ mismatch gap gap_open gap_extend).traceback
    query.length target.length = .ok 0
  simp only [GetTargetBegin, hw]

/-- C19. For every input and each of the three alignment types: a cell in row `0` is never
tagged `up` or `diag` and a cell in column `0` never `left` or `diag`; the traceback walk that
`GetCigar` and `GetTargetBegin` perform from the end cell returns without leaving the grid, every
cell `(i, j)` it reads has `i ≤ query_len` and `j ≤ target_len`, it breaks at a `stop` cell, and
it makes at most `end_query + end_target` steps. -/
theorem walk_stays_in_grid (type : AlignmentType) (query target : List Char)
    (match_ mismatch gap gap_open gap_extend : Int) :
    (∀ j, j ≤ target.length →
      (alignFill type query target match_ mismatch gap gap_open gap_extend).traceback 0 j
        ≠ up ∧
      (alignFill type query target match_ mismatch gap gap_open gap_extend).traceback 0 j
        ≠ diag) ∧
    (∀ i, i ≤ query.length →
      (alignFill type query target match_ mismatch gap gap_open gap_extend).traceback i 0
        ≠ left ∧
      (alignFill type query target match_ mismatch gap gap_open gap_extend).traceback i 0
        ≠ diag) ∧
    ∃ raw i0 j0,
      tracebackWalk (alignFill type query target match_ mismatch gap gap_open gap_extend).traceback
        ((alignFill type query target match_ mismatch gap gap_open gap_extend).end_query +
          (alignFill type query target match_ mismatch gap gap_open gap_extend).end_target + 1)
        (alignFill type query target match_ mismatch gap gap_open gap_extend).end_query
        (alignFill type query target match_ mismatch gap gap_open gap_extend).end_target =
        .ok (raw, i0, j0) ∧
      (alignFill type query target match_ mismatch gap gap_open gap_extend).traceback i0 j0
        = stop ∧
      raw.length ≤
        (alignFill type query target match_ mismatch gap gap_open gap_extend).end_query +
        (alignFill type query target match_ mismatch gap gap_open gap_extend).end_target ∧
      (∀ c ∈ walkCells
          (alignFill type query target match_ mismatch gap gap_open gap_extend).traceback
          ((alignFill type query target match_ mismatch gap gap_open gap_extend).end_query +
            (alignFill type query target match_ mismatch gap gap_open gap_extend).end_target + 1)
          (alignFill type query target match_ mismatch gap gap_open gap_extend).end_query
          (alignFill type query target match_ mismatch gap gap_open gap_extend).end_target,
        c.1 ≤ query.length ∧ c.2 ≤ target.length) ∧
      GetTargetBegin
        (alignFill type query target match_ mismatch gap gap_open gap_extend).traceback
        (alignFill type query target match_ mismatch gap gap_open gap_extend).end_query
        (alignFill type query target match_ mismatch gap gap_open gap_extend).end_target
        = .ok j0 := by
  obtain ⟨hrow, hcol⟩ :=
    alignFill_border_tags type query target match_ mismatch gap gap_open gap_extend
  obtain ⟨hq, ht⟩ := alignFill_end_le type query target match_ mismatch gap gap_open gap_extend
  refine ⟨?_, ?_, ?_⟩
  · intro j hj
    rcases hrow j hj with e | e <;> rw [e] <;> exact ⟨by decide, by decide⟩
  · intro i hi
    rcases hcol i hi with e | e <;> rw [e] <;> exact ⟨by decide, by decide⟩
  · obtain ⟨raw, i0, j0, hw, hstop, _, _, _⟩ :=
      alignFill_walk type query target match_ mismatch gap gap_open gap_extend
    obtain ⟨init, h1, h2, h3, h4, h5, h6⟩ := walkCells_spec _ _ _ _ _ _ _ hw
    refine ⟨raw, i0, j0, hw, hstop, by omega, ?_, by simp only [GetTargetBegin, hw]⟩
    intro c hc
    rw [h1] at hc
    rcases List.mem_append.1 hc with hc | hc
    · obtain ⟨_, g2, g3⟩ := h3 c hc
      exact ⟨le_trans g2 hq, le_trans g3 ht⟩
    · simp only [List.mem_singleton] at hc
      subst hc
      exact ⟨le_trans h4 hq, le_trans h5 ht⟩

/-! ## Zero-length sequences (C11, C12) -/

/-- With a zero-length query or target the end cell of `LocalAlignment` is `(0, 0)` and the
score is `0`. -/
theorem LocalSpec.degenerate {query target : List Char}
    {match_ mismatch gap gap_open gap_extend : Int} {s : AlignState}
    (h : LocalSpec query target match_ mismatch gap gap_open gap_extend s)
    (h0 : query = [] ∨ target = []) : s.end_query = 0 ∧ s.end_target = 0 ∧ s.score = 0 := by
  have hlen : query.length = 0 ∨ target.length = 0 := by
    rcases h0 with rfl | rfl
    · exact Or.inl rfl
    · exact Or.inr rfl
  rcases h.end_cases with ⟨h1, h2⟩ | ⟨h1, h2, h3, h4⟩
  · exact ⟨h1, h2, by rw [h.score_eq, h1, h2, h.border.origin.1]⟩
  · omega

/-- With a zero-length query or target the end cell of `SemiGlobalAlignment` is `(0, 0)` and
the score is `0`. -/
theorem SemiGlobalSpec.degenerate_semi {query target : List Char}
    {match_ mismatch gap gap_open gap_extend : Int} {s : AlignState}
    (h : SemiGlobalSpec query target match_ mismatch gap gap_open gap_extend s)
    (h0 : query = [] ∨ target = []) : s.end_query = 0 ∧ s.end_target = 0 ∧ s.score = 0 := by
  have hlen : query.length = 0 ∨ target.length = 0 := by
    rcases h0 with rfl | rfl
    · exact Or.inl rfl
    · exact Or.inr rfl
  rcases h.end_cases with ⟨h1, h2⟩ | ⟨h1, h2, h3, h4, _⟩
  · exact ⟨h1, h2, by rw [h.score_eq, h1, h2, h.border.origin.1]⟩
  · omega

/-- C11, the claim as stated fails: on an empty query and the target `A` with `gap = -1`,
`LocalAlignment` and `SemiGlobalAlignment` return the score `0`, not `gap * 1 = -1`. -/
theorem empty_query_score_counterexample :
    (Align [] ['A'] .local_ 1 (-1) (-1) 0 0).score = 0 ∧
    (Align [] ['A'] .semiglobal 1 (-1) (-1) 0 0).score = 0 ∧
    ¬((Align [] ['A'] .local_ 1 (-1) (-1) 0 0).score = (-1) * (['A'].length : Int)) ∧
    ¬((Align [] ['A'] .semiglobal 1 (-1) (-1) 0 0).score = (-1) * (['A'].length : Int)) := by
  decide

/-- C11, amended. For a zero-length query and/or target, in Global mode the returned score is
the sum of the gap costs for the non-empty sequence (`gap` times its length, `0` when both
sequences are empty); in Local and SemiGlobal mode the returned score is `0`. -/
theorem empty_sequence_scores (query target : List Char)
    (match_ mismatch gap gap_open gap_extend : Int) (h : query = [] ∨ target = []) :
    (query = [] →
      (Align query target .global match_ mismatch gap gap_open gap_extend).score
        = gap * target.length) ∧
    (target = [] →
      (Align query target .global match_ mismatch gap gap_open gap_extend).score
        = gap * query.length) ∧
    (Align query target .local_ match_ mismatch gap gap_open gap_extend).score = 0 ∧
    (Align query target .semiglobal match_ mismatch gap gap_open gap_extend).score = 0 := by
  have hg := globalFill_spec query target match_ mismatch gap gap_open gap_extend
  have hl := localFill_spec query target match_ mismatch gap gap_open gap_extend
  have hsg := semiGlobalFill_spec query target match_ mismatch gap gap_open gap_extend
  have hscore : (Align query target .global match_ mismatch gap gap_open gap_extend).score =
      (globalFill query target match_ mismatch gap gap_open gap_extend).matrix
        query.length target.length := rfl
  refine ⟨?_, ?_, (hl.degenerate h).2.2, (hsg.degenerate_semi h).2.2⟩
  · intro hq
    rw [hscore]
    have := hg.row_zero target.length (le_refl _)
    rw [hq] at this ⊢
    exact this
  · intro ht
    rw [hscore]
    have := hg.col_zero query.length (le_refl _)
    rw [ht] at this ⊢
    exact this

/-- Witness for the amended C11: the empty query against the target `AC`. -/
theorem empty_sequence_scores_witness :
    (([] : List Char) = [] ∨ ['A', 'C'] = []) ∧
    ((([] : List Char) = [] →
      (Align [] ['A', 'C'] .global 1 (-1) (-1) 0 0).score = (-1) * (['A', 'C'].length : Int)) ∧
    (['A', 'C'] = [] →
      (Align [] ['A', 'C'] .global 1 (-1) (-1) 0 0).score
        = (-1) * (([] : List Char).length : Int)) ∧
    (Align [] ['A', 'C'] .local_ 1 (-1) (-1) 0 0).score = 0 ∧
    (Align [] ['A', 'C'] .semiglobal 1 (-1) (-1) 0 0).score = 0) :=
  ⟨Or.inl rfl, empty_sequence_scores [] ['A', 'C'] 1 (-1) (-1) 0 0 (Or.inl rfl)⟩

/-- With a zero-length query or target, `LocalAlignment` and `SemiGlobalAlignment` start the
walk at the `stop` cell `(0, 0)`, the walk appends nothing, and `GetCigar` reads
`cigar[cigar.size()-1]` outside the empty string. -/
theorem zero_length_cigar_fault (query target : List Char)
    (match_ mismatch gap gap_open gap_extend : Int) (h : query = [] ∨ target = []) :
    (Align query target .local_ match_ mismatch gap gap_open gap_extend).cigar
      = .error .outOfBounds ∧
    (Align query target .semiglobal match_ mismatch gap gap_open gap_extend).cigar
      = .error .outOfBounds := by
  have hl := localFill_spec query target match_ mismatch gap gap_open gap_extend
  have hsg := semiGlobalFill_spec query target match_ mismatch gap gap_open gap_extend
  obtain ⟨l1, l2, _⟩ := hl.degenerate h
  obtain ⟨s1, s2, _⟩ := hsg.degenerate_semi h
  constructor
  · show GetCigar (localFill query target match_ mismatch gap gap_open gap_extend).traceback
      (localFill query target match_ mismatch gap gap_open gap_extend).end_query
      (localFill query target match_ mismatch gap gap_open gap_extend).end_target = _
    rw [l1, l2]
    apply (GetCigar_spec _ 0 0 [] 0 0 _).1 rfl
    simp [tracebackWalk, hl.border.origin.2]
  · show GetCigar (semiGlobalFill query target match_ mismatch gap gap_open gap_extend).traceback
      (semiGlobalFill query target match_ mismatch gap gap_open gap_extend).end_query
      (semiGlobalFill query target match_ mismatch gap gap_open gap_extend).end_target = _
    rw [s1, s2]
    apply (GetCigar_spec _ 0 0 [] 0 0 _).1 rfl
    simp [tracebackWalk, hsg.border.origin.2]

/-- C12, the code at the failing inputs: with the CIGAR requested, `Align` in Local or
SemiGlobal mode on an empty query and the target `A`, and in Global mode on two empty
sequences, starts the walk at the `stop` cell `(0, 0)`; the walk appends no operator and the
final read `cigar[cigar.size()-1]` of `GetCigar` is outside the (empty) operator string. -/
theorem empty_walk_final_read_fault :
    tracebackWalk (alignFill .local_ [] ['A'] 2 (-1) (-2) 0 0).traceback
      ((alignFill .local_ [] ['A'] 2 (-1) (-2) 0 0).end_query +
        (alignFill .local_ [] ['A'] 2 (-1) (-2) 0 0).end_target + 1)
      (alignFill .local_ [] ['A'] 2 (-1) (-2) 0 0).end_query
      (alignFill .local_ [] ['A'] 2 (-1) (-2) 0 0).end_target = .ok ([], 0, 0) ∧
    (Align [] ['A'] .local_ 2 (-1) (-2) 0 0).cigar = .error .outOfBounds ∧
    (Align [] ['A'] .semiglobal 2 (-1) (-2) 0 0).cigar = .error .outOfBounds ∧
    (Align [] [] .global 2 (-1) (-2) 0 0).cigar = .error .outOfBounds := by
  decide

/-! ## Mixed gap parameters (C15) -/

theorem ins_mixed (gap gap_open gap_extend : Int) (h : ¬(gap_open ≠ 0 ∧ gap_extend ≠ 0)) :
    ins gap gap_open gap_extend = ins gap 0 0 := by
  funext M T i j
  rw [ins_linear _ _ _ _ _ _ _ h, ins_linear _ _ _ _ _ _ _ (by simp)]

theorem del_mixed (gap gap_open gap_extend : Int) (h : ¬(gap_open ≠ 0 ∧ gap_extend ≠ 0)) :
    del gap gap_open gap_extend = del gap 0 0 := by
  funext M T i j
  rw [del_linear _ _ _ _ _ _ _ h, del_linear _ _ _ _ _ _ _ (by simp)]

theorem step3_mixed (query target : List Char) (match_ mismatch gap gap_open gap_extend : Int)
    (h : ¬(gap_open ≠ 0 ∧ gap_extend ≠ 0)) :
    step3 query target match_ mismatch gap gap_open gap_extend =
      step3 query target match_ mismatch gap 0 0 := by
  funext M T i j
  simp only [step3, ins_mixed gap gap_open gap_extend h, del_mixed gap gap_open gap_extend h]

theorem step4_mixed (query target : List Char) (match_ mismatch gap gap_open gap_extend : Int)
    (h : ¬(gap_open ≠ 0 ∧ gap_extend ≠ 0)) :
    step4 query target match_ mismatch gap gap_open gap_extend =
      step4 query target match_ mismatch gap 0 0 := by
  funext M T i j
  simp only [step4, ins_mixed gap gap_open gap_extend h, del_mixed gap gap_open gap_extend h]

/-- Outside affine mode the filled state does not depend on `gap_open` and `gap_extend`. -/
theorem alignFill_mixed (type : AlignmentType) (query target : List Char)
    (match_ mismatch gap gap_open gap_extend : Int) (h : ¬(gap_open ≠ 0 ∧ gap_extend ≠ 0)) :
    alignFill type query target match_ mismatch gap gap_open gap_extend =
      alignFill type query target match_ mismatch gap 0 0 := by
  have h3 := step3_mixed query target match_ mismatch gap gap_open gap_extend h
  have h4 := step4_mixed query target match_ mismatch gap gap_open gap_extend h
  have hg : globalCell query target match_ mismatch gap gap_open gap_extend =
      globalCell query target match_ mismatch gap 0 0 := by
    funext s i j
    simp only [globalCell, h3]
  have hl : localCell query target match_ mismatch gap gap_open gap_extend =
      localCell query target match_ mismatch gap 0 0 := by
    funext s i j
    simp only [localCell, h4]
  have hsg : semiGlobalCell query target match_ mismatch gap gap_open gap_extend =
      semiGlobalCell query target match_ mismatch gap 0 0 := by
    funext s i j
    simp only [semiGlobalCell, h3]
  cases type with
  | global => simp only [alignFill, globalFill, hg]
  | local_ => simp only [alignFill, localFill, hl]
  | semiglobal => simp only [alignFill, semiGlobalFill, hsg]

/-- C15. Whenever `gap_open` and `gap_extend` are not both non-zero (at least one of them is
`0`), every gap step costs `gap`: for every alignment type and input, the score, the CIGAR and
the `target_begin` returned by `Align` are the same as those returned with `gap_open = 0` and
`gap_extend = 0`, whatever the value of the other parameter. -/
theorem mixed_gap_parameters_linear (type : AlignmentType) (query target : List Char)
    (match_ mismatch gap gap_open gap_extend : Int) (h : gap_open = 0 ∨ gap_extend = 0) :
    (Align query target type match_ mismatch gap gap_open gap_extend).score =
      (Align query target type match_ mismatch gap 0 0).score ∧
    (Align query target type match_ mismatch gap gap_open gap_extend).cigar =
      (Align query target type match_ mismatch gap 0 0).cigar ∧
    (Align query target type match_ mismatch gap gap_open gap_extend).target_begin =
      (Align query target type match_ mismatch gap 0 0).target_begin := by
  have hlin : ¬(gap_open ≠ 0 ∧ gap_extend ≠ 0) := by
    rintro ⟨h1, h2⟩
    rcases h with h | h
    · exact h1 h
    · exact h2 h
  rw [Align_eq_finish, Align_eq_finish,
    alignFill_mixed type query target match_ mismatch gap gap_open gap_extend hlin]
  exact ⟨rfl, rfl, rfl⟩

/-- Witness for C15: Global mode on `GA` against `A` with `gap_open = -2`, `gap_extend = 0`. -/
theorem mixed_gap_parameters_linear_witness :
    ((-2 : Int) = 0 ∨ (0 : Int) = 0) ∧
    ((Align ['G', 'A'] ['A'] .global 1 (-1) (-1) (-2) 0).score =
      (Align ['G', 'A'] ['A'] .global 1 (-1) (-1) 0 0).score ∧
    (Align ['G', 'A'] ['A'] .global 1 (-1) (-1) (-2) 0).cigar =
      (Align ['G', 'A'] ['A'] .global 1 (-1) (-1) 0 0).cigar ∧
    (Align ['G', 'A'] ['A'] .global 1 (-1) (-1) (-2) 0).target_begin =
      (Align ['G', 'A'] ['A'] .global 1 (-1) (-1) 0 0).target_begin) :=
  ⟨Or.inr rfl, mixed_gap_parameters_linear .global ['G', 'A'] ['A'] 1 (-1) (-1) (-2) 0
    (Or.inr rfl)⟩

/-! ## The run-length encoding step (C13) -/

theorem renderRuns_append (runs : List (Nat × Char)) (t : Nat × Char) :
    renderRuns (runs ++ [t]) = renderRuns runs ++ toString t.1 ++ String.singleton t.2 := by
  simp [renderRuns, List.foldl_append]

theorem chain_snoc (runs : List (Nat × Char)) (t : Nat × Char)
    (hchain : List.Chain' (fun a b : Nat × Char => a.2 ≠ b.2) runs)
    (hlast : ∀ x, runs.getLast? = some x → x.2 ≠ t.2) :
    List.Chain' (fun a b : Nat × Char => a.2 ≠ b.2) (runs ++ [t]) := by
  rw [List.chain'_append]
  refine ⟨hchain, List.chain'_singleton _, ?_⟩
  intro x hx y hy
  simp only [List.head?_cons, Option.mem_def, Option.some.injEq] at hy
  subst hy
  exact hlast x hx

/-- The run-length loop followed by the final append, with the shape of the tokens: the string
produced is the concatenation of tokens with counts at least `1` and different operators in
adjacent tokens; it reads back as these tokens, and they decode to the raw string after the
`count - 1` operators of the pending run. -/
theorem runLengthLoop_tokens (l : List Char) (prev : Char) (count : Nat) (acc : String)
    (runs : List (Nat × Char)) (hacc : acc = renderRuns runs) (hread : ReadsAs acc runs)
    (hpos : ∀ t ∈ runs, 1 ≤ t.1)
    (hchain : List.Chain' (fun a b : Nat × Char => a.2 ≠ b.2) runs)
    (hne : ∀ x, runs.getLast? = some x → x.2 ≠ prev)
    (hops : ∀ c ∈ prev :: l, c.isDigit = false) (hcount : 1 ≤ count) (last : Char)
    (hlast : (prev :: l).getLast? = some last) :
    ∃ runs2,
      (runLengthLoop (prev :: l) count acc).2 ++
        toString (runLengthLoop (prev :: l) count acc).1 ++ String.singleton last =
        renderRuns runs2 ∧
      ReadsAs (renderRuns runs2) runs2 ∧
      (∀ t ∈ runs2, 1 ≤ t.1) ∧
      List.Chain' (fun a b : Nat × Char => a.2 ≠ b.2) runs2 ∧
      expandRuns runs2 = expandRuns runs ++ List.replicate (count - 1) prev ++ (prev :: l) := by
  induction l generalizing prev count acc runs with
  | nil =>
    simp only [List.getLast?_singleton, Option.some.injEq] at hlast
    subst hlast
    have hr := renderRuns_append runs (count, prev)
    refine ⟨runs ++ [(count, prev)], ?_, ?_, ?_, chain_snoc runs _ hchain hne, ?_⟩
    · simp only [runLengthLoop, hr, hacc]
    · rw [hr, ← hacc]
      exact hread.token count prev (hops prev (List.mem_cons_self _ _))
    · intro t ht
      rcases List.mem_append.1 ht with ht | ht
      · exact hpos t ht
      · simp only [List.mem_singleton] at ht
        subst ht
        exact hcount
    · rw [expandRuns_append]
      simp only [expandRuns, List.append_nil, List.append_assoc]
      rw [replicate_pending count prev hcount]
  | cons cur rest ih =>
    rw [List.getLast?_cons_cons] at hlast
    have hops2 : ∀ c ∈ cur :: rest, c.isDigit = false :=
      fun c hc => hops c (List.mem_cons_of_mem _ hc)
    by_cases h : cur = prev
    · subst h
      obtain ⟨runs2, h1, h2, h3, h4, h5⟩ :=
        ih cur (count + 1) acc runs hacc hread hpos hchain hne hops2 (by omega) hlast
      refine ⟨runs2, ?_, h2, h3, h4, ?_⟩
      · simpa [runLengthLoop] using h1
      · rw [h5, Nat.add_sub_cancel, replicate_pending count cur hcount]
        simp
    · have hr := renderRuns_append runs (count, prev)
      obtain ⟨runs2, h1, h2, h3, h4, h5⟩ :=
        ih cur 1 (acc ++ toString count ++ String.singleton prev) (runs ++ [(count, prev)])
          (by rw [hr, hacc])
          (hread.token count prev (hops prev (List.mem_cons_self _ _)))
          (by
            intro t ht
            rcases List.mem_append.1 ht with ht | ht
            · exact hpos t ht
            · simp only [List.mem_singleton] at ht
              subst ht
              exact hcount)
          (chain_snoc runs _ hchain hne)
          (by
            intro x hx
            rw [List.getLast?_concat] at hx
            cases hx
            exact fun e => h e.symm)
          hops2 (le_refl _) hlast
      refine ⟨runs2, ?_, h2, h3, h4, ?_⟩
      · simpa [runLengthLoop, h] using h1
      · rw [h5, expandRuns_append]
        simp only [expandRuns, List.append_nil, List.append_assoc, Nat.sub_self,
          List.replicate_zero, List.nil_append]
        rw [replicate_pending count prev hcount]
        simp

/-- `GetCigar` is the walk, the reversal, and the run-length encoding step. -/
theorem GetCigar_eq_encode (T : Grid Direction) (end_query end_target : Nat) (raw : List Char)
    (i0 j0 : Nat)
    (hw : tracebackWalk T (end_query + end_target + 1) end_query end_target = .ok (raw, i0, j0)) :
    GetCigar T end_query end_target = runLengthEncode raw.reverse := by
  simp only [GetCigar, hw, runLengthEncode]

theorem renderRuns_nil : renderRuns [] = "" := rfl

/-- The run-length encoding step on a non-empty operator string. -/
theorem runLengthEncode_tokens (cigar : List Char) (hne : cigar ≠ [])
    (hops : IsEditScript cigar) :
    ∃ tokens, runLengthEncode cigar = .ok (renderRuns tokens) ∧
      (∀ t ∈ tokens, 1 ≤ t.1) ∧
      List.Chain' (fun a b : Nat × Char => a.2 ≠ b.2) tokens ∧
      expandRuns tokens = cigar ∧
      cigarRuns (renderRuns tokens) = tokens := by
  obtain ⟨prev, l, rfl⟩ := List.exists_cons_of_ne_nil hne
  obtain ⟨last, hlast⟩ : ∃ last, (prev :: l).getLast? = some last := by
    cases hl : (prev :: l).getLast? with
    | none => simp at hl
    | some x => exact ⟨x, rfl⟩
  obtain ⟨runs2, h1, h2, h3, h4, h5⟩ := runLengthLoop_tokens l prev 1 "" [] renderRuns_nil.symm
    ReadsAs.empty (by simp) List.chain'_nil (by simp) hops.not_digit (le_refl _) last hlast
  refine ⟨runs2, ?_, h3, h4, by simpa [expandRuns] using h5, h2.cigarRuns_eq⟩
  simp only [runLengthEncode, hlast, h1]

/-- C13. For every non-empty raw operator string over `M`, `I`, `D`, the run-length encoding
step of `GetCigar` yields a concatenation of `<count><operator>` tokens in which every count is
at least `1`, adjacent tokens have different operators, and expanding each token to `count`
copies of its operator gives back the raw string; the string reads back as these tokens;
`GetCigar` applies this step to the reversed string of the walk; and `MMMID` encodes to
`3M1I1D`. -/
theorem run_length_encoding (cigar : List Char) (hne : cigar ≠ []) (hops : IsEditScript cigar) :
    (∃ tokens, runLengthEncode cigar = .ok (renderRuns tokens) ∧
      (∀ t ∈ tokens, 1 ≤ t.1) ∧
      List.Chain' (fun a b : Nat × Char => a.2 ≠ b.2) tokens ∧
      expandRuns tokens = cigar ∧
      cigarRuns (renderRuns tokens) = tokens) ∧
    (∀ (T : Grid Direction) (end_query end_target : Nat) (raw : List Char) (i0 j0 : Nat),
      tracebackWalk T (end_query + end_target + 1) end_query end_target = .ok (raw, i0, j0) →
      GetCigar T end_query end_target = runLengthEncode raw.reverse) ∧
    runLengthEncode ['M', 'M', 'M', 'I', 'D'] = .ok "3M1I1D" :=
  ⟨runLengthEncode_tokens cigar hne hops, GetCigar_eq_encode, by decide⟩

/-- Witness for C13: the raw string `MMMID`. -/
theorem run_length_encoding_witness :
    (['M', 'M', 'M', 'I', 'D'] ≠ [] ∧ IsEditScript ['M', 'M', 'M', 'I', 'D']) ∧
    ((∃ tokens, runLengthEncode ['M', 'M', 'M', 'I', 'D'] = .ok (renderRuns tokens) ∧
      (∀ t ∈ tokens, 1 ≤ t.1) ∧
      List.Chain' (fun a b : Nat × Char => a.2 ≠ b.2) tokens ∧
      expandRuns tokens = ['M', 'M', 'M', 'I', 'D'] ∧
      cigarRuns (renderRuns tokens) = tokens) ∧
    (∀ (T : Grid Direction) (end_query end_target : Nat) (raw : List Char) (i0 j0 : Nat),
      tracebackWalk T (end_query + end_target + 1) end_query end_target = .ok (raw, i0, j0) →
      GetCigar T end_query end_target = runLengthEncode raw.reverse) ∧
    runLengthEncode ['M', 'M', 'M', 'I', 'D'] = .ok "3M1I1D") :=
  ⟨⟨by decide, by simp [IsEditScript]⟩,
   run_length_encoding ['M', 'M', 'M', 'I', 'D'] (by decide) (by simp [IsEditScript])⟩

/-! ## Swapping query and target (C20) -/

theorem substitution_swap (query target : List Char) (match_ mismatch : Int) (i j : Nat) :
    substitution query target match_ mismatch i j =
      substitution target query match_ mismatch j i := by
  unfold substitution
  by_cases h : query[i]? = target[j]?
  · rw [if_pos h, if_pos h.symm]
  · rw [if_neg h, if_neg (fun e => h e.symm)]

theorem three_value_swap (a b c : Int) :
    (max_element [(a, diag), (b, left), (c, up)]).1 =
      (max_element [(a, diag), (c, left), (b, up)]).1 := by
  rw [max_element_three, max_element_three]
  by_cases h1 : b ≤ a <;> by_cases h2 : c ≤ a <;> by_cases h3 : c ≤ b <;>
    by_cases h4 : b ≤ c <;> simp [h1, h2, h3, h4] <;> omega

theorem four_value_swap (a b c : Int) :
    (max_element [(a, diag), (b, left), (c, up), (0, stop)]).1 =
      (max_element [(a, diag), (c, left), (b, up), (0, stop)]).1 := by
  have h3 := three_value_swap a b c
  rw [max_element_three, max_element_three] at h3
  rw [max_element_four, max_element_four]
  by_cases h0 : a ≤ 0 ∧ b ≤ 0 ∧ c ≤ 0
  · have h0b : a ≤ 0 ∧ c ≤ 0 ∧ b ≤ 0 := ⟨h0.1, h0.2.2, h0.2.1⟩
    simp only [if_pos h0, if_pos h0b]
  · have h0b : ¬(a ≤ 0 ∧ c ≤ 0 ∧ b ≤ 0) := fun h => h0 ⟨h.1, h.2.2, h.2.1⟩
    simp only [if_neg h0, if_neg h0b]
    exact h3

/-- In the linear regime the value selected for a cell is the value selected for the mirrored
cell of the mirrored grids. -/
theorem step3_value_swap (query target : List Char)
    (match_ mismatch gap gap_open gap_extend : Int) (hlin : ¬(gap_open ≠ 0 ∧ gap_extend ≠ 0))
    (M1 M2 : Grid Int) (T1 T2 : Grid Direction) (i j : Nat)
    (h1 : M1 i j = M2 j i) (h2 : M1 (i + 1) j = M2 j (i + 1))
    (h3 : M1 i (j + 1) = M2 (j + 1) i) :
    (step3 query target match_ mismatch gap gap_open gap_extend M1 T1 (i + 1) (j + 1)).1 =
      (step3 target query match_ mismatch gap gap_open gap_extend M2 T2 (j + 1) (i + 1)).1 := by
  simp only [step3, subs_eq, ins_linear _ _ _ _ _ _ _ hlin, del_linear _ _ _ _ _ _ _ hlin,
    Nat.add_sub_cancel, h1, h2, h3, substitution_swap query target]
  exact three_value_swap _ _ _

theorem step4_value_swap (query target : List Char)
    (match_ mismatch gap gap_open gap_extend : Int) (hlin : ¬(gap_open ≠ 0 ∧ gap_extend ≠ 0))
    (M1 M2 : Grid Int) (T1 T2 : Grid Direction) (i j : Nat)
    (h1 : M1 i j = M2 j i) (h2 : M1 (i + 1) j = M2 j (i + 1))
    (h3 : M1 i (j + 1) = M2 (j + 1) i) :
    (step4 query target match_ mismatch gap gap_open gap_extend M1 T1 (i + 1) (j + 1)).1 =
      (step4 target query match_ mismatch gap gap_open gap_extend M2 T2 (j + 1) (i + 1)).1 := by
  simp only [step4, subs_eq, ins_linear _ _ _ _ _ _ _ hlin, del_linear _ _ _ _ _ _ _ hlin,
    Nat.add_sub_cancel, h1, h2, h3, substitution_swap query target]
  exact four_value_swap _ _ _

/-- Two grids that mirror each other on the border, and in each interior cell whenever they do
in its three predecessors, mirror each other everywhere. -/
theorem matrix_transpose {n m : Nat} {M1 M2 : Grid Int}
    (hborder : ∀ i j, i ≤ n → j ≤ m → i = 0 ∨ j = 0 → M1 i j = M2 j i)
    (hinterior : ∀ i j, i < n → j < m → M1 i j = M2 j i → M1 (i + 1) j = M2 j (i + 1) →
      M1 i (j + 1) = M2 (j + 1) i → M1 (i + 1) (j + 1) = M2 (j + 1) (i + 1))
    (i j : Nat) (hi : i ≤ n) (hj : j ≤ m) : M1 i j = M2 j i := by
  induction i generalizing j with
  | zero => exact hborder 0 j hi hj (Or.inl rfl)
  | succ i ih =>
    induction j with
    | zero => exact hborder (i + 1) 0 hi hj (Or.inr rfl)
    | succ j ihj =>
      exact hinterior i j (by omega) (by omega) (ih j (by omega) (by omega)) (ihj (by omega))
        (ih (j + 1) (by omega) hj)

theorem global_matrix_swap (query target : List Char) (match_ mismatch gap : Int) (i j : Nat)
    (hi : i ≤ query.length) (hj : j ≤ target.length) :
    (globalFill query target match_ mismatch gap 0 0).matrix i j =
      (globalFill target query match_ mismatch gap 0 0).matrix j i := by
  have h1 := globalFill_spec query target match_ mismatch gap 0 0
  have h2 := globalFill_spec target query match_ mismatch gap 0 0
  refine matrix_transpose ?_ ?_ i j hi hj
  · intro a b ha hb h0
    rcases h0 with rfl | rfl
    · rw [h1.row_zero b hb, h2.col_zero b hb]
    · rw [h1.col_zero a ha, h2.row_zero a ha]
  · intro a b ha hb e1 e2 e3
    rw [(h1.interior (a + 1) (b + 1) (by omega) (by omega) (by omega) (by omega)).1,
      (h2.interior (b + 1) (a + 1) (by omega) (by omega) (by omega) (by omega)).1]
    exact step3_value_swap query target match_ mismatch gap 0 0 (by simp) _ _ _ _ a b e1 e2 e3

theorem local_matrix_swap (query target : List Char) (match_ mismatch gap : Int) (i j : Nat)
    (hi : i ≤ query.length) (hj : j ≤ target.length) :
    (localFill query target match_ mismatch gap 0 0).matrix i j =
      (localFill target query match_ mismatch gap 0 0).matrix j i := by
  have h1 := localFill_spec query target match_ mismatch gap 0 0
  have h2 := localFill_spec target query match_ mismatch gap 0 0
  refine matrix_transpose ?_ ?_ i j hi hj
  · intro a b ha hb h0
    rw [(h1.border.at_border a b ha hb h0).1, (h2.border.at_border b a hb ha h0.symm).1]
  · intro a b ha hb e1 e2 e3
    rw [(h1.interior (a + 1) (b + 1) (by omega) (by omega) (by omega) (by omega)).1,
      (h2.interior (b + 1) (a + 1) (by omega) (by omega) (by omega) (by omega)).1]
    exact step4_value_swap query target match_ mismatch gap 0 0 (by simp) _ _ _ _ a b e1 e2 e3

theorem semiglobal_matrix_swap (query target : List Char) (match_ mismatch gap : Int)
    (i j : Nat) (hi : i ≤ query.length) (hj : j ≤ target.length) :
    (semiGlobalFill query target match_ mismatch gap 0 0).matrix i j =
      (semiGlobalFill target query match_ mismatch gap 0 0).matrix j i := by
  have h1 := semiGlobalFill_spec query target match_ mismatch gap 0 0
  have h2 := semiGlobalFill_spec target query match_ mismatch gap 0 0
  refine matrix_transpose ?_ ?_ i j hi hj
  · intro a b ha hb h0
    rw [(h1.border.at_border a b ha hb h0).1, (h2.border.at_border b a hb ha h0.symm).1]
  · intro a b ha hb e1 e2 e3
    rw [(h1.interior (a + 1) (b + 1) (by omega) (by omega) (by omega) (by omega)).1,
      (h2.interior (b + 1) (a + 1) (by omega) (by omega) (by omega) (by omega)).1]
    exact step3_value_swap query target match_ mismatch gap 0 0 (by simp) _ _ _ _ a b e1 e2 e3

/-- The score of `SemiGlobalAlignment` is the value of a cell of the last row or column. -/
theorem SemiGlobalSpec.score_attained {query target : List Char}
    {match_ mismatch gap gap_open gap_extend : Int} {s : AlignState}
    (h : SemiGlobalSpec query target match_ mismatch gap gap_open gap_extend s) :
    ∃ i j, i ≤ query.length ∧ j ≤ target.length ∧
      (i = query.length ∨ j = target.length) ∧ s.matrix i j = s.score := by
  rcases h.end_cases with ⟨h1, h2⟩ | ⟨h1, h2, h3, h4, h5⟩
  · refine ⟨query.length, 0, le_refl _, Nat.zero_le _, Or.inl rfl, ?_⟩
    rw [h.score_eq, h1, h2, h.border.origin.1]
    exact (h.border.at_border _ _ (le_refl _) (Nat.zero_le _) (Or.inr rfl)).1
  · exact ⟨_, _, h2, h4, h5, h.score_eq.symm⟩

/-- The score of `SemiGlobalAlignment` is at least every value of the last row and column. -/
theorem SemiGlobalSpec.edge_le_score {query target : List Char}
    {match_ mismatch gap gap_open gap_extend : Int} {s : AlignState}
    (h : SemiGlobalSpec query target match_ mismatch gap gap_open gap_extend s) (i j : Nat)
    (hi : i ≤ query.length) (hj : j ≤ target.length)
    (hedge : i = query.length ∨ j = target.length) : s.matrix i j ≤ s.score := by
  by_cases h0 : i = 0 ∨ j = 0
  · rw [(h.border.at_border i j hi hj h0).1]
    exact h.score_nonneg
  · exact h.score_ge i j (by omega) hi (by omega) hj hedge

theorem local_score_swap_le (query target : List Char) (match_ mismatch gap : Int) :
    (localFill query target match_ mismatch gap 0 0).score ≤
      (localFill target query match_ mismatch gap 0 0).score := by
  have h1 := localFill_spec query target match_ mismatch gap 0 0
  have h2 := localFill_spec target query match_ mismatch gap 0 0
  rw [h1.score_eq, local_matrix_swap query target match_ mismatch gap _ _ h1.end_le_local.1
    h1.end_le_local.2]
  exact h2.matrix_le_score _ _ h1.end_le_local.2 h1.end_le_local.1

theorem semiglobal_score_swap_le (query target : List Char) (match_ mismatch gap : Int) :
    (semiGlobalFill query target match_ mismatch gap 0 0).score ≤
      (semiGlobalFill target query match_ mismatch gap 0 0).score := by
  have h1 := semiGlobalFill_spec query target match_ mismatch gap 0 0
  have h2 := semiGlobalFill_spec target query match_ mismatch gap 0 0
  obtain ⟨i, j, hi, hj, hedge, he⟩ := h1.score_attained
  rw [← he, semiglobal_matrix_swap query target match_ mismatch gap i j hi hj]
  exact h2.edge_le_score j i hj hi hedge.symm

/-- C20. In linear-gap mode (`gap_open = 0`, `gap_extend = 0`), for each of the three alignment
types and all `match`, `mismatch` and `gap`, the returned score is unchanged when query and
target are swapped. -/
theorem score_swap_invariant (type : AlignmentType) (query target : List Char)
    (match_ mismatch gap : Int) :
    (Align query target type match_ mismatch gap 0 0).score =
      (Align target query type match_ mismatch gap 0 0).score := by
  cases type with
  | global =>
    exact global_matrix_swap query target match_ mismatch gap _ _ (le_refl _) (le_refl _)
  | local_ =>
    exact le_antisymm (local_score_swap_le query target match_ mismatch gap)
      (local_score_swap_le target query match_ mismatch gap)
  | semiglobal =>
    exact le_antisymm (semiglobal_score_swap_le query target match_ mismatch gap)
      (semiglobal_score_swap_le target query match_ mismatch gap)

/-! ## A sequence against itself (C21) -/

theorem substitution_le_match (query target : List Char) (match_ mismatch : Int)
    (hmm : mismatch ≤ match_) (i j : Nat) :
    substitution query target match_ mismatch i j ≤ match_ := by
  unfold substitution
  split
  · exact le_refl _
  · exact hmm

/-- In the linear regime with `mismatch ≤ match` and `2 * gap ≤ match`, twice the value of a
cell of the grid of `GlobalAlignment` is at most `(i + j) * match`. -/
theorem GlobalSpec.twice_le {query target : List Char}
    {match_ mismatch gap gap_open gap_extend : Int} {s : AlignState}
    (h : GlobalSpec query target match_ mismatch gap gap_open gap_extend s)
    (hlin : ¬(gap_open ≠ 0 ∧ gap_extend ≠ 0)) (hmm : mismatch ≤ match_)
    (hgap : 2 * gap ≤ match_) (i j : Nat) (hi : i ≤ query.length) (hj : j ≤ target.length) :
    2 * s.matrix i j ≤ ((i : Int) + j) * match_ := by
  have hmul : ∀ k : Nat, 2 * (gap * (k : Int)) ≤ (k : Int) * match_ := by
    intro k
    have hk : (0 : Int) ≤ k := Int.ofNat_nonneg k
    nlinarith
  induction i generalizing j with
  | zero =>
    rw [h.row_zero j hj]
    have := hmul j
    push_cast
    linarith
  | succ i ih =>
    induction j with
    | zero =>
      rw [h.col_zero (i + 1) hi]
      have := hmul (i + 1)
      push_cast at this ⊢
      linarith
    | succ j ihj =>
      have e1 := ih j (by omega) (by omega)
      have e2 := ih (j + 1) (by omega) hj
      have e3 := ihj (by omega)
      have hsub := substitution_le_match query target match_ mismatch hmm i j
      have hc := (h.interior (i + 1) (j + 1) (by omega) hi (by omega) hj).1
      push_cast at e2 e3 ⊢
      rcases step3_mem query target match_ mismatch gap gap_open gap_extend s.matrix
        s.traceback (i + 1) (j + 1) with e | e | e <;> rw [e] at hc <;> rw [hc]
      · rw [subs_eq]
        simp only [Nat.add_sub_cancel]
        linarith
      · rw [ins_linear _ _ _ _ _ _ _ hlin]
        simp only [Nat.add_sub_cancel]
        linarith
      · rw [del_linear _ _ _ _ _ _ _ hlin]
        simp only [Nat.add_sub_cancel]
        linarith

/-- On the diagonal of the grid of a sequence against itself every cell holds `i * match` and,
off the origin, is tagged `diag`. -/
theorem self_diagonal (seq : List Char) (match_ mismatch gap : Int) (hmm : mismatch ≤ match_)
    (hgap : 2 * gap ≤ match_) (i : Nat) (hi : i ≤ seq.length) :
    (globalFill seq seq match_ mismatch gap 0 0).matrix i i = (i : Int) * match_ ∧
    (1 ≤ i → (globalFill seq seq match_ mismatch gap 0 0).traceback i i = diag) := by
  have hs := globalFill_spec seq seq match_ mismatch gap 0 0
  have hlin : ¬((0 : Int) ≠ 0 ∧ (0 : Int) ≠ 0) := by simp
  induction i with
  | zero =>
    refine ⟨?_, fun h => absurd h (by omega)⟩
    rw [hs.border.origin.1]
    simp
  | succ i ih =>
    obtain ⟨hd, _⟩ := ih (by omega)
    obtain ⟨hM, hT⟩ := hs.interior (i + 1) (i + 1) (by omega) hi (by omega) hi
    have b1 := hs.twice_le hlin hmm hgap (i + 1) i hi (by omega)
    have b2 := hs.twice_le hlin hmm hgap i (i + 1) (by omega) hi
    have hsubs : subs seq seq match_ mismatch
        (globalFill seq seq match_ mismatch gap 0 0).matrix (i + 1) (i + 1) =
        ((i + 1 : Nat) : Int) * match_ := by
      rw [subs_eq]
      simp only [Nat.add_sub_cancel, substitution, if_true, hd]
      push_cast
      ring
    have hins : ins gap 0 0 (globalFill seq seq match_ mismatch gap 0 0).matrix
        (globalFill seq seq match_ mismatch gap 0 0).traceback (i + 1) (i + 1) ≤
        ((i + 1 : Nat) : Int) * match_ := by
      rw [ins_linear _ _ _ _ _ _ _ hlin]
      simp only [Nat.add_sub_cancel]
      push_cast at b1 ⊢
      linarith
    have hdel : del gap 0 0 (globalFill seq seq match_ mismatch gap 0 0).matrix
        (globalFill seq seq match_ mismatch gap 0 0).traceback (i + 1) (i + 1) ≤
        ((i + 1 : Nat) : Int) * match_ := by
      rw [del_linear _ _ _ _ _ _ _ hlin]
      simp only [Nat.add_sub_cancel]
      push_cast at b2 ⊢
      linarith
    have hstep : step3 seq seq match_ mismatch gap 0 0
        (globalFill seq seq match_ mismatch gap 0 0).matrix
        (globalFill seq seq match_ mismatch gap 0 0).traceback (i + 1) (i + 1) =
        (((i + 1 : Nat) : Int) * match_, diag) := by
      rw [step3, max_element_three, hsubs, if_pos ⟨hins, hdel⟩]
    rw [hstep] at hM hT
    exact ⟨hM, fun _ => hT⟩

/-- The walk down the diagonal of a sequence against itself appends `i` times `M` and breaks at
`(0, 0)`. -/
theorem self_walk (seq : List Char) (match_ mismatch gap : Int) (hmm : mismatch ≤ match_)
    (hgap : 2 * gap ≤ match_) (i fuel : Nat) (hi : i ≤ seq.length) (hf : i < fuel) :
    tracebackWalk (globalFill seq seq match_ mismatch gap 0 0).traceback fuel i i =
      .ok (List.replicate i 'M', 0, 0) := by
  induction i generalizing fuel with
  | zero =>
    obtain ⟨k, rfl⟩ : ∃ k, fuel = k + 1 := ⟨fuel - 1, by omega⟩
    have h0 := (globalFill_spec seq seq match_ mismatch gap 0 0).border.origin.2
    simp [tracebackWalk, h0]
  | succ i ih =>
    obtain ⟨k, rfl⟩ : ∃ k, fuel = k + 1 := ⟨fuel - 1, by omega⟩
    have hT := (self_diagonal seq match_ mismatch gap hmm hgap (i + 1) hi).2 (by omega)
    have hw := ih k (by omega) (by omega)
    simp [tracebackWalk, hT, hw, Except.map, List.replicate_succ]

theorem runLengthLoop_replicate (c : Char) (k count : Nat) (acc : String) :
    runLengthLoop (c :: List.replicate k c) count acc = (count + k, acc) := by
  induction k generalizing count with
  | zero => simp [runLengthLoop]
  | succ k ih =>
    rw [List.replicate_succ, runLengthLoop, if_pos rfl, ih]
    congr 1
    omega

/-- C21. In linear-gap Global mode (`gap_open = 0`, `gap_extend = 0`), for every non-empty
sequence of length `n` and all costs with `mismatch ≤ match` and `2 * gap ≤ match`, aligning the
sequence against itself returns the score `n * match`, the CIGAR `<n>M` (a single run of `n`
operators `M`) and `target_begin` `0`. -/
theorem self_alignment (seq : List Char) (match_ mismatch gap : Int) (hne : seq ≠ [])
    (hmm : mismatch ≤ match_) (hgap : 2 * gap ≤ match_) :
    (GlobalAlignment seq seq match_ mismatch gap 0 0).score = (seq.length : Int) * match_ ∧
    (GlobalAlignment seq seq match_ mismatch gap 0 0).cigar =
      .ok (toString seq.length ++ "M") ∧
    cigarRuns (toString seq.length ++ "M") = [(seq.length, 'M')] ∧
    (GlobalAlignment seq seq match_ mismatch gap 0 0).target_begin = .ok 0 := by
  have hw := self_walk seq match_ mismatch gap hmm hgap seq.length
    (seq.length + seq.length + 1) (le_refl _) (by omega)
  obtain ⟨k, hk⟩ : ∃ k, seq.length = k + 1 :=
    ⟨seq.length - 1, by have := List.length_pos.2 hne; omega⟩
  refine ⟨(self_diagonal seq match_ mismatch gap hmm hgap seq.length (le_refl _)).1, ?_, ?_, ?_⟩
  · show GetCigar (globalFill seq seq match_ mismatch gap 0 0).traceback seq.length seq.length
      = _
    simp only [GetCigar, hw, List.reverse_replicate]
    have hl : ('M' :: List.replicate k 'M').getLast? = some 'M' := by
      rw [← List.replicate_succ, List.getLast?_replicate]
      simp
    rw [hk, List.replicate_succ, runLengthLoop_replicate, hl, Nat.add_comm 1 k]
    rfl
  · have h := ReadsAs.empty.token seq.length 'M' rfl
    simpa using h.cigarRuns_eq
  · show GetTargetBegin (globalFill seq seq match_ mismatch gap 0 0).traceback seq.length
      seq.length = _
    simp only [GetTargetBegin, hw]

/-- Witness for C21: the sequence `AC` with `match = 1`, `mismatch = -1`, `gap = -1`. -/
theorem self_alignment_witness :
    (['A', 'C'] ≠ [] ∧ (-1 : Int) ≤ 1 ∧ 2 * (-1 : Int) ≤ 1) ∧
    ((GlobalAlignment ['A', 'C'] ['A', 'C'] 1 (-1) (-1) 0 0).score
      = (['A', 'C'].length : Int) * 1 ∧
    (GlobalAlignment ['A', 'C'] ['A', 'C'] 1 (-1) (-1) 0 0).cigar =
      .ok (toString ['A', 'C'].length ++ "M") ∧
    cigarRuns (toString ['A', 'C'].length ++ "M") = [(['A', 'C'].length, 'M')] ∧
    (GlobalAlignment ['A', 'C'] ['A', 'C'] 1 (-1) (-1) 0 0).target_begin = .ok 0) :=
  ⟨by decide, self_alignment ['A', 'C'] 1 (-1) (-1) (by decide) (by decide) (by decide)⟩

end ivory
